import Mathlib

/-!
NewsService: request validation and partial-update pipeline.

A shallow embedding of the validation and edit-translation code of the news
service (packages `models`, `validators` and `service`), followed by the
properties proved about it.

Conventions of the embedding.

* A Go `string` that came out of a JSON decode is valid UTF-8, so it is a
  sequence of Unicode scalar values: a Lean `String`. Its rune count
  (`utf8.RuneCountInString`) is `String.length`.
* `int64` category ids are `Int`.
* A Go `error` result is an `Option`: `none` is `nil`, `some e` is the error.
  Errors built with `errors.New` / `fmt.Errorf` are represented by their
  message text.
* A pointer field (`*string`, `*[]int64`) is an `Option`: `none` is the nil
  pointer, `some v` a pointer to `v`.
-/

namespace NewsService

/-! ## Go standard library: `strings.TrimSpace` -/

/-- Go `unicode.IsSpace`: the Latin-1 white space characters tab, line feed,
vertical tab, form feed, carriage return, space, U+0085 and U+00A0, and beyond
Latin-1 the code points with the Unicode White_Space property. -/
def unicodeIsSpace (c : Char) : Bool :=
  let n := c.toNat
  (0x09 ≤ n && n ≤ 0x0D) || n == 0x20 || n == 0x85 || n == 0xA0 || n == 0x1680 ||
  (0x2000 ≤ n && n ≤ 0x200A) || n == 0x2028 || n == 0x2029 || n == 0x202F ||
  n == 0x205F || n == 0x3000

/-- Go `strings.TrimSpace`: the string without its leading and trailing white
space, as defined by `unicode.IsSpace`. -/
def TrimSpace (s : String) : String :=
  String.mk ((s.data.dropWhile unicodeIsSpace).rdropWhile unicodeIsSpace)

/-! ## go-playground/validator: the tags used by the forms -/

/-- One entry of `validator.ValidationErrors`: the accessors `Field()`,
`Tag()` and `Param()` of a failed rule. -/
structure FieldError where
  Field : String
  Tag : String
  Param : String
deriving DecidableEq, Repr

/-- The validation tags that occur on the string fields of the forms. -/
inductive StrTag where
  | required
  | omitempty
  | min (n : Nat)
  | max (n : Nat)
deriving DecidableEq, Repr

/-- The validator walks the tag chain of a string field from left to right
and records at most one error for the field, that of the first failing tag.
`isPtr` says that the value was reached through a non-nil pointer: the
library then regards the field as having a value even when the string is
empty. `required` fails and `omitempty` stops the chain on a field without
value; `min` and `max` compare the rune count with the parameter. -/
def runStrTags (name : String) (isPtr : Bool) (s : String) : List StrTag → List FieldError
  | [] => []
  | StrTag.required :: rest =>
      if isPtr || s != "" then runStrTags name isPtr s rest
      else [{ Field := name, Tag := "required", Param := "" }]
  | StrTag.omitempty :: rest =>
      if isPtr || s != "" then runStrTags name isPtr s rest else []
  | StrTag.min n :: rest =>
      if n ≤ s.length then runStrTags name isPtr s rest
      else [{ Field := name, Tag := "min", Param := toString n }]
  | StrTag.max n :: rest =>
      if s.length ≤ n then runStrTags name isPtr s rest
      else [{ Field := name, Tag := "max", Param := toString n }]

/-- A field of type `string` with the given tag chain. -/
def validateString (name : String) (tags : List StrTag) (s : String) : List FieldError :=
  runStrTags name false s tags

/-- A field of type `*string` whose tag chain starts with `omitempty`: a nil
pointer is skipped, a non-nil pointer is dereferenced and the chain is run on
the string it points to. -/
def validateStringPtr (name : String) (tags : List StrTag) : Option String → List FieldError
  | none => []
  | some s => runStrTags name true s tags

/-- The elements of a slice under `dive,gt=p`: every element that is not
greater than `p` yields an error whose field name carries the index, as in
`Categories[2]`; `i` is the index of the head of the list. -/
def diveGt (name : String) (p : Int) : Nat → List Int → List FieldError
  | _, [] => []
  | i, x :: xs =>
      (if x > p then []
       else [{ Field := name ++ "[" ++ toString i ++ "]", Tag := "gt", Param := toString p }])
        ++ diveGt name p (i + 1) xs

/-- A field of type `*[]int64` tagged `omitempty,dive,gt=p`: a nil pointer is
skipped, otherwise the rule `gt=p` is applied to each element in order. -/
def validateInt64SlicePtr (name : String) (p : Int) : Option (List Int) → List FieldError
  | none => []
  | some xs => diveGt name p 0 xs

/-! ## Package `models` -/

/-- The form of a create request.
`Title string validate:"required,min=1,max=255"`,
`Content string validate:"required,min=1"`,
`Categories *[]int64 validate:"omitempty,dive,gt=0"`. -/
structure NewsCreateForm where
  Title : String
  Content : String
  Categories : Option (List Int)
deriving DecidableEq, Repr

/-- The form of an edit request.
`Title *string validate:"omitempty,min=1,max=255"`,
`Content *string validate:"omitempty,min=1"`,
`Categories *[]int64 validate:"omitempty,dive,gt=0"`. -/
structure NewsEditForm where
  Title : Option String
  Content : Option String
  Categories : Option (List Int)
deriving DecidableEq, Repr

/-- Function `formatValidationError` of `models/news.go`: the message of the first entry of the
validation errors, chosen by its tag. -/
def formatValidationError : List FieldError → String
  | [] => ""
  | e :: _ =>
      if e.Tag = "required" then e.Field ++ ": field is required"
      else if e.Tag = "min" then e.Field ++ ": minimum length is " ++ e.Param
      else if e.Tag = "max" then e.Field ++ ": maximum length is " ++ e.Param
      else if e.Tag = "gt" then e.Field ++ ": must be greater than " ++ e.Param
      else if e.Tag = "dive" then e.Field ++ ": contains invalid element"
      else e.Field ++ ": validation failed (" ++ e.Tag ++ ")"

/-- The call `validate.Struct(n)` on a `NewsCreateForm`: the fields are visited in
declaration order and the errors of all fields are collected. -/
def NewsCreateForm.validateStruct (n : NewsCreateForm) : List FieldError :=
  validateString "Title" [StrTag.required, StrTag.min 1, StrTag.max 255] n.Title
    ++ validateString "Content" [StrTag.required, StrTag.min 1] n.Content
    ++ validateInt64SlicePtr "Categories" 0 n.Categories

/-- Method `(*NewsCreateForm).Validate`: nil when `validate.Struct` reports no
error, else the formatted first error. -/
def NewsCreateForm.Validate (n : NewsCreateForm) : Option String :=
  match n.validateStruct with
  | [] => none
  | e :: es => some (formatValidationError (e :: es))

/-- Method `(*NewsCreateForm).Normalize`: Title and Content are replaced by
their `strings.TrimSpace`. -/
def NewsCreateForm.Normalize (n : NewsCreateForm) : NewsCreateForm :=
  { n with Title := TrimSpace n.Title, Content := TrimSpace n.Content }

/-- The call `validate.Struct(n)` on a `NewsEditForm`. -/
def NewsEditForm.validateStruct (n : NewsEditForm) : List FieldError :=
  validateStringPtr "Title" [StrTag.omitempty, StrTag.min 1, StrTag.max 255] n.Title
    ++ validateStringPtr "Content" [StrTag.omitempty, StrTag.min 1] n.Content
    ++ validateInt64SlicePtr "Categories" 0 n.Categories

/-- Method `(*NewsEditForm).Validate`: the check that some field is present
comes first, then `validate.Struct`. -/
def NewsEditForm.Validate (n : NewsEditForm) : Option String :=
  if n.Title = none ∧ n.Content = none ∧ n.Categories = none then
    some "body must contain at least one field to update (Title, Content, or Categories)"
  else
    match n.validateStruct with
    | [] => none
    | e :: es => some (formatValidationError (e :: es))

/-- Method `(*NewsEditForm).Normalize`: a present Title or Content is replaced
by a pointer to its `strings.TrimSpace`. -/
def NewsEditForm.Normalize (n : NewsEditForm) : NewsEditForm :=
  { n with
    Title := match n.Title with
      | some t => some (TrimSpace t)
      | none => none
    Content := match n.Content with
      | some c => some (TrimSpace c)
      | none => none }

/-! ## Go values produced by `encoding/json` -/

/-- A `float64` as `json.Unmarshal` can produce it: a finite value, given by
the rational number it denotes exactly, or the IEEE negative zero, which
compares equal to zero but is a value of its own. NaN and the infinities are
never the result of decoding a JSON number. -/
inductive Float64 where
  | finite (q : ℚ)
  | negZero
deriving DecidableEq

/-- The number a `float64` denotes. -/
def Float64.toRat : Float64 → ℚ
  | Float64.finite q => q
  | Float64.negZero => 0

/-- Go `math.Floor`: the greatest integral value not above the argument; the
floor of a `float64` is again a `float64`, and negative zero is returned
unchanged. -/
def Float64.Floor : Float64 → Float64
  | Float64.finite q => Float64.finite (Rat.floor q)
  | Float64.negZero => Float64.negZero

/-- What `json.Unmarshal` stores in an `interface{}`: `nil` for null, `bool`,
`float64` for every number, `string`, `[]interface{}` and
`map[string]interface{}`. The members of an object are kept in document
order; the decoder lets a later member overwrite an earlier one with the same
key, which `mapIndex` and `mapLen` below account for. -/
inductive JSONValue where
  | null
  | bool (b : Bool)
  | number (f : Float64)
  | string (s : String)
  | array (xs : List JSONValue)
  | object (kv : List (String × JSONValue))

/-- The verb `%T` of package `fmt` on a decoded value: the name of its Go
type. -/
def goTypeName : JSONValue → String
  | JSONValue.null => "<nil>"
  | JSONValue.bool _ => "bool"
  | JSONValue.number _ => "float64"
  | JSONValue.string _ => "string"
  | JSONValue.array _ => "[]interface \x7b\x7d"
  | JSONValue.object _ => "map[string]interface \x7b\x7d"

/-- A Go map with string keys, given by the sequence of its assignments: the
last assignment to a key is the one that counts. `mapIndex m k` is the
two-valued index expression `v, exists := m[k]`. -/
def mapIndex {α : Type} : List (String × α) → String → Option α
  | [], _ => none
  | (k', v) :: rest, k =>
      match mapIndex rest k with
      | some w => some w
      | none => if k' = k then some v else none

/-- Go `len(m)`: the number of distinct keys. -/
def mapLen {α : Type} (m : List (String × α)) : Nat :=
  (m.map Prod.fst).dedup.length

/-- The statement `delete(m, k)`, used to speak about a body without one of
its keys. -/
def mapDelete {α : Type} (m : List (String × α)) (k : String) : List (String × α) :=
  m.filter (fun p => p.1 ≠ k)

/-- A request body, `c.Body()`: the bytes are represented by the generic value
`encoding/json` decodes them to, `none` when it rejects them. -/
abbrev Body := Option JSONValue

/-- The call `json.Unmarshal(data, &raw)` for `raw map[string]interface{}`:
`none` is a non-nil error. An object fills the map, `null` leaves the map nil
without error, every other document is a type error. -/
def unmarshalRaw : Body → Option (List (String × JSONValue))
  | none => none
  | some (JSONValue.object kv) => some kv
  | some JSONValue.null => some []
  | some _ => none

/-! ## Package `validators` -/

/-- Type `validators.ValidationError`. -/
structure ValidationError where
  Field : String
  Message : String
deriving DecidableEq, Repr

/-- Method `(*ValidationError).Error`: `fmt.Sprintf("%s: %s", e.Field, e.Message)`. -/
def ValidationError.Error (e : ValidationError) : String :=
  e.Field ++ ": " ++ e.Message

/-- The loop of `validateCategoriesArray` over the elements from index `i`
on. `fmtV` is the verb `%v` of package `fmt` on a `float64`. -/
def validateCategoriesLoop (fmtV : Float64 → String) : Nat → List JSONValue → Option ValidationError
  | _, [] => none
  | i, cat :: rest =>
      match cat with
      | JSONValue.number num =>
          if num.toRat ≠ (Float64.Floor num).toRat then
            some { Field := "Categories",
                   Message := "element at index " ++ toString i ++ " must be integer, got " ++ fmtV num }
          else if num.toRat ≤ 0 then
            some { Field := "Categories",
                   Message := "element at index " ++ toString i ++ " must be positive, got " ++ fmtV num }
          else validateCategoriesLoop fmtV (i + 1) rest
      | _ =>
          some { Field := "Categories",
                 Message := "element at index " ++ toString i ++ " must be number, got " ++ goTypeName cat }

/-- Function `validateCategoriesArray`: the type assertion to `[]interface{}`
followed by the loop over the elements. -/
def validateCategoriesArray (fmtV : Float64 → String) (categories : JSONValue) : Option ValidationError :=
  match categories with
  | JSONValue.array catSlice => validateCategoriesLoop fmtV 0 catSlice
  | _ => some { Field := "Categories", Message := "must be array numbers" }

/-- The flag `ok` of the type assertion `_, ok := v.(string)`. -/
def isString : JSONValue → Bool
  | JSONValue.string _ => true
  | _ => false

/-- The comparison `v == nil` on a decoded value. -/
def isNil : JSONValue → Bool
  | JSONValue.null => true
  | _ => false

/-- Function `ValidateCreateNewsRequest`. Each `if` of the source that returns
an error is a step whose error, when there is one, ends the function. -/
def ValidateCreateNewsRequest (fmtV : Float64 → String) (data : Body) : Option ValidationError :=
  match unmarshalRaw data with
  | none => some { Field := "body", Message := "invalid JSON format" }
  | some raw =>
      if mapLen raw = 0 then
        some { Field := "body", Message := "must contain required fields (Title, Content)" }
      else
        let titleErr : Option ValidationError :=
          match mapIndex raw "Title" with
          | some title =>
              if !isString title then some { Field := "Title", Message := "must be string" }
              else none
          | none => none
        match titleErr with
        | some err => some err
        | none =>
            let contentErr : Option ValidationError :=
              match mapIndex raw "Content" with
              | some content =>
                  if !isString content then some { Field := "Content", Message := "must be string" }
                  else none
              | none => none
            match contentErr with
            | some err => some err
            | none =>
                match mapIndex raw "Categories" with
                | some categories =>
                    if !isNil categories then validateCategoriesArray fmtV categories else none
                | none => none

/-- Function `ValidateEditNewsRequest`. It differs from the create validator
in the message for an empty object, in skipping a nil Title or Content, and in
naming the Go type of a value that is not a string. -/
def ValidateEditNewsRequest (fmtV : Float64 → String) (data : Body) : Option ValidationError :=
  match unmarshalRaw data with
  | none => some { Field := "body", Message := "invalid JSON format" }
  | some raw =>
      if mapLen raw = 0 then
        some { Field := "body",
               Message := "must contain at least one field to update (Title, Content, or Categories)" }
      else
        let titleErr : Option ValidationError :=
          match mapIndex raw "Title" with
          | some title =>
              if !isNil title then
                if !isString title then
                  some { Field := "Title", Message := "must be string, got " ++ goTypeName title }
                else none
              else none
          | none => none
        match titleErr with
        | some err => some err
        | none =>
            let contentErr : Option ValidationError :=
              match mapIndex raw "Content" with
              | some content =>
                  if !isNil content then
                    if !isString content then
                      some { Field := "Content",
                             Message := "must be string, got " ++ goTypeName content }
                    else none
                  else none
              | none => none
            match contentErr with
            | some err => some err
            | none =>
                match mapIndex raw "Categories" with
                | some categories =>
                    if !isNil categories then validateCategoriesArray fmtV categories else none
                | none => none

/-- A rendering of `float64` values that agrees with the verb `%v` on the
integral values of magnitude below one million, which Go prints as plain
decimal integers (`-2`, `0`, `15`), and on negative zero (`-0`). It serves to
instantiate `fmtV` on concrete inputs of that kind. -/
def fmtSmallIntegral : Float64 → String
  | Float64.negZero => "-0"
  | Float64.finite q => toString (Rat.floor q)

/-! ## Package `service` -/

/-- The assignment `m[k] = v` on a Go map given by its assignments. -/
def mapSet {α : Type} (m : List (String × α)) (k : String) (v : α) : List (String × α) :=
  m ++ [(k, v)]

/-- The arguments of one call of `INewsRepository.UpdateNews`: the news id,
the update-field-set (a `map[string]interface{}` whose values are the new
strings) and the categories pointer. -/
structure UpdateNewsCall where
  id : Int
  updateFields : List (String × String)
  categories : Option (List Int)
deriving DecidableEq, Repr

/-- The method `UpdateNews` of `repository.INewsRepository`, over a store
state `σ` and an error type `ε`: it returns its error (`none` is `nil`) and
the store it leaves behind. -/
structure INewsRepository (σ ε : Type) where
  UpdateNews : Int → List (String × String) → Option (List Int) → σ → Option ε × σ

/-- The local map `updateFields` of `EditNews` after its two conditional
assignments. -/
def updateFieldsOf (editForm : NewsEditForm) : List (String × String) :=
  let updateFields : List (String × String) := []
  let updateFields :=
    match editForm.Title with
    | some title => mapSet updateFields "title" title
    | none => updateFields
  match editForm.Content with
  | some content => mapSet updateFields "content" content
  | none => updateFields

/-- Method `(*NewsService).EditNews`, in store-passing style. -/
def EditNews {σ ε : Type} (repo : INewsRepository σ ε) (newsId : Int) (editForm : NewsEditForm)
    (store : σ) : Option ε × σ :=
  let updateFields := updateFieldsOf editForm
  if mapLen updateFields > 0 ∨ editForm.Categories ≠ none then
    match repo.UpdateNews newsId updateFields editForm.Categories store with
    | (some err, store') => (some err, store')
    | (none, store') => (none, store')
  else (none, store)

/-- A repository double in the manner of the mock the service tests use: its
state is the list of the calls received so far, and `ret` is the error it is
configured to return for a call. -/
def recordingRepo {ε : Type} (ret : UpdateNewsCall → Option ε) :
    INewsRepository (List UpdateNewsCall) ε :=
  { UpdateNews := fun id fields categories calls =>
      (ret ⟨id, fields, categories⟩, calls ++ [⟨id, fields, categories⟩]) }

/-! ## Package `apperrors` and Go error values -/

/-- A Go `error` value as it travels from the repository and the handlers to
the central error handler: an error made by `errors.New`, an
`*apperrors.AppError` with its fields `Err`, `Message` and `StatusCode`, a
`*fiber.Error` with its fields `Code` and `Message`, or an error made by
`fmt.Errorf` with one `%w` verb, which has its own text and unwraps to the
error it was given. -/
inductive GoError where
  | plain (msg : String)
  | app (Err : GoError) (Message : String) (StatusCode : Int)
  | fiber (Code : Int) (Message : String)
  | wrap (msg : String) (inner : GoError)
deriving DecidableEq, Repr

/-- Sentinel `apperrors.ErrNewsNotFound`. -/
def ErrNewsNotFound : GoError := GoError.plain "news not found"

/-- Sentinel `apperrors.ErrInvalidBody`. -/
def ErrInvalidBody : GoError := GoError.plain "invalid request body"

/-- Sentinel `apperrors.ErrValidation`. -/
def ErrValidation : GoError := GoError.plain "validation failed"

/-- Constructor `apperrors.NewBadRequest`. -/
def NewBadRequest (message : String) : GoError :=
  GoError.app ErrInvalidBody message 400

/-- Constructor `apperrors.NewNotFound`. -/
def NewNotFound (message : String) : GoError :=
  GoError.app ErrNewsNotFound message 404

/-- Constructor `apperrors.NewValidation`. -/
def NewValidation (message : String) : GoError :=
  GoError.app ErrValidation message 400

/-- Constructor `apperrors.NewInternal`. -/
def NewInternal (message : String) : GoError :=
  GoError.app (GoError.plain "internal error") message 500

/-- The call `errors.As(err, &appErr)` for a target of type
`*apperrors.AppError`: the chain of `err` is walked through `Unwrap` and the
first `AppError` met is the result, given here by its `Message` and
`StatusCode`. -/
def asAppError : GoError → Option (String × Int)
  | GoError.app _ message code => some (message, code)
  | GoError.wrap _ inner => asAppError inner
  | GoError.plain _ => none
  | GoError.fiber _ _ => none

/-- The call `errors.As(err, &fiberErr)` for a target of type `*fiber.Error`,
given by the `Code` and `Message` of the first one in the chain; an
`AppError` unwraps to its field `Err`. -/
def asFiberError : GoError → Option (Int × String)
  | GoError.fiber code message => some (code, message)
  | GoError.wrap _ inner => asFiberError inner
  | GoError.app err _ _ => asFiberError err
  | GoError.plain _ => none

/-- Modelled from the spec: the function `validators.ValidatePaginationParams`,
which the handler `ListNews` calls and whose source is not among the files of
the repository at hand. The specification gives its contract: it fails with
`BadRequest("limit must be greater or equal 1")` if limit < 1, with
`BadRequest("limit must be less or equal to 100")` if limit > 100, and with
`BadRequest("offset cannot be negative")` if offset < 0, the checks being made
in this order. -/
def ValidatePaginationParams (limit offset : Int) : Option GoError :=
  if limit < 1 then some (NewBadRequest "limit must be greater or equal 1")
  else if limit > 100 then some (NewBadRequest "limit must be less or equal to 100")
  else if offset < 0 then some (NewBadRequest "offset cannot be negative")
  else none

/-! ## Package `handlers/errors`: the central error handler -/

/-- An HTTP response written with `c.Status(code).JSON(v)`: the status code and
the JSON document that encodes `v`. A struct is encoded as an object with its
fields in declaration order; a number of a response is given by its value. -/
structure Response where
  status : Int
  body : JSONValue

/-- The encoding of `ErrorResponse{Success: success, Error: message}`. -/
def ErrorResponse (success : Bool) (message : String) : JSONValue :=
  JSONValue.object [("Success", JSONValue.bool success), ("Error", JSONValue.string message)]

/-- The function returned by `errors.ErrorHandler`, without its log entries:
the status code and message of the first `AppError` in the chain of the error,
else those of the first `fiber.Error`, else 500 and "Internal server error". -/
def ErrorHandler (err : GoError) : Response :=
  let code : Int := 500
  let message : String := "Internal server error"
  match asAppError err with
  | some (appMessage, appCode) =>
      { status := appCode, body := ErrorResponse false appMessage }
  | none =>
      match asFiberError err with
      | some (fiberCode, fiberMessage) =>
          { status := fiberCode, body := ErrorResponse false fiberMessage }
      | none => { status := code, body := ErrorResponse false message }

/-- What a handler or a middleware hands back to the framework: a response it
has written, returning nil, or an error, which the framework passes to the
error handler. -/
inductive HandlerResult where
  | responded (r : Response)
  | failed (err : GoError)

/-- The response the client receives for a handler result. -/
def HandlerResult.toResponse : HandlerResult → Response
  | HandlerResult.responded r => r
  | HandlerResult.failed err => ErrorHandler err

/-! ## Package `handlers/middleware`: the bearer-token check -/

/-- Go `strings.SplitN(s, " ", 2)`: the string itself when it has no space,
else the part before the first space and the part after it. -/
def splitAtFirstSpace (s : String) : List String :=
  let before := s.data.takeWhile (fun c => c != ' ')
  match s.data.dropWhile (fun c => c != ' ') with
  | [] => [s]
  | _ :: after => [String.mk before, String.mk after]

/-- The encoding of `fiber.Map{"error": message}`. -/
def fiberMapError (message : String) : JSONValue :=
  JSONValue.object [("error", JSONValue.string message)]

/-- The handler returned by `AuthMiddleware(validToken, log)`, without its log
entries. `authHeader` is `c.Get("Authorization")`, the empty string when the
header is missing; `next` is the rest of the handler chain, run by `c.Next()`
on the state `st` of the service. -/
def AuthMiddleware {σ : Type} (validToken : String) (authHeader : String)
    (next : σ → HandlerResult × σ) (st : σ) : HandlerResult × σ :=
  if authHeader = "" then
    (HandlerResult.responded
      { status := 401, body := fiberMapError "Authorization header is required" }, st)
  else
    let parts := splitAtFirstSpace authHeader
    if parts.length ≠ 2 ∨ parts.head? ≠ some "Bearer" then
      (HandlerResult.responded
        { status := 401,
          body := fiberMapError "Invalid authorization header format. Expected: Bearer <token>" },
       st)
    else
      let token := parts.getD 1 ""
      if token ≠ validToken then
        (HandlerResult.responded
          { status := 401, body := fiberMapError "Invalid authorization token" }, st)
      else next st

/-- The error-envelope shape of the specification: a JSON object whose field
"Success" is false and whose field "Error" is a string, the message. -/
def specIsErrorEnvelope (body : JSONValue) : Prop :=
  ∃ kv message, body = JSONValue.object kv ∧
    mapIndex kv "Success" = some (JSONValue.bool false) ∧
    mapIndex kv "Error" = some (JSONValue.string message)

/-! ## The request body as a JSON document, and `BodyParser` -/

/-- A JSON number as it is written in a body, given by what the two
conversions of `encoding/json` return for its text: `float64` is
`strconv.ParseFloat(text, 64)`, the value stored in an `interface{}`, and
`int64` is `strconv.ParseInt(text, 10, 64)`, the value stored in an `int64`,
`none` when the text has a fraction or an exponent, as `1.0` and `1e2` have, or
does not fit in 64 bits. -/
structure NumberToken where
  float64 : Float64
  int64 : Option Int

/-- A body that `encoding/json` can decode into generic values: the document
it spells, with the members of an object in the order they are written. -/
inductive JSONDoc where
  | null
  | bool (b : Bool)
  | number (t : NumberToken)
  | string (s : String)
  | array (xs : List JSONDoc)
  | object (kv : List (String × JSONDoc))

mutual
/-- The generic value `json.Unmarshal` stores in an `interface{}` for a
document. -/
def JSONDoc.generic : JSONDoc → JSONValue
  | JSONDoc.null => JSONValue.null
  | JSONDoc.bool b => JSONValue.bool b
  | JSONDoc.number t => JSONValue.number t.float64
  | JSONDoc.string s => JSONValue.string s
  | JSONDoc.array xs => JSONValue.array (genericList xs)
  | JSONDoc.object kv => JSONValue.object (genericMembers kv)
/-- The generic values of the elements of an array. -/
def genericList : List JSONDoc → List JSONValue
  | [] => []
  | x :: xs => x.generic :: genericList xs
/-- The generic values of the members of an object. -/
def genericMembers : List (String × JSONDoc) → List (String × JSONValue)
  | [] => []
  | (k, v) :: rest => (k, v.generic) :: genericMembers rest
end

/-- The bytes `c.Body()` as the validators see them: `none` is a body that
`encoding/json` rejects. -/
def bodyOf (doc : Option JSONDoc) : Body :=
  doc.map JSONDoc.generic

/-- Case folding of one character of an object key, for the comparison with
the field names Title, Content and Categories: an ASCII lower-case letter
becomes upper case, and the two characters outside ASCII that fold to an ASCII
letter, U+017F to S and U+212A to K, become that letter. -/
def foldRune (c : Char) : Char :=
  if 0x61 ≤ c.toNat ∧ c.toNat ≤ 0x7A then Char.ofNat (c.toNat - 0x20)
  else if c.toNat = 0x17F then 'S'
  else if c.toNat = 0x212A then 'K'
  else c

/-- The match of an object key with the name of a struct field in
`encoding/json`: equality up to case folding. Each key is resolved to one
field, an exact match being preferred; the three names of a form differ after
folding, so a key matches at most one of them. -/
def equalFold (key name : String) : Bool :=
  key.data.map foldRune == name.data.map foldRune

/-- The elements of a JSON array decoded into the elements of a `[]int64`.
`mem` holds what the slots of the slice contain before the decoding: a null
leaves its slot as it is, zero in a fresh slot; a number is stored when it is
an integer that fits; `none` is a type error. -/
def decodeInt64Elems : List JSONDoc → List Int → Option (List Int)
  | [], _ => some []
  | x :: xs, mem =>
      match x with
      | JSONDoc.null => (decodeInt64Elems xs mem.tail).map (fun r => mem.headD 0 :: r)
      | JSONDoc.number t =>
          match t.int64 with
          | some n => (decodeInt64Elems xs mem.tail).map (fun r => n :: r)
          | none => none
      | _ => none

/-- A value decoded into a field of type `*[]int64`. `cur` is the field before
the decoding and `stale` the content of the backing array of its slice beyond
the length. A null sets the pointer to nil; an array is decoded into the
slice the pointer has, or into a fresh one, element by element, and an empty
array gives a fresh empty slice; anything else is a type error. The result is
the new field and the new content beyond the length. -/
def decodeInt64SlicePtr (v : JSONDoc) (cur : Option (List Int)) (stale : List Int) :
    Option (Option (List Int) × List Int) :=
  match v with
  | JSONDoc.null => some (none, [])
  | JSONDoc.array xs =>
      let mem := cur.getD [] ++ stale
      match decodeInt64Elems xs mem with
      | some r => if xs.isEmpty then some (some [], []) else some (some r, mem.drop xs.length)
      | none => none
  | _ => none

/-- The members of an object decoded in order into a `NewsCreateForm`; `none`
is an error of `json.Unmarshal`. A string is stored in the `string` field its
key matches, a null leaves such a field as it is, a member whose key matches
no field is skipped, and any other value is a type error. -/
def decodeCreateMembers :
    List (String × JSONDoc) → NewsCreateForm × List Int → Option (NewsCreateForm × List Int)
  | [], st => some st
  | (key, v) :: rest, (form, stale) =>
      if equalFold key "Title" then
        match v with
        | JSONDoc.string s => decodeCreateMembers rest ({ form with Title := s }, stale)
        | JSONDoc.null => decodeCreateMembers rest (form, stale)
        | _ => none
      else if equalFold key "Content" then
        match v with
        | JSONDoc.string s => decodeCreateMembers rest ({ form with Content := s }, stale)
        | JSONDoc.null => decodeCreateMembers rest (form, stale)
        | _ => none
      else if equalFold key "Categories" then
        match decodeInt64SlicePtr v form.Categories stale with
        | some (cats, stale') => decodeCreateMembers rest ({ form with Categories := cats }, stale')
        | none => none
      else decodeCreateMembers rest (form, stale)

/-- The members of an object decoded in order into a `NewsEditForm`: a field
of type `*string` is set to nil by a null and to a pointer to the string by a
string. -/
def decodeEditMembers :
    List (String × JSONDoc) → NewsEditForm × List Int → Option (NewsEditForm × List Int)
  | [], st => some st
  | (key, v) :: rest, (form, stale) =>
      if equalFold key "Title" then
        match v with
        | JSONDoc.string s => decodeEditMembers rest ({ form with Title := some s }, stale)
        | JSONDoc.null => decodeEditMembers rest ({ form with Title := none }, stale)
        | _ => none
      else if equalFold key "Content" then
        match v with
        | JSONDoc.string s => decodeEditMembers rest ({ form with Content := some s }, stale)
        | JSONDoc.null => decodeEditMembers rest ({ form with Content := none }, stale)
        | _ => none
      else if equalFold key "Categories" then
        match decodeInt64SlicePtr v form.Categories stale with
        | some (cats, stale') => decodeEditMembers rest ({ form with Categories := cats }, stale')
        | none => none
      else decodeEditMembers rest (form, stale)

/-- The call `c.BodyParser(&reqForm)` of the handler `CreateNews` on a request
with a JSON content type, for which it is `json.Unmarshal` into the zero
form: `none` is an error. -/
def bodyParserCreateForm : JSONDoc → Option NewsCreateForm
  | JSONDoc.object kv =>
      (decodeCreateMembers kv ({ Title := "", Content := "", Categories := none }, [])).map Prod.fst
  | JSONDoc.null => some { Title := "", Content := "", Categories := none }
  | _ => none

/-- The call `c.BodyParser(&editForm)` of the handler `EditNews`, likewise. -/
def bodyParserEditForm : JSONDoc → Option NewsEditForm
  | JSONDoc.object kv =>
      (decodeEditMembers kv ({ Title := none, Content := none, Categories := none }, [])).map
        Prod.fst
  | JSONDoc.null => some { Title := none, Content := none, Categories := none }
  | _ => none

/-! ## Package `handlers/news` -/

/-- Type `models.News`. -/
structure News where
  ID : Int
  Title : String
  Content : String
deriving DecidableEq, Repr

/-- Type `models.NewsWithCategories`: a `News` with its category ids. -/
structure NewsWithCategories where
  News : News
  Categories : List Int
deriving DecidableEq, Repr

/-- Interface `service.INewsService`, in store-passing style over the state
`σ` of what lies behind the service. -/
structure INewsService (σ : Type) where
  CreateNews : NewsCreateForm → σ → (Int × Option GoError) × σ
  EditNews : Int → NewsEditForm → σ → Option GoError × σ
  ListNews : Int → Int → σ → (List NewsWithCategories × Option GoError) × σ

/-- Go `strconv.ParseUint(s, 10, 64)`: the value of a non-empty string of
decimal digits that is below 2^64; `none` is an error. -/
def parseUint (s : String) : Option Nat :=
  if s.data.isEmpty then none
  else if s.data.all Char.isDigit then
    let n := s.data.foldl (fun acc c => acc * 10 + (c.toNat - 48)) 0
    if n < 2 ^ 64 then some n else none
  else none

/-- The conversion `int64(id)` of a `uint64`: the value itself below 2^63,
and the value less 2^64 from there on. -/
def int64OfUint64 (n : Nat) : Int :=
  if n < 2 ^ 63 then (n : Int) else (n : Int) - 2 ^ 64

/-- Method `(*NewsHandler).CreateNews`, on the body of a request with a JSON
content type. -/
def NewsHandler.CreateNews {σ : Type} (fmtV : Float64 → String) (service : INewsService σ)
    (body : Option JSONDoc) (st : σ) : HandlerResult × σ :=
  match ValidateCreateNewsRequest fmtV (bodyOf body) with
  | some err => (HandlerResult.failed (NewValidation err.Error), st)
  | none =>
      match body.bind bodyParserCreateForm with
      | none => (HandlerResult.failed (NewBadRequest "Failed to parse request body"), st)
      | some parsed =>
          let reqForm := parsed.Normalize
          match reqForm.Validate with
          | some msg => (HandlerResult.failed (NewValidation msg), st)
          | none =>
              match service.CreateNews reqForm st with
              | ((_, some err), st') => (HandlerResult.failed err, st')
              | ((id, none), st') =>
                  (HandlerResult.responded
                    { status := 201,
                      body := JSONValue.object
                        [("Success", JSONValue.bool true),
                         ("Id", JSONValue.number (Float64.finite id))] }, st')

/-- Method `(*NewsHandler).EditNews`; `idParam` is `c.Params("id")`. -/
def NewsHandler.EditNews {σ : Type} (fmtV : Float64 → String) (service : INewsService σ)
    (idParam : String) (body : Option JSONDoc) (st : σ) : HandlerResult × σ :=
  match parseUint idParam with
  | none => (HandlerResult.failed (NewBadRequest "Invalid ID format"), st)
  | some id =>
      match ValidateEditNewsRequest fmtV (bodyOf body) with
      | some err => (HandlerResult.failed (NewValidation err.Error), st)
      | none =>
          match body.bind bodyParserEditForm with
          | none => (HandlerResult.failed (NewBadRequest "Failed to parse request body"), st)
          | some parsed =>
              let editForm := parsed.Normalize
              match editForm.Validate with
              | some msg => (HandlerResult.failed (NewValidation msg), st)
              | none =>
                  match service.EditNews (int64OfUint64 id) editForm st with
                  | (some err, st') => (HandlerResult.failed err, st')
                  | (none, st') =>
                      (HandlerResult.responded
                        { status := 200,
                          body := JSONValue.object [("Success", JSONValue.bool true)] }, st')

/-- One call of a method of the service. -/
inductive ServiceCall where
  | create (form : NewsCreateForm)
  | edit (id : Int) (form : NewsEditForm)
  | list (limit offset : Int)
deriving DecidableEq, Repr

/-- A service double in the manner of the mock the handler tests use: its
state is the list of the calls received so far, and the arguments are the
results it is configured to return. -/
def recordingService (createRet : Int × Option GoError) (editRet : Option GoError)
    (listRet : List NewsWithCategories × Option GoError) : INewsService (List ServiceCall) :=
  { CreateNews := fun form calls => (createRet, calls ++ [ServiceCall.create form])
    EditNews := fun id form calls => (editRet, calls ++ [ServiceCall.edit id form])
    ListNews := fun limit offset calls => (listRet, calls ++ [ServiceCall.list limit offset]) }

/-- Go `strconv.ParseInt(s, 10, 64)`: an optional sign followed by a non-empty
string of decimal digits whose value lies between -2^63 and 2^63 - 1; `none`
is an error. -/
def parseInt (s : String) : Option Int :=
  match s.data with
  | [] => none
  | c :: rest =>
      let neg := c == '-'
      let digits := if c == '+' || c == '-' then rest else c :: rest
      if digits.isEmpty then none
      else if digits.all Char.isDigit then
        let n : Nat := digits.foldl (fun (acc : Nat) d => acc * 10 + (d.toNat - 48)) 0
        if neg then (if n ≤ 2 ^ 63 then some (-(n : Int)) else none)
        else (if n < 2 ^ 63 then some (n : Int) else none)
      else none

/-- The call `c.Query(key, defaultValue)` of the framework: `value` is the
value of the key in the query string, the empty string when the key is
missing or has no value, and in that case the default is returned. -/
def Query (value defaultValue : String) : String :=
  if value = "" then defaultValue else value

/-- The encoding of a `models.NewsWithCategories`: the fields of the embedded
`News` come first. -/
def encodeNewsWithCategories (n : NewsWithCategories) : JSONValue :=
  JSONValue.object
    [("Id", JSONValue.number (Float64.finite n.News.ID)),
     ("Title", JSONValue.string n.News.Title),
     ("Content", JSONValue.string n.News.Content),
     ("Categories",
       JSONValue.array (n.Categories.map (fun c => JSONValue.number (Float64.finite c))))]

/-- The encoding of `NewsListsResponse{Success: true, News: newsList}`; a nil
slice, which is written as null, is not told apart from the empty one. -/
def NewsListsResponse (newsList : List NewsWithCategories) : JSONValue :=
  JSONValue.object
    [("Success", JSONValue.bool true),
     ("News", JSONValue.array (newsList.map encodeNewsWithCategories))]

/-- Method `(*NewsHandler).ListNews`; `limitQuery` and `offsetQuery` are the
values of the keys `limit` and `offset` in the query string. -/
def NewsHandler.ListNews {σ : Type} (service : INewsService σ)
    (limitQuery offsetQuery : String) (st : σ) : HandlerResult × σ :=
  match parseInt (Query limitQuery "10") with
  | none => (HandlerResult.failed (NewBadRequest "limit must be a valid number"), st)
  | some limit =>
      match parseInt (Query offsetQuery "0") with
      | none => (HandlerResult.failed (NewBadRequest "offset must be a valid number"), st)
      | some offset =>
          match ValidatePaginationParams limit offset with
          | some err => (HandlerResult.failed err, st)
          | none =>
              match service.ListNews limit offset st with
              | ((_, some err), st') => (HandlerResult.failed err, st')
              | ((newsList, none), st') =>
                  (HandlerResult.responded
                    { status := 200, body := NewsListsResponse newsList }, st')

/-! ## Package `repository`: `UpdateNews` over the store -/

/-- Method `Error` of a Go error: the text of an error made by `errors.New` or
`fmt.Errorf`, the `Message` of an `AppError` and of a `fiber.Error`. -/
def GoError.Error : GoError → String
  | GoError.plain msg => msg
  | GoError.app _ message _ => message
  | GoError.fiber _ message => message
  | GoError.wrap msg _ => msg

/-- The call `fmt.Errorf(text + ": %w", err)`. -/
def wrapf (text : String) (err : GoError) : GoError :=
  GoError.wrap (text ++ ": " ++ err.Error) err

/-- The state of the database: the rows of the table of news and the rows of
the table of category links, each a pair of a news id and a category id. -/
structure Store where
  news : List News
  links : List (Int × Int)
deriving DecidableEq, Repr

/-- The failures the database may answer with, one entry for each statement
`UpdateNews` can issue: `none` is success. `find` is a failure of the lookup
other than the absence of the row, and `insert i` the failure of the insert of
the element at index `i` of the replacement list. -/
structure DBFaults where
  begin : Option GoError
  find : Option GoError
  update : Option GoError
  delete : Option GoError
  insert : Nat → Option GoError
  commit : Option GoError

/-- Method `(*NewsRepository).findNewsByID`: the row with the primary key, the
error `NewNotFound("News not found")` when there is none, and a wrapped error
when the lookup itself fails. -/
def NewsRepository.findNewsByID (faults : DBFaults) (store : Store) (newsId : Int) :
    Except GoError News :=
  match faults.find with
  | some err => Except.error (wrapf "failed to find news" err)
  | none =>
      match store.news.find? (fun n => n.ID = newsId) with
      | some record => Except.ok record
      | none => Except.error (NewNotFound "News not found")

/-- Modelled from the spec: the statement `SqlDeleteNewsCategories`, embedded
from a file of SQL that is not among the sources; it deletes all existing
links of the news id. -/
def execDeleteNewsCategories (newsId : Int) (links : List (Int × Int)) : List (Int × Int) :=
  links.filter (fun row => row.1 ≠ newsId)

/-- Modelled from the spec: the statement `SqlInsertNewsCategories`, embedded
from a file of SQL that is not among the sources; it inserts one link of the
news id to the category id. -/
def execInsertNewsCategories (newsId categoryID : Int) (links : List (Int × Int)) :
    List (Int × Int) :=
  links ++ [(newsId, categoryID)]

/-- The loop of `updateCategories` over the replacement list from index `i`
on: one insert for each category id, stopped by the first failure. -/
def insertCategoryLinks (faults : DBFaults) (newsId : Int) :
    Nat → List Int → List (Int × Int) → Except GoError (List (Int × Int))
  | _, [], links => Except.ok links
  | i, categoryID :: rest, links =>
      match faults.insert i with
      | some err =>
          Except.error (wrapf ("failed to insert category " ++ toString categoryID) err)
      | none =>
          insertCategoryLinks faults newsId (i + 1) rest
            (execInsertNewsCategories newsId categoryID links)

/-- Method `(*NewsRepository).updateCategories`: the old links of the news id
are deleted and the replacement list is inserted. -/
def NewsRepository.updateCategories (faults : DBFaults) (newsId : Int) (categoryIDs : List Int)
    (links : List (Int × Int)) : Except GoError (List (Int × Int)) :=
  match faults.delete with
  | some err => Except.error (wrapf "failed to delete old categories" err)
  | none => insertCategoryLinks faults newsId 0 categoryIDs (execDeleteNewsCategories newsId links)

/-- The record `news` of `UpdateNews` after its two conditional assignments:
the Title is overwritten when `updateFields` has the key "title" and the
Content when it has the key "content". -/
def applyUpdateFields (found : News) (updateFields : List (String × String)) : News :=
  let news : News :=
    match mapIndex updateFields "title" with
    | some title => { found with Title := title }
    | none => found
  match mapIndex updateFields "content" with
  | some content => { news with Content := content }
  | none => news

/-- Method `(*NewsRepository).UpdateNews`, without its log entries. The
statements run in a transaction: the store is replaced by the result when the
commit succeeds, and every return with an error leaves it as it was, through
the deferred rollback. `tx.Update(news)` writes the columns of the record to
the rows with its primary key. -/
def NewsRepository.UpdateNews (faults : DBFaults) (newsId : Int)
    (updateFields : List (String × String)) (categories : Option (List Int)) (store : Store) :
    Option GoError × Store :=
  match faults.begin with
  | some err => (some (wrapf "failed to begin transaction" err), store)
  | none =>
      match NewsRepository.findNewsByID faults store newsId with
      | Except.error err => (some err, store)
      | Except.ok found =>
          let updated : Except GoError (List News) :=
            if mapLen updateFields > 0 then
              let news : News := applyUpdateFields found updateFields
              match faults.update with
              | some err => Except.error (wrapf "failed to update news" err)
              | none =>
                  Except.ok (store.news.map (fun row => if row.ID = news.ID then news else row))
            else Except.ok store.news
          match updated with
          | Except.error err => (some err, store)
          | Except.ok newsRows =>
              let linked : Except GoError (List (Int × Int)) :=
                match categories with
                | some categoryIDs =>
                    NewsRepository.updateCategories faults newsId categoryIDs store.links
                | none => Except.ok store.links
              match linked with
              | Except.error err => (some err, store)
              | Except.ok linkRows =>
                  match faults.commit with
                  | some err => (some (wrapf "failed to commit transaction" err), store)
                  | none => (none, { news := newsRows, links := linkRows })

/-- The repository over the store as an `INewsRepository`. -/
def newsRepository (faults : DBFaults) : INewsRepository Store GoError :=
  { UpdateNews := NewsRepository.UpdateNews faults }

/-- The two conversions of a number token agree in sign: both are made from
the same text, and the float of an integer literal is that integer rounded to
the nearest `float64`, which is above zero exactly when the integer is. -/
def NumberToken.coherent (t : NumberToken) : Prop :=
  ∀ n, t.int64 = some n → (0 < t.float64.toRat ↔ 0 < n)

/-- An error wrapped by `fmt.Errorf` with `%w` once for each text of `ws`, the
first text being the outermost wrapper. -/
def wrapAll (ws : List String) (e : GoError) : GoError :=
  ws.foldr GoError.wrap e

/-! ## The rules of the specification, for comparison with the code -/

/-- The categories-array rule on one element, in the words of the
specification: a JSON number with no fractional part and value above zero. -/
def specPositiveIntegerElement : JSONValue → Prop
  | JSONValue.number f => Int.fract f.toRat = 0 ∧ 0 < f.toRat
  | _ => False

/-- The categories-array rule in the words of the specification: a JSON array
every element of which is a positive integer number. -/
def specCategoriesRule : JSONValue → Prop
  | JSONValue.array xs => ∀ x ∈ xs, specPositiveIntegerElement x
  | _ => False

/-- The error the specification assigns to an offending element at index `i`,
decided by that element alone: not a number, else not an integer, else not
positive. -/
def specOffendingElementError (fmtV : Float64 → String) (i : Nat) (x : JSONValue) :
    ValidationError :=
  { Field := "Categories"
    Message :=
      match x with
      | JSONValue.number f =>
          if Int.fract f.toRat ≠ 0 then
            "element at index " ++ toString i ++ " must be integer, got " ++ fmtV f
          else "element at index " ++ toString i ++ " must be positive, got " ++ fmtV f
      | v => "element at index " ++ toString i ++ " must be number, got " ++ goTypeName v }

/-- The value a request body gives for the field `name` of a form, as
`encoding/json` resolves it: the value of the last member whose key matches
the name up to case folding, `none` when no key matches. -/
def specRequestMember (name : String) : List (String × JSONDoc) → Option JSONDoc
  | [] => none
  | (key, v) :: rest =>
      match specRequestMember name rest with
      | some w => some w
      | none => if equalFold key name then some v else none

/-- The string a request body gives for a field of type `*string`: a field
whose value is null, or for which the body has no member, is absent. -/
def specRequestString (name : String) (kv : List (String × JSONDoc)) : Option String :=
  match specRequestMember name kv with
  | some (JSONDoc.string s) => some s
  | _ => none

/-! ## Auxiliary facts -/

theorem string_ne_empty_iff (s : String) : (s != "") = true ↔ s.length ≠ 0 := by
  cases s with
  | mk l =>
    cases l with
    | nil => simp
    | cons a l =>
      simp [String.length]
      intro h
      have := congrArg String.data h
      simp at this

theorem title_required_nil_iff (s : String) :
    validateString "Title" [StrTag.required, StrTag.min 1, StrTag.max 255] s = []
      ↔ s.length ≠ 0 ∧ s.length ≤ 255 := by
  have h := string_ne_empty_iff s
  by_cases h0 : s.length = 0
  · have : ¬ ((s != "") = true) := fun hc => (h.mp hc) h0
    simp [validateString, runStrTags, this, h0]
  · have h1 : (s != "") = true := h.mpr h0
    have h2 : 1 ≤ s.length := Nat.one_le_iff_ne_zero.mpr h0
    by_cases h3 : s.length ≤ 255 <;> simp [validateString, runStrTags, h1, h2, h3, h0]

theorem content_required_nil_iff (s : String) :
    validateString "Content" [StrTag.required, StrTag.min 1] s = [] ↔ s.length ≠ 0 := by
  have h := string_ne_empty_iff s
  by_cases h0 : s.length = 0
  · have : ¬ ((s != "") = true) := fun hc => (h.mp hc) h0
    simp [validateString, runStrTags, this, h0]
  · have h1 : (s != "") = true := h.mpr h0
    have h2 : 1 ≤ s.length := Nat.one_le_iff_ne_zero.mpr h0
    simp [validateString, runStrTags, h1, h2, h0]

theorem title_optional_nil_iff (t : Option String) :
    validateStringPtr "Title" [StrTag.omitempty, StrTag.min 1, StrTag.max 255] t = []
      ↔ ∀ s, t = some s → 1 ≤ s.length ∧ s.length ≤ 255 := by
  cases t with
  | none => simp [validateStringPtr]
  | some s =>
    by_cases h2 : 1 ≤ s.length <;> by_cases h3 : s.length ≤ 255 <;>
      simp [validateStringPtr, runStrTags, h2, h3]

theorem content_optional_nil_iff (t : Option String) :
    validateStringPtr "Content" [StrTag.omitempty, StrTag.min 1] t = []
      ↔ ∀ s, t = some s → 1 ≤ s.length := by
  cases t with
  | none => simp [validateStringPtr]
  | some s => by_cases h2 : 1 ≤ s.length <;> simp [validateStringPtr, runStrTags, h2]

theorem diveGt_nil_iff (name : String) (p : Int) (i : Nat) (xs : List Int) :
    diveGt name p i xs = [] ↔ ∀ x ∈ xs, p < x := by
  induction xs generalizing i with
  | nil => simp [diveGt]
  | cons x xs ih =>
    by_cases hx : x > p
    · simp [diveGt, hx, ih (i + 1)]
    · simp [diveGt, hx]

theorem categories_nil_iff (c : Option (List Int)) :
    validateInt64SlicePtr "Categories" 0 c = [] ↔ ∀ cs, c = some cs → ∀ x ∈ cs, 0 < x := by
  cases c with
  | none => simp [validateInt64SlicePtr]
  | some cs => simp [validateInt64SlicePtr, diveGt_nil_iff]

theorem create_validate_none_iff (n : NewsCreateForm) :
    n.Validate = none ↔ n.validateStruct = [] := by
  unfold NewsCreateForm.Validate
  cases n.validateStruct <;> simp

theorem edit_validate_none_iff (n : NewsEditForm) :
    n.Validate = none ↔
      ¬ (n.Title = none ∧ n.Content = none ∧ n.Categories = none) ∧ n.validateStruct = [] := by
  unfold NewsEditForm.Validate
  by_cases h : n.Title = none ∧ n.Content = none ∧ n.Categories = none
  · simp [h]
  · rw [if_neg h]
    cases n.validateStruct <;> simp [h]

/-! ## Structural validation of the forms -/

/-- C1: after `Normalize`, `Validate` on a create form returns an error exactly
when the trimmed Title is empty, or longer than 255 characters, or the trimmed
Content is empty, or Categories is present and has an element that is not
positive; in every other case it returns nil. -/
theorem create_validate_rejects_iff (F : NewsCreateForm) :
    (F.Normalize.Validate ≠ none ↔
      ((TrimSpace F.Title).length = 0 ∨ 255 < (TrimSpace F.Title).length ∨
        (TrimSpace F.Content).length = 0 ∨
        ∃ cs, F.Categories = some cs ∧ ∃ c ∈ cs, c ≤ 0)) ∧
    (F.Normalize.Validate = none ↔
      ¬ ((TrimSpace F.Title).length = 0 ∨ 255 < (TrimSpace F.Title).length ∨
        (TrimSpace F.Content).length = 0 ∨
        ∃ cs, F.Categories = some cs ∧ ∃ c ∈ cs, c ≤ 0)) := by
  have key : F.Normalize.Validate = none ↔
      ¬ ((TrimSpace F.Title).length = 0 ∨ 255 < (TrimSpace F.Title).length ∨
        (TrimSpace F.Content).length = 0 ∨
        ∃ cs, F.Categories = some cs ∧ ∃ c ∈ cs, c ≤ 0) := by
    rw [create_validate_none_iff]
    unfold NewsCreateForm.validateStruct
    rw [List.append_eq_nil, List.append_eq_nil, title_required_nil_iff,
      content_required_nil_iff, categories_nil_iff]
    simp only [NewsCreateForm.Normalize]
    constructor
    · rintro ⟨⟨⟨h1, h2⟩, h3⟩, h4⟩ h
      rcases h with h | h | h | ⟨cs, hcs, c, hc, hle⟩
      · exact h1 h
      · omega
      · exact h3 h
      · have := h4 cs hcs c hc
        omega
    · intro h
      push_neg at h
      obtain ⟨h1, h2, h3, h4⟩ := h
      exact ⟨⟨⟨h1, h2⟩, h3⟩, fun cs hcs c hc => h4 cs hcs c hc⟩
  exact ⟨by rw [Ne, key, not_not], key⟩

/-- C2: after `Normalize`, `Validate` on an edit form returns nil exactly when
at least one of Title, Content, Categories is present, a present Title has
trimmed length between 1 and 255, a present Content has trimmed length at
least 1, and every element of a present Categories list is positive; a present
empty Categories list is accepted. -/
theorem edit_validate_accepts_iff (F : NewsEditForm) :
    (F.Normalize.Validate = none ↔
      (F.Title ≠ none ∨ F.Content ≠ none ∨ F.Categories ≠ none) ∧
      (∀ t, F.Title = some t → 1 ≤ (TrimSpace t).length ∧ (TrimSpace t).length ≤ 255) ∧
      (∀ c, F.Content = some c → 1 ≤ (TrimSpace c).length) ∧
      (∀ cs, F.Categories = some cs → ∀ x ∈ cs, 0 < x)) ∧
    (NewsEditForm.Normalize ⟨none, none, some []⟩).Validate = none := by
  refine ⟨?_, by decide⟩
  rw [edit_validate_none_iff]
  unfold NewsEditForm.validateStruct
  rw [List.append_eq_nil, List.append_eq_nil, title_optional_nil_iff,
    content_optional_nil_iff, categories_nil_iff]
  obtain ⟨t, c, cs⟩ := F
  cases t <;> cases c <;> cases cs <;> simp [NewsEditForm.Normalize, and_assoc]

/-- C3: an edit form whose Title, Content and Categories are all absent is
rejected by `Validate` (also after `Normalize`), with exactly the message
"body must contain at least one field to update (Title, Content, or
Categories)". -/
theorem edit_validate_no_fields (F : NewsEditForm)
    (hT : F.Title = none) (hC : F.Content = none) (hK : F.Categories = none) :
    F.Validate
        = some "body must contain at least one field to update (Title, Content, or Categories)" ∧
      F.Normalize.Validate
        = some "body must contain at least one field to update (Title, Content, or Categories)" := by
  obtain ⟨t, c, cs⟩ := F
  simp only at hT hC hK
  subst hT hC hK
  exact ⟨rfl, rfl⟩

/-- Witness of C3 on the empty edit form. -/
theorem edit_validate_no_fields_witness :
    (NewsEditForm.mk none none none).Validate
        = some "body must contain at least one field to update (Title, Content, or Categories)" ∧
      (NewsEditForm.mk none none none).Normalize.Validate
        = some "body must contain at least one field to update (Title, Content, or Categories)" :=
  edit_validate_no_fields ⟨none, none, none⟩ rfl rfl rfl

/-! ## Raw pre-validation -/

theorem float_ne_floor_iff (f : Float64) :
    f.toRat ≠ (Float64.Floor f).toRat ↔ Int.fract f.toRat ≠ 0 := by
  cases f with
  | negZero => simp [Float64.toRat, Float64.Floor]
  | finite q =>
    simp only [Float64.toRat, Float64.Floor]
    have h : ((Rat.floor q : ℤ) : ℚ) = ((⌊q⌋ : ℤ) : ℚ) := rfl
    rw [h, Int.fract]
    constructor
    · intro hne h0
      exact hne (sub_eq_zero.mp h0)
    · intro hne h0
      exact hne (sub_eq_zero.mpr h0)

theorem loop_cons_good (fmtV : Float64 → String) (k : Nat) (x : JSONValue) (rest : List JSONValue)
    (hx : specPositiveIntegerElement x) :
    validateCategoriesLoop fmtV k (x :: rest) = validateCategoriesLoop fmtV (k + 1) rest := by
  cases x with
  | number f =>
    obtain ⟨h1, h2⟩ := hx
    have h3 : ¬ (f.toRat ≠ (Float64.Floor f).toRat) := by
      rw [float_ne_floor_iff]; exact not_not.mpr h1
    have h4 : ¬ (f.toRat ≤ 0) := not_le.mpr h2
    simp only [validateCategoriesLoop, if_neg h3, if_neg h4]
  | null => exact absurd hx (by simp [specPositiveIntegerElement])
  | bool b => exact absurd hx (by simp [specPositiveIntegerElement])
  | string s => exact absurd hx (by simp [specPositiveIntegerElement])
  | array ys => exact absurd hx (by simp [specPositiveIntegerElement])
  | object kv => exact absurd hx (by simp [specPositiveIntegerElement])

theorem loop_cons_bad (fmtV : Float64 → String) (k : Nat) (x : JSONValue) (rest : List JSONValue)
    (hx : ¬ specPositiveIntegerElement x) :
    validateCategoriesLoop fmtV k (x :: rest) = some (specOffendingElementError fmtV k x) := by
  cases x with
  | number f =>
    by_cases h1 : Int.fract f.toRat = 0
    · have h3 : ¬ (f.toRat ≠ (Float64.Floor f).toRat) := by
        rw [float_ne_floor_iff]; exact not_not.mpr h1
      have h4 : f.toRat ≤ 0 := by
        by_contra hc
        exact hx ⟨h1, not_le.mp hc⟩
      simp only [validateCategoriesLoop, if_neg h3, if_pos h4, specOffendingElementError,
        if_neg (not_not.mpr h1)]
    · have h3 : f.toRat ≠ (Float64.Floor f).toRat := (float_ne_floor_iff f).mpr h1
      simp only [validateCategoriesLoop, if_pos h3, specOffendingElementError, if_pos h1]
  | null => rfl
  | bool b => rfl
  | string s => rfl
  | array ys => rfl
  | object kv => rfl

theorem loop_none_iff (fmtV : Float64 → String) (k : Nat) (xs : List JSONValue) :
    validateCategoriesLoop fmtV k xs = none ↔ ∀ x ∈ xs, specPositiveIntegerElement x := by
  induction xs generalizing k with
  | nil => simp [validateCategoriesLoop]
  | cons x rest ih =>
    by_cases hx : specPositiveIntegerElement x
    · rw [loop_cons_good fmtV k x rest hx, ih (k + 1)]
      simp [hx]
    · rw [loop_cons_bad fmtV k x rest hx]
      simp [hx]

theorem validateCategoriesArray_none_iff (fmtV : Float64 → String) (v : JSONValue) :
    validateCategoriesArray fmtV v = none ↔ specCategoriesRule v := by
  cases v with
  | array xs => simp [validateCategoriesArray, specCategoriesRule, loop_none_iff]
  | null => simp [validateCategoriesArray, specCategoriesRule]
  | bool b => simp [validateCategoriesArray, specCategoriesRule]
  | number f => simp [validateCategoriesArray, specCategoriesRule]
  | string s => simp [validateCategoriesArray, specCategoriesRule]
  | object kv => simp [validateCategoriesArray, specCategoriesRule]

theorem loop_first_offending (fmtV : Float64 → String) (xs : List JSONValue) :
    ∀ (k i : Nat) (x : JSONValue), xs[i]? = some x →
      (∀ (j : Nat) (y : JSONValue), j < i → xs[j]? = some y → specPositiveIntegerElement y) →
      ¬ specPositiveIntegerElement x →
      validateCategoriesLoop fmtV k xs = some (specOffendingElementError fmtV (k + i) x) := by
  induction xs with
  | nil => intro k i x h; simp at h
  | cons a rest ih =>
    intro k i x hi hbefore hbad
    cases i with
    | zero =>
      simp at hi
      subst hi
      simpa using loop_cons_bad fmtV k a rest hbad
    | succ i =>
      have ha : specPositiveIntegerElement a := hbefore 0 a (Nat.succ_pos i) (by simp)
      rw [loop_cons_good fmtV k a rest ha]
      have := ih (k + 1) i x (by simpa using hi)
        (fun j y hj hy => hbefore (j + 1) y (Nat.succ_lt_succ hj) (by simpa using hy)) hbad
      rw [this]
      congr 2
      omega

theorem exists_first_offending (xs : List JSONValue)
    (h : ¬ ∀ x ∈ xs, specPositiveIntegerElement x) :
    ∃ (i : Nat) (x : JSONValue), xs[i]? = some x ∧
      (∀ (j : Nat) (y : JSONValue), j < i → xs[j]? = some y → specPositiveIntegerElement y) ∧
      ¬ specPositiveIntegerElement x := by
  induction xs with
  | nil => simp at h
  | cons a rest ih =>
    by_cases ha : specPositiveIntegerElement a
    · have hrest : ¬ ∀ x ∈ rest, specPositiveIntegerElement x := by
        intro hall
        apply h
        intro x hx
        rcases List.mem_cons.mp hx with rfl | hx
        · exact ha
        · exact hall x hx
      obtain ⟨i, x, hi, hbefore, hbad⟩ := ih hrest
      refine ⟨i + 1, x, by simpa using hi, ?_, hbad⟩
      intro j y hj hy
      cases j with
      | zero =>
        simp at hy
        subst hy
        exact ha
      | succ j => exact hbefore j y (by omega) (by simpa using hy)
    · exact ⟨0, a, by simp, fun j y hj _ => absurd hj (Nat.not_lt_zero j), ha⟩

theorem mapLen_eq_zero_iff {α : Type} (m : List (String × α)) : mapLen m = 0 ↔ m = [] := by
  cases m with
  | nil => simp [mapLen]
  | cons p rest =>
    simp only [mapLen, List.map_cons, List.length_eq_zero, reduceCtorEq, iff_false]
    intro h
    have : p.1 ∈ (p.1 :: rest.map Prod.fst).dedup := List.mem_dedup.mpr (List.mem_cons_self _ _)
    rw [h] at this
    simp at this

theorem isString_iff (v : JSONValue) : isString v = true ↔ ∃ s, v = JSONValue.string s := by
  cases v <;> simp [isString]

theorem isNil_iff (v : JSONValue) : isNil v = true ↔ v = JSONValue.null := by
  cases v <;> simp [isNil]

theorem create_object_none_iff (fmtV : Float64 → String) (kv : List (String × JSONValue)) :
    ValidateCreateNewsRequest fmtV (some (JSONValue.object kv)) = none ↔
      1 ≤ mapLen kv ∧
      (∀ v, mapIndex kv "Title" = some v → ∃ s, v = JSONValue.string s) ∧
      (∀ v, mapIndex kv "Content" = some v → ∃ s, v = JSONValue.string s) ∧
      (∀ v, mapIndex kv "Categories" = some v → v = JSONValue.null ∨ specCategoriesRule v) := by
  unfold ValidateCreateNewsRequest
  simp only [unmarshalRaw]
  by_cases hlen : mapLen kv = 0
  · simp [hlen]
  · have h1 : 1 ≤ mapLen kv := Nat.one_le_iff_ne_zero.mpr hlen
    rw [if_neg hlen]
    cases hT : mapIndex kv "Title" with
    | some t =>
      by_cases hTs : isString t = true
      · cases hC : mapIndex kv "Content" with
        | some c =>
          by_cases hCs : isString c = true
          · cases hK : mapIndex kv "Categories" with
            | some k =>
              by_cases hKn : isNil k = true
              · simp [h1, hTs, hCs, hKn, (isString_iff t).mp hTs, (isString_iff c).mp hCs,
                  (isNil_iff k).mp hKn, isNil]
              · have hk : k ≠ JSONValue.null := fun h => hKn ((isNil_iff k).mpr h)
                simp [h1, hTs, hCs, hKn, (isString_iff t).mp hTs, (isString_iff c).mp hCs, hk,
                  validateCategoriesArray_none_iff]
            | none => simp [h1, hTs, hCs, (isString_iff t).mp hTs, (isString_iff c).mp hCs]
          · have hc : ¬ ∃ s, c = JSONValue.string s := fun h => hCs ((isString_iff c).mpr h)
            simp [hTs, hCs, hc]
        | none =>
          cases hK : mapIndex kv "Categories" with
          | some k =>
            by_cases hKn : isNil k = true
            · simp [h1, hTs, hKn, (isString_iff t).mp hTs, (isNil_iff k).mp hKn, isNil]
            · have hk : k ≠ JSONValue.null := fun h => hKn ((isNil_iff k).mpr h)
              simp [h1, hTs, hKn, (isString_iff t).mp hTs, hk, validateCategoriesArray_none_iff]
          | none => simp [h1, hTs, (isString_iff t).mp hTs]
      · have ht : ¬ ∃ s, t = JSONValue.string s := fun h => hTs ((isString_iff t).mpr h)
        simp [hTs, ht]
    | none =>
      cases hC : mapIndex kv "Content" with
      | some c =>
        by_cases hCs : isString c = true
        · cases hK : mapIndex kv "Categories" with
          | some k =>
            by_cases hKn : isNil k = true
            · simp [h1, hCs, hKn, (isString_iff c).mp hCs, (isNil_iff k).mp hKn, isNil]
            · have hk : k ≠ JSONValue.null := fun h => hKn ((isNil_iff k).mpr h)
              simp [h1, hCs, hKn, (isString_iff c).mp hCs, hk, validateCategoriesArray_none_iff]
          | none => simp [h1, hCs, (isString_iff c).mp hCs]
        · have hc : ¬ ∃ s, c = JSONValue.string s := fun h => hCs ((isString_iff c).mpr h)
          simp [hCs, hc]
      | none =>
        cases hK : mapIndex kv "Categories" with
        | some k =>
          by_cases hKn : isNil k = true
          · simp [h1, hKn, (isNil_iff k).mp hKn, isNil]
          · have hk : k ≠ JSONValue.null := fun h => hKn ((isNil_iff k).mpr h)
            simp [h1, hKn, hk, validateCategoriesArray_none_iff]
        | none => simp [h1]

theorem specPositiveIntegerElement_iff (x : JSONValue) :
    specPositiveIntegerElement x ↔
      ∃ f, x = JSONValue.number f ∧ Int.fract f.toRat = 0 ∧ 0 < f.toRat := by
  cases x <;> simp [specPositiveIntegerElement]

theorem mapIndex_some_ne_nil {α : Type} (m : List (String × α)) (k : String) (v : α)
    (h : mapIndex m k = some v) : mapLen m ≠ 0 := by
  intro h0
  rw [mapLen_eq_zero_iff] at h0
  subst h0
  simp [mapIndex] at h

/-- C4: `ValidateCreateNewsRequest` returns nil exactly when the body decodes
to a JSON object with at least one key in which Title, if present, is a
string, Content, if present, is a string, and Categories, if present and not
null, satisfies the categories-array rule. A non-empty object without Title
and Content is accepted at this stage, and an explicit null Title or Content
is rejected with "must be string". -/
theorem create_request_accepts_iff (fmtV : Float64 → String) (data : Body) :
    (ValidateCreateNewsRequest fmtV data = none ↔
      ∃ kv, data = some (JSONValue.object kv) ∧ 1 ≤ mapLen kv ∧
        (∀ v, mapIndex kv "Title" = some v → ∃ s, v = JSONValue.string s) ∧
        (∀ v, mapIndex kv "Content" = some v → ∃ s, v = JSONValue.string s) ∧
        (∀ v, mapIndex kv "Categories" = some v → v = JSONValue.null ∨ specCategoriesRule v)) ∧
    (∀ kv, data = some (JSONValue.object kv) → 1 ≤ mapLen kv →
        mapIndex kv "Title" = none → mapIndex kv "Content" = none →
        (∀ v, mapIndex kv "Categories" = some v → v = JSONValue.null ∨ specCategoriesRule v) →
        ValidateCreateNewsRequest fmtV data = none) ∧
    (∀ kv, data = some (JSONValue.object kv) → mapIndex kv "Title" = some JSONValue.null →
        ValidateCreateNewsRequest fmtV data = some ⟨"Title", "must be string"⟩) ∧
    (∀ kv, data = some (JSONValue.object kv) →
        (∀ v, mapIndex kv "Title" = some v → ∃ s, v = JSONValue.string s) →
        mapIndex kv "Content" = some JSONValue.null →
        ValidateCreateNewsRequest fmtV data = some ⟨"Content", "must be string"⟩) := by
  refine ⟨?_, ?_, ?_, ?_⟩
  · cases data with
    | none => simp [ValidateCreateNewsRequest, unmarshalRaw]
    | some v =>
      cases v with
      | object kv =>
        rw [create_object_none_iff]
        constructor
        · intro h
          exact ⟨kv, rfl, h⟩
        · rintro ⟨kv', hkv, h⟩
          simp only [Option.some.injEq, JSONValue.object.injEq] at hkv
          subst hkv
          exact h
      | null => simp [ValidateCreateNewsRequest, unmarshalRaw, mapLen]
      | bool b => simp [ValidateCreateNewsRequest, unmarshalRaw]
      | number f => simp [ValidateCreateNewsRequest, unmarshalRaw]
      | string s => simp [ValidateCreateNewsRequest, unmarshalRaw]
      | array xs => simp [ValidateCreateNewsRequest, unmarshalRaw]
  · intro kv hdata hlen hT hC hK
    subst hdata
    rw [create_object_none_iff]
    exact ⟨hlen, by simp [hT], by simp [hC], hK⟩
  · intro kv hdata hT
    subst hdata
    have hlen := mapIndex_some_ne_nil kv "Title" _ hT
    simp [ValidateCreateNewsRequest, unmarshalRaw, hlen, hT, isString]
  · intro kv hdata hT hC
    subst hdata
    have hlen := mapIndex_some_ne_nil kv "Content" _ hC
    cases hT' : mapIndex kv "Title" with
    | none => simp [ValidateCreateNewsRequest, unmarshalRaw, hlen, hT', hC, isString]
    | some t =>
      obtain ⟨s, hs⟩ := hT t hT'
      subst hs
      simp [ValidateCreateNewsRequest, unmarshalRaw, hlen, hT', hC, isString]

/-- Witness of C4: the body `{"Title": null}` is rejected with "must be
string", and the body `{"Tags": true}` that lacks Title and Content is
accepted. -/
theorem create_request_accepts_iff_witness :
    ValidateCreateNewsRequest fmtSmallIntegral
        (some (JSONValue.object [("Title", JSONValue.null)])) = some ⟨"Title", "must be string"⟩ ∧
      ValidateCreateNewsRequest fmtSmallIntegral
        (some (JSONValue.object [("Tags", JSONValue.bool true)])) = none :=
  ⟨(create_request_accepts_iff fmtSmallIntegral
      (some (JSONValue.object [("Title", JSONValue.null)]))).2.2.1
      [("Title", JSONValue.null)] rfl rfl,
   (create_request_accepts_iff fmtSmallIntegral
      (some (JSONValue.object [("Tags", JSONValue.bool true)]))).2.1
      [("Tags", JSONValue.bool true)] rfl (by decide) rfl rfl
      (fun v h => by simp [mapIndex] at h)⟩

/-- C5: `validateCategoriesArray` returns nil exactly when its argument is an
array every element of which is a number with no fractional part and value
above zero; the empty array is accepted, and an argument that is not an array
fails with "Categories: must be array numbers". -/
theorem validateCategoriesArray_accepts_iff (fmtV : Float64 → String) (v : JSONValue) :
    (validateCategoriesArray fmtV v = none ↔
      ∃ xs, v = JSONValue.array xs ∧
        ∀ x ∈ xs, ∃ f, x = JSONValue.number f ∧ Int.fract f.toRat = 0 ∧ 0 < f.toRat) ∧
    validateCategoriesArray fmtV (JSONValue.array []) = none ∧
    ((¬ ∃ xs, v = JSONValue.array xs) →
      ∃ e, validateCategoriesArray fmtV v = some e ∧
        e.Field = "Categories" ∧ e.Message = "must be array numbers" ∧
        e.Error = "Categories: must be array numbers") := by
  refine ⟨?_, rfl, ?_⟩
  · rw [validateCategoriesArray_none_iff]
    cases v with
    | array xs => simp [specCategoriesRule, specPositiveIntegerElement_iff]
    | null => simp [specCategoriesRule]
    | bool b => simp [specCategoriesRule]
    | number f => simp [specCategoriesRule]
    | string s => simp [specCategoriesRule]
    | object kv => simp [specCategoriesRule]
  · intro h
    cases v with
    | array xs => exact absurd ⟨xs, rfl⟩ h
    | null => exact ⟨_, rfl, rfl, rfl, by decide⟩
    | bool b => exact ⟨_, rfl, rfl, rfl, by decide⟩
    | number f => exact ⟨_, rfl, rfl, rfl, by decide⟩
    | string s => exact ⟨_, rfl, rfl, rfl, by decide⟩
    | object kv => exact ⟨_, rfl, rfl, rfl, by decide⟩

/-- Witness of C5: the number `12` is not an array and is rejected with
"Categories: must be array numbers". -/
theorem validateCategoriesArray_accepts_iff_witness :
    ∃ e, validateCategoriesArray fmtSmallIntegral (JSONValue.number (Float64.finite 12)) = some e ∧
      e.Field = "Categories" ∧ e.Message = "must be array numbers" ∧
      e.Error = "Categories: must be array numbers" :=
  (validateCategoriesArray_accepts_iff fmtSmallIntegral (JSONValue.number (Float64.finite 12))).2.2
    (by simp)

/-- C6: on an array, `validateCategoriesArray` reports the first offending
element: when the element at index `i` is not a positive integer and every
element before it is, the result is the error of that element alone (not a
number, else not an integer, else not positive), whatever follows index `i`;
every failure on an array is of this kind; and `[1, -2, "x"]` yields "element
at index 1 must be positive, got -2" once `%v` prints the number as `-2`. -/
theorem validateCategoriesArray_first_offending (fmtV : Float64 → String)
    (xs : List JSONValue) :
    (∀ (i : Nat) (x : JSONValue), xs[i]? = some x →
      (∀ (j : Nat) (y : JSONValue), j < i → xs[j]? = some y → specPositiveIntegerElement y) →
      ¬ specPositiveIntegerElement x →
      validateCategoriesArray fmtV (JSONValue.array xs)
          = some (specOffendingElementError fmtV i x) ∧
        ∀ ys, validateCategoriesArray fmtV (JSONValue.array (xs.take (i + 1) ++ ys))
          = some (specOffendingElementError fmtV i x)) ∧
    (∀ e, validateCategoriesArray fmtV (JSONValue.array xs) = some e →
      ∃ (i : Nat) (x : JSONValue), xs[i]? = some x ∧
        (∀ (j : Nat) (y : JSONValue), j < i → xs[j]? = some y → specPositiveIntegerElement y) ∧
        ¬ specPositiveIntegerElement x ∧ e = specOffendingElementError fmtV i x) ∧
    (fmtV (Float64.finite (-2)) = "-2" →
      validateCategoriesArray fmtV
          (JSONValue.array [JSONValue.number (Float64.finite 1),
            JSONValue.number (Float64.finite (-2)), JSONValue.string "x"])
        = some ⟨"Categories", "element at index 1 must be positive, got -2"⟩) := by
  refine ⟨?_, ?_, ?_⟩
  · intro i x hi hbefore hbad
    have hlt : i < xs.length := by
      by_contra hc
      rw [List.getElem?_eq_none (Nat.le_of_not_lt hc)] at hi
      exact Option.noConfusion hi
    constructor
    · have := loop_first_offending fmtV xs 0 i x hi hbefore hbad
      simpa [validateCategoriesArray] using this
    · intro ys
      have hi' : (xs.take (i + 1) ++ ys)[i]? = some x := by
        rw [List.getElem?_append_left (by simp; omega), List.getElem?_take_of_lt (by omega)]
        exact hi
      have hb' : ∀ (j : Nat) (y : JSONValue), j < i → (xs.take (i + 1) ++ ys)[j]? = some y →
          specPositiveIntegerElement y := by
        intro j y hj hy
        rw [List.getElem?_append_left (by simp; omega), List.getElem?_take_of_lt (by omega)] at hy
        exact hbefore j y hj hy
      have := loop_first_offending fmtV (xs.take (i + 1) ++ ys) 0 i x hi' hb' hbad
      simpa [validateCategoriesArray] using this
  · intro e he
    have hnot : ¬ ∀ x ∈ xs, specPositiveIntegerElement x := by
      intro hall
      have hnone := (loop_none_iff fmtV 0 xs).mpr hall
      simp [validateCategoriesArray, hnone] at he
    obtain ⟨i, x, hi, hbefore, hbad⟩ := exists_first_offending xs hnot
    refine ⟨i, x, hi, hbefore, hbad, ?_⟩
    have := loop_first_offending fmtV xs 0 i x hi hbefore hbad
    simp only [validateCategoriesArray, Nat.zero_add] at he this
    rw [this] at he
    exact (Option.some.inj he).symm
  · intro hfmt
    have hfr : Int.fract (-2 : ℚ) = 0 := by
      have h : ((-2 : ℤ) : ℚ) = -2 := by norm_num
      rw [← h, Int.fract_intCast]
    have h1 : specPositiveIntegerElement (JSONValue.number (Float64.finite 1)) := by
      simp [specPositiveIntegerElement, Float64.toRat]
    have h2 : ¬ specPositiveIntegerElement (JSONValue.number (Float64.finite (-2))) := by
      simp [specPositiveIntegerElement, Float64.toRat]
    rw [validateCategoriesArray, loop_cons_good _ _ _ _ h1, loop_cons_bad _ _ _ _ h2]
    simp only [specOffendingElementError, Float64.toRat, hfr, hfmt, ne_eq, not_true_eq_false,
      if_false]
    decide

/-- Witness of C6 on the array `[1, -2, "x"]`, with a rendering that prints
the number as `-2`. -/
theorem validateCategoriesArray_first_offending_witness :
    fmtSmallIntegral (Float64.finite (-2)) = "-2" ∧
      validateCategoriesArray fmtSmallIntegral
          (JSONValue.array [JSONValue.number (Float64.finite 1),
            JSONValue.number (Float64.finite (-2)), JSONValue.string "x"])
        = some ⟨"Categories", "element at index 1 must be positive, got -2"⟩ :=
  ⟨by decide,
   (validateCategoriesArray_first_offending fmtSmallIntegral
      [JSONValue.number (Float64.finite 1), JSONValue.number (Float64.finite (-2)),
        JSONValue.string "x"]).2.2 (by decide)⟩

theorem mapDelete_cons_eq {α : Type} (k₀ : String) (v : α) (rest : List (String × α))
    (k : String) (h : k₀ = k) : mapDelete ((k₀, v) :: rest) k = mapDelete rest k := by
  simp [mapDelete, h]

theorem mapDelete_cons_ne {α : Type} (k₀ : String) (v : α) (rest : List (String × α))
    (k : String) (h : k₀ ≠ k) : mapDelete ((k₀, v) :: rest) k = (k₀, v) :: mapDelete rest k := by
  simp [mapDelete, h]

theorem mapIndex_mapDelete_self {α : Type} (m : List (String × α)) (k : String) :
    mapIndex (mapDelete m k) k = none := by
  induction m with
  | nil => rfl
  | cons p rest ih =>
    obtain ⟨k₀, v⟩ := p
    by_cases h : k₀ = k
    · rw [mapDelete_cons_eq k₀ v rest k h]
      exact ih
    · rw [mapDelete_cons_ne k₀ v rest k h]
      simp only [mapIndex, ih, if_neg h]

theorem mapIndex_mapDelete_ne {α : Type} (m : List (String × α)) (k k' : String) (h : k' ≠ k) :
    mapIndex (mapDelete m k) k' = mapIndex m k' := by
  induction m with
  | nil => rfl
  | cons p rest ih =>
    obtain ⟨k₀, v⟩ := p
    by_cases h0 : k₀ = k
    · have h1 : ¬ k₀ = k' := fun hc => h (hc ▸ h0)
      rw [mapDelete_cons_eq k₀ v rest k h0, ih]
      simp only [mapIndex, if_neg h1]
      cases mapIndex rest k' <;> rfl
    · rw [mapDelete_cons_ne k₀ v rest k h0]
      simp only [mapIndex, ih]

theorem mapLen_mapDelete_ne_zero {α : Type} (m : List (String × α)) (k : String)
    (h : ∃ k', k' ≠ k ∧ (mapIndex m k').isSome = true) : mapLen (mapDelete m k) ≠ 0 := by
  obtain ⟨k', hne, hsome⟩ := h
  obtain ⟨v, hv⟩ := Option.isSome_iff_exists.mp hsome
  exact mapIndex_some_ne_nil _ k' v (by rw [mapIndex_mapDelete_ne m k k' hne]; exact hv)

/-- C7: `ValidateEditNewsRequest` treats an explicit null as an absent key.
When the value of `k`, one of Title, Content, Categories, is null in an object
body that has at least one other key, the result is the same as on the object
with `k` deleted; and a non-empty object in which each of the three keys is
absent or null is accepted. -/
theorem edit_request_null_as_absent (fmtV : Float64 → String)
    (kv : List (String × JSONValue)) :
    (∀ k, (k = "Title" ∨ k = "Content" ∨ k = "Categories") →
      mapIndex kv k = some JSONValue.null →
      (∃ k', k' ≠ k ∧ (mapIndex kv k').isSome = true) →
      ValidateEditNewsRequest fmtV (some (JSONValue.object kv))
        = ValidateEditNewsRequest fmtV (some (JSONValue.object (mapDelete kv k)))) ∧
    (1 ≤ mapLen kv →
      (∀ k, (k = "Title" ∨ k = "Content" ∨ k = "Categories") →
        mapIndex kv k = none ∨ mapIndex kv k = some JSONValue.null) →
      ValidateEditNewsRequest fmtV (some (JSONValue.object kv)) = none) := by
  constructor
  · intro k hk hnull hother
    have hlen : mapLen kv ≠ 0 := mapIndex_some_ne_nil kv k _ hnull
    have hlen' : mapLen (mapDelete kv k) ≠ 0 := mapLen_mapDelete_ne_zero kv k hother
    rcases hk with rfl | rfl | rfl
    · simp [ValidateEditNewsRequest, unmarshalRaw, hlen, hlen', hnull, isNil,
        mapIndex_mapDelete_self, mapIndex_mapDelete_ne]
    · simp [ValidateEditNewsRequest, unmarshalRaw, hlen, hlen', hnull, isNil,
        mapIndex_mapDelete_self, mapIndex_mapDelete_ne]
    · simp [ValidateEditNewsRequest, unmarshalRaw, hlen, hlen', hnull, isNil,
        mapIndex_mapDelete_self, mapIndex_mapDelete_ne]
  · intro hlen hall
    have hlen' : mapLen kv ≠ 0 := by omega
    rcases hall "Title" (Or.inl rfl) with hT | hT <;>
    rcases hall "Content" (Or.inr (Or.inl rfl)) with hC | hC <;>
    rcases hall "Categories" (Or.inr (Or.inr rfl)) with hK | hK <;>
    simp [ValidateEditNewsRequest, unmarshalRaw, hlen', hT, hC, hK, isNil]

/-- Witness of C7: the body `{"Title": null, "Content": "x"}` gives the same
result as `{"Content": "x"}`, and the all-null body is accepted. -/
theorem edit_request_null_as_absent_witness :
    ValidateEditNewsRequest fmtSmallIntegral
        (some (JSONValue.object [("Title", JSONValue.null), ("Content", JSONValue.string "x")]))
      = ValidateEditNewsRequest fmtSmallIntegral
        (some (JSONValue.object
          (mapDelete [("Title", JSONValue.null), ("Content", JSONValue.string "x")] "Title"))) ∧
    ValidateEditNewsRequest fmtSmallIntegral
        (some (JSONValue.object [("Title", JSONValue.null), ("Content", JSONValue.null),
          ("Categories", JSONValue.null)])) = none :=
  ⟨(edit_request_null_as_absent fmtSmallIntegral
      [("Title", JSONValue.null), ("Content", JSONValue.string "x")]).1 "Title" (Or.inl rfl) rfl
      ⟨"Content", by decide, rfl⟩,
   (edit_request_null_as_absent fmtSmallIntegral
      [("Title", JSONValue.null), ("Content", JSONValue.null),
        ("Categories", JSONValue.null)]).2 (by decide)
      (fun k hk => by
        rcases hk with rfl | rfl | rfl
        · exact Or.inr rfl
        · exact Or.inr rfl
        · exact Or.inr rfl)⟩

theorem validateCategoriesLoop_field (fmtV : Float64 → String) (xs : List JSONValue) :
    ∀ (k : Nat) (e : ValidationError), validateCategoriesLoop fmtV k xs = some e →
      e.Field = "Categories" := by
  induction xs with
  | nil => intro k e h; simp [validateCategoriesLoop] at h
  | cons x rest ih =>
    intro k e h
    by_cases hx : specPositiveIntegerElement x
    · rw [loop_cons_good fmtV k x rest hx] at h
      exact ih (k + 1) e h
    · rw [loop_cons_bad fmtV k x rest hx] at h
      rw [← Option.some.inj h]
      rfl

theorem validateCategoriesArray_field (fmtV : Float64 → String) (v : JSONValue)
    (e : ValidationError) (h : validateCategoriesArray fmtV v = some e) :
    e.Field = "Categories" := by
  cases v with
  | array xs => exact validateCategoriesLoop_field fmtV xs 0 e h
  | null => rw [← Option.some.inj h]
  | bool b => rw [← Option.some.inj h]
  | number f => rw [← Option.some.inj h]
  | string s => rw [← Option.some.inj h]
  | object kv => rw [← Option.some.inj h]

theorem index_trichotomy (kv : List (String × JSONValue)) (k : String)
    (hnn : mapIndex kv k ≠ some JSONValue.null) :
    mapIndex kv k = none ∨
      ∃ v, mapIndex kv k = some v ∧ isNil v = false ∧ (isString v = true ∨ isString v = false) := by
  cases h : mapIndex kv k with
  | none => exact Or.inl rfl
  | some v =>
    refine Or.inr ⟨v, rfl, ?_, ?_⟩
    · cases hv : isNil v with
      | false => rfl
      | true => exact absurd (by rw [h, (isNil_iff v).mp hv]) hnn
    · cases isString v
      · exact Or.inr rfl
      · exact Or.inl rfl

/-- C8, refuted as stated: on the body `{"Title": 6}`, a non-empty object
without null, the two validators return different errors: the create
validator says "must be string", the edit validator "must be string, got
float64". -/
theorem edit_create_message_differs :
    ValidateCreateNewsRequest fmtSmallIntegral
        (some (JSONValue.object [("Title", JSONValue.number (Float64.finite 6))]))
      = some ⟨"Title", "must be string"⟩ ∧
    ValidateEditNewsRequest fmtSmallIntegral
        (some (JSONValue.object [("Title", JSONValue.number (Float64.finite 6))]))
      = some ⟨"Title", "must be string, got float64"⟩ ∧
    ValidateCreateNewsRequest fmtSmallIntegral
        (some (JSONValue.object [("Title", JSONValue.number (Float64.finite 6))]))
      ≠ ValidateEditNewsRequest fmtSmallIntegral
        (some (JSONValue.object [("Title", JSONValue.number (Float64.finite 6))])) := by
  refine ⟨by decide, by decide, by decide⟩

/-- C8, amended: on a body that decodes to a non-empty object in which none of
Title, Content, Categories is null, the two validators return nil together,
and when they fail they name the same field; a Categories error has the same
message in both, while for a non-string Title or Content the create validator
says "must be string" and the edit validator appends the Go type of the value,
"must be string, got T". -/
theorem edit_create_same_outcome (fmtV : Float64 → String) (kv : List (String × JSONValue))
    (hlen : 1 ≤ mapLen kv)
    (hnn : ∀ k, (k = "Title" ∨ k = "Content" ∨ k = "Categories") →
      mapIndex kv k ≠ some JSONValue.null) :
    (ValidateCreateNewsRequest fmtV (some (JSONValue.object kv)) = none ↔
      ValidateEditNewsRequest fmtV (some (JSONValue.object kv)) = none) ∧
    (∀ e₁ e₂, ValidateCreateNewsRequest fmtV (some (JSONValue.object kv)) = some e₁ →
      ValidateEditNewsRequest fmtV (some (JSONValue.object kv)) = some e₂ →
      e₁.Field = e₂.Field ∧
      (e₁.Field = "Categories" → e₁.Message = e₂.Message) ∧
      (e₁.Field ≠ "Categories" →
        (e₁.Field = "Title" ∨ e₁.Field = "Content") ∧ e₁.Message = "must be string" ∧
        ∃ v, mapIndex kv e₁.Field = some v ∧ isString v = false ∧
          e₂.Message = "must be string, got " ++ goTypeName v)) := by
  have hlen' : mapLen kv ≠ 0 := by omega
  have hcat : ∀ (c : JSONValue) (e₁ e₂ : ValidationError),
      validateCategoriesArray fmtV c = some e₁ → validateCategoriesArray fmtV c = some e₂ →
      e₁.Field = e₂.Field ∧ (e₁.Field = "Categories" → e₁.Message = e₂.Message) ∧
      (e₁.Field ≠ "Categories" →
        (e₁.Field = "Title" ∨ e₁.Field = "Content") ∧ e₁.Message = "must be string" ∧
        ∃ v, mapIndex kv e₁.Field = some v ∧ isString v = false ∧
          e₂.Message = "must be string, got " ++ goTypeName v) := by
    intro c e₁ e₂ h₁ h₂
    have heq : e₁ = e₂ := Option.some.inj (h₁.symm.trans h₂)
    subst heq
    exact ⟨rfl, fun _ => rfl, fun hne => absurd (validateCategoriesArray_field fmtV c e₁ h₁) hne⟩
  rcases index_trichotomy kv "Title" (hnn _ (Or.inl rfl)) with hT | ⟨t, hT, hTn, hTs | hTs⟩
  · rcases index_trichotomy kv "Content" (hnn _ (Or.inr (Or.inl rfl)))
      with hC | ⟨c, hC, hCn, hCs | hCs⟩
    · rcases index_trichotomy kv "Categories" (hnn _ (Or.inr (Or.inr rfl)))
        with hK | ⟨k, hK, hKn, _⟩
      · simp [ValidateCreateNewsRequest, ValidateEditNewsRequest, unmarshalRaw, hlen', hT, hC, hK]
      · simpa [ValidateCreateNewsRequest, ValidateEditNewsRequest, unmarshalRaw, hlen', hT, hC,
          hK, hKn] using hcat k
    · rcases index_trichotomy kv "Categories" (hnn _ (Or.inr (Or.inr rfl)))
        with hK | ⟨k, hK, hKn, _⟩
      · simp [ValidateCreateNewsRequest, ValidateEditNewsRequest, unmarshalRaw, hlen', hT, hC, hK,
          hCn, hCs]
      · simpa [ValidateCreateNewsRequest, ValidateEditNewsRequest, unmarshalRaw, hlen', hT, hC,
          hK, hKn, hCn, hCs] using hcat k
    · simp [ValidateCreateNewsRequest, ValidateEditNewsRequest, unmarshalRaw, hlen', hT, hC,
        hCn, hCs]
  · rcases index_trichotomy kv "Content" (hnn _ (Or.inr (Or.inl rfl)))
      with hC | ⟨c, hC, hCn, hCs | hCs⟩
    · rcases index_trichotomy kv "Categories" (hnn _ (Or.inr (Or.inr rfl)))
        with hK | ⟨k, hK, hKn, _⟩
      · simp [ValidateCreateNewsRequest, ValidateEditNewsRequest, unmarshalRaw, hlen', hT, hC, hK,
          hTn, hTs]
      · simpa [ValidateCreateNewsRequest, ValidateEditNewsRequest, unmarshalRaw, hlen', hT, hC,
          hK, hKn, hTn, hTs] using hcat k
    · rcases index_trichotomy kv "Categories" (hnn _ (Or.inr (Or.inr rfl)))
        with hK | ⟨k, hK, hKn, _⟩
      · simp [ValidateCreateNewsRequest, ValidateEditNewsRequest, unmarshalRaw, hlen', hT, hC, hK,
          hCn, hCs, hTn, hTs]
      · simpa [ValidateCreateNewsRequest, ValidateEditNewsRequest, unmarshalRaw, hlen', hT, hC,
          hK, hKn, hCn, hCs, hTn, hTs] using hcat k
    · simp [ValidateCreateNewsRequest, ValidateEditNewsRequest, unmarshalRaw, hlen', hT, hC,
        hCn, hCs, hTn, hTs]
  · simp [ValidateCreateNewsRequest, ValidateEditNewsRequest, unmarshalRaw, hlen', hT, hTn, hTs]

/-- Witness of the amended C8 on the body `{"Title": 6}`. -/
theorem edit_create_same_outcome_witness :
    (ValidateCreateNewsRequest fmtSmallIntegral
        (some (JSONValue.object [("Title", JSONValue.number (Float64.finite 6))])) = none ↔
      ValidateEditNewsRequest fmtSmallIntegral
        (some (JSONValue.object [("Title", JSONValue.number (Float64.finite 6))])) = none) :=
  (edit_create_same_outcome fmtSmallIntegral [("Title", JSONValue.number (Float64.finite 6))]
    (by decide)
    (fun k hk => by
      rcases hk with rfl | rfl | rfl
      · exact fun h => JSONValue.noConfusion (Option.some.inj h)
      · exact fun h => Option.noConfusion h
      · exact fun h => Option.noConfusion h)).1

/-! ## Edit-to-update-map translation -/

theorem updateFieldsOf_len_pos_iff (F : NewsEditForm) :
    mapLen (updateFieldsOf F) > 0 ↔ (F.Title ≠ none ∨ F.Content ≠ none) := by
  rw [gt_iff_lt, Nat.pos_iff_ne_zero, Ne, mapLen_eq_zero_iff]
  obtain ⟨t, c, cs⟩ := F
  cases t <;> cases c <;> simp [updateFieldsOf, mapSet]

theorem editNews_eq {σ ε : Type} (repo : INewsRepository σ ε) (newsId : Int) (F : NewsEditForm)
    (store : σ) :
    EditNews repo newsId F store =
      if F.Title ≠ none ∨ F.Content ≠ none ∨ F.Categories ≠ none then
        repo.UpdateNews newsId (updateFieldsOf F) F.Categories store
      else (none, store) := by
  unfold EditNews
  have hiff : (mapLen (updateFieldsOf F) > 0 ∨ F.Categories ≠ none) ↔
      (F.Title ≠ none ∨ F.Content ≠ none ∨ F.Categories ≠ none) := by
    rw [updateFieldsOf_len_pos_iff, or_assoc]
  by_cases h : F.Title ≠ none ∨ F.Content ≠ none ∨ F.Categories ≠ none
  · simp only [if_pos (hiff.mpr h), if_pos h]
    rcases hres : repo.UpdateNews newsId (updateFieldsOf F) F.Categories store with ⟨err, st⟩
    cases err <;> rfl
  · simp only [if_neg (fun hc => h (hiff.mp hc)), if_neg h]

/-- C9: the update-field-set that `EditNews` passes to the repository has the
key "title" exactly when the form has a Title, with that string as value, the
key "content" exactly when the form has a Content, with that string as value,
and no other key. -/
theorem editNews_update_fields {ε : Type} (ret : UpdateNewsCall → Option ε) (newsId : Int)
    (F : NewsEditForm) :
    (∀ call ∈ (EditNews (recordingRepo ret) newsId F []).2,
      mapIndex call.updateFields "title" = F.Title ∧
      mapIndex call.updateFields "content" = F.Content ∧
      ∀ k, k ≠ "title" → k ≠ "content" → mapIndex call.updateFields k = none) ∧
    ((F.Title ≠ none ∨ F.Content ≠ none ∨ F.Categories ≠ none) →
      ∃ call, (EditNews (recordingRepo ret) newsId F []).2 = [call]) := by
  have hfields : mapIndex (updateFieldsOf F) "title" = F.Title ∧
      mapIndex (updateFieldsOf F) "content" = F.Content ∧
      ∀ k, k ≠ "title" → k ≠ "content" → mapIndex (updateFieldsOf F) k = none := by
    obtain ⟨t, c, cs⟩ := F
    cases t <;> cases c <;>
      refine ⟨by simp [updateFieldsOf, mapSet, mapIndex], by simp [updateFieldsOf, mapSet, mapIndex],
        fun k h1 h2 => ?_⟩ <;>
      simp [updateFieldsOf, mapSet, mapIndex, Ne.symm h1, Ne.symm h2]
  rw [editNews_eq]
  by_cases h : F.Title ≠ none ∨ F.Content ≠ none ∨ F.Categories ≠ none
  · rw [if_pos h]
    refine ⟨?_, fun _ => ⟨_, rfl⟩⟩
    intro call hcall
    simp only [recordingRepo, List.nil_append, List.mem_singleton] at hcall
    subst hcall
    exact hfields
  · rw [if_neg h]
    exact ⟨fun call hcall => absurd hcall (List.not_mem_nil call), fun hc => absurd hc h⟩

/-- Witness of C9: for the form with Title "NewTitle" only the repository
receives exactly one call. -/
theorem editNews_update_fields_witness :
    ∃ call, (EditNews (recordingRepo (fun _ => (none : Option String))) 10
      ⟨some "NewTitle", none, none⟩ []).2 = [call] :=
  (editNews_update_fields (fun _ => (none : Option String)) 10 ⟨some "NewTitle", none, none⟩).2
    (Or.inl (by simp))

/-- C10: when at least one of Title, Content, Categories is present,
`EditNews` is exactly one call of the repository method `UpdateNews` with the
given id, the update-field-set and the form's Categories pointer unchanged,
and it returns the error of that call; when all three are absent it makes no
repository call and returns nil. The repository receives a call if and only
if a field is present. -/
theorem editNews_calls_repository {σ ε : Type} (repo : INewsRepository σ ε)
    (ret : UpdateNewsCall → Option ε) (newsId : Int) (F : NewsEditForm) (store : σ) :
    ((F.Title ≠ none ∨ F.Content ≠ none ∨ F.Categories ≠ none) →
      EditNews repo newsId F store
          = repo.UpdateNews newsId (updateFieldsOf F) F.Categories store ∧
        EditNews (recordingRepo ret) newsId F []
          = (ret ⟨newsId, updateFieldsOf F, F.Categories⟩,
             [⟨newsId, updateFieldsOf F, F.Categories⟩])) ∧
    ((F.Title = none ∧ F.Content = none ∧ F.Categories = none) →
      EditNews repo newsId F store = (none, store) ∧
        EditNews (recordingRepo ret) newsId F [] = (none, [])) ∧
    ((∃ call, (EditNews (recordingRepo ret) newsId F []).2 = [call]) ↔
      (F.Title ≠ none ∨ F.Content ≠ none ∨ F.Categories ≠ none)) := by
  rw [editNews_eq, editNews_eq]
  by_cases h : F.Title ≠ none ∨ F.Content ≠ none ∨ F.Categories ≠ none
  · simp only [if_pos h]
    refine ⟨fun _ => by simp [recordingRepo], ?_, ?_⟩
    · rintro ⟨h1, h2, h3⟩
      rcases h with h | h | h
      · exact absurd h1 h
      · exact absurd h2 h
      · exact absurd h3 h
    · exact ⟨fun _ => h, fun _ => ⟨_, rfl⟩⟩
  · simp only [if_neg h]
    refine ⟨fun hc => absurd hc h, fun _ => by simp, ?_⟩
    constructor
    · rintro ⟨call, hcall⟩
      exact absurd hcall (by simp)
    · exact fun hc => absurd hc h

/-- Witness of C10: with Categories `[]` only, the repository receives one
call with an empty field set and the pointer to the empty list; with the empty
form it receives none. -/
theorem editNews_calls_repository_witness :
    EditNews (recordingRepo (fun _ => some "News not found")) 10 ⟨none, none, some []⟩ []
        = (some "News not found", [⟨10, [], some []⟩]) ∧
      EditNews (recordingRepo (fun _ => some "News not found")) 10 ⟨none, none, none⟩ []
        = (none, []) :=
  ⟨((editNews_calls_repository (recordingRepo (fun _ => some "News not found"))
      (fun _ => some "News not found") 10 ⟨none, none, some []⟩ []).1
      (Or.inr (Or.inr (by simp)))).2,
   ((editNews_calls_repository (recordingRepo (fun _ => some "News not found"))
      (fun _ => some "News not found") 10 ⟨none, none, none⟩ []).2.1 ⟨rfl, rfl, rfl⟩).2⟩

/-! ## Pagination parameters -/

/-- C11: `ValidatePaginationParams(limit, offset)` returns nil exactly when
1 <= limit <= 100 and offset >= 0; otherwise it fails with a 400 bad-request
error whose message is "limit must be greater or equal 1" when limit < 1,
"limit must be less or equal to 100" when limit > 100, and "offset cannot be
negative" when the limit is in range and offset < 0. -/
theorem pagination_params_iff (limit offset : Int) :
    (ValidatePaginationParams limit offset = none ↔ 1 ≤ limit ∧ limit ≤ 100 ∧ 0 ≤ offset) ∧
    (limit < 1 → ValidatePaginationParams limit offset
      = some (NewBadRequest "limit must be greater or equal 1")) ∧
    (100 < limit → ValidatePaginationParams limit offset
      = some (NewBadRequest "limit must be less or equal to 100")) ∧
    (1 ≤ limit → limit ≤ 100 → offset < 0 → ValidatePaginationParams limit offset
      = some (NewBadRequest "offset cannot be negative")) ∧
    (∀ e, ValidatePaginationParams limit offset = some e → (ErrorHandler e).status = 400) := by
  unfold ValidatePaginationParams
  refine ⟨?_, ?_, ?_, ?_, ?_⟩
  · by_cases h1 : limit < 1
    · simp only [if_pos h1]
      constructor
      · intro h; exact Option.noConfusion h
      · intro h; omega
    · by_cases h2 : limit > 100
      · simp only [if_neg h1, if_pos h2]
        constructor
        · intro h; exact Option.noConfusion h
        · intro h; omega
      · by_cases h3 : offset < 0
        · simp only [if_neg h1, if_neg h2, if_pos h3]
          constructor
          · intro h; exact Option.noConfusion h
          · intro h; omega
        · simp only [if_neg h1, if_neg h2, if_neg h3, true_iff]
          omega
  · intro h1
    rw [if_pos h1]
  · intro h2
    have h1 : ¬ limit < 1 := by omega
    rw [if_neg h1, if_pos (show limit > 100 from h2)]
  · intro h1 h2 h3
    rw [if_neg (show ¬ limit < 1 by omega), if_neg (show ¬ limit > 100 by omega), if_pos h3]
  · intro e he
    by_cases h1 : limit < 1
    · rw [if_pos h1] at he
      rw [← Option.some.inj he]
      rfl
    · by_cases h2 : limit > 100
      · rw [if_neg h1, if_pos h2] at he
        rw [← Option.some.inj he]
        rfl
      · by_cases h3 : offset < 0
        · rw [if_neg h1, if_neg h2, if_pos h3] at he
          rw [← Option.some.inj he]
          rfl
        · rw [if_neg h1, if_neg h2, if_neg h3] at he
          exact Option.noConfusion he

/-- Witness of C11 on the pairs (0, 0), (101, 0) and (10, -1) of the
specification. -/
theorem pagination_params_iff_witness :
    ValidatePaginationParams 0 0 = some (NewBadRequest "limit must be greater or equal 1") ∧
    ValidatePaginationParams 101 0 = some (NewBadRequest "limit must be less or equal to 100") ∧
    ValidatePaginationParams 10 (-1) = some (NewBadRequest "offset cannot be negative") :=
  ⟨(pagination_params_iff 0 0).2.1 (by decide),
   (pagination_params_iff 101 0).2.2.1 (by decide),
   (pagination_params_iff 10 (-1)).2.2.2.1 (by decide) (by decide) (by decide)⟩

/-! ## Normalization -/

theorem trim_list_idempotent (p : Char → Bool) (l : List Char) :
    (((l.dropWhile p).rdropWhile p).dropWhile p).rdropWhile p = (l.dropWhile p).rdropWhile p := by
  have h1 : ((l.dropWhile p).rdropWhile p).dropWhile p = (l.dropWhile p).rdropWhile p := by
    rw [List.dropWhile_eq_self_iff]
    intro hl
    have hpre : (l.dropWhile p).rdropWhile p <+: l.dropWhile p := List.rdropWhile_prefix p _
    obtain ⟨s, hs⟩ := hpre
    have hlen : 0 < (l.dropWhile p).length := by
      rw [← hs, List.length_append]
      omega
    have hnot := List.dropWhile_get_zero_not p l hlen
    have heq : ((l.dropWhile p).rdropWhile p).get ⟨0, hl⟩ = (l.dropWhile p).get ⟨0, hlen⟩ := by
      have h0 : ((l.dropWhile p).rdropWhile p ++ s)[0]? = (l.dropWhile p)[0]? := by rw [hs]
      rw [List.getElem?_append_left hl] at h0
      rw [List.getElem?_eq_getElem hl, List.getElem?_eq_getElem hlen] at h0
      simpa using h0
    rw [heq]
    exact hnot
  rw [h1, List.rdropWhile_idempotent]

theorem TrimSpace_idempotent (s : String) : TrimSpace (TrimSpace s) = TrimSpace s := by
  unfold TrimSpace
  simp only
  rw [trim_list_idempotent]

/-- C12: `Normalize` is idempotent on both forms: applied twice it leaves the
same Title, Content and Categories, and the same fields present, as applied
once. -/
theorem normalize_idempotent :
    (∀ F : NewsCreateForm, F.Normalize.Normalize = F.Normalize) ∧
    (∀ F : NewsEditForm, F.Normalize.Normalize = F.Normalize) := by
  constructor
  · intro F
    simp [NewsCreateForm.Normalize, TrimSpace_idempotent]
  · intro F
    obtain ⟨t, c, cs⟩ := F
    cases t <;> cases c <;> simp [NewsEditForm.Normalize, TrimSpace_idempotent]

theorem TrimSpace_of_all_space (s : String) (h : ∀ c ∈ s.data, unicodeIsSpace c = true) :
    TrimSpace s = "" := by
  unfold TrimSpace
  have h1 : s.data.dropWhile unicodeIsSpace = [] := List.dropWhile_eq_nil_iff.mpr h
  rw [h1]
  rfl

theorem edit_validate_first_error (n : NewsEditForm) (e : FieldError) (es : List FieldError)
    (hpres : ¬ (n.Title = none ∧ n.Content = none ∧ n.Categories = none))
    (h : n.validateStruct = e :: es) :
    n.Validate = some (formatValidationError [e]) := by
  unfold NewsEditForm.Validate
  rw [if_neg hpres, h]
  rfl

theorem title_ptr_empty :
    validateStringPtr "Title" [StrTag.omitempty, StrTag.min 1, StrTag.max 255] (some "")
      = [{ Field := "Title", Tag := "min", Param := "1" }] := by
  decide

theorem content_ptr_empty :
    validateStringPtr "Content" [StrTag.omitempty, StrTag.min 1] (some "")
      = [{ Field := "Content", Tag := "min", Param := "1" }] := by
  decide

theorem title_ptr_too_long (s : String) (h : 255 < s.length) :
    validateStringPtr "Title" [StrTag.omitempty, StrTag.min 1, StrTag.max 255] (some s)
      = [{ Field := "Title", Tag := "max", Param := "255" }] := by
  have h1 : 1 ≤ s.length := by omega
  have h2 : ¬ s.length ≤ 255 := by omega
  simp only [validateStringPtr, runStrTags, Bool.true_or, if_true, if_pos h1, if_neg h2]
  decide

/-- C14: on an edit form, `Normalize` followed by `Validate` fails with "Title:
minimum length is 1" when Title is present and empty or all white space; with
"Content: minimum length is 1" when Title is absent or valid and Content is
present and empty or all white space; and with "Title: maximum length is 255"
when the present Title is longer than 255 characters after trimming. -/
theorem edit_validate_length_messages (F : NewsEditForm) :
    (∀ t, F.Title = some t → (∀ c ∈ t.data, unicodeIsSpace c = true) →
      F.Normalize.Validate = some "Title: minimum length is 1") ∧
    (∀ c, (F.Title = none ∨
          ∃ t, F.Title = some t ∧ 1 ≤ (TrimSpace t).length ∧ (TrimSpace t).length ≤ 255) →
      F.Content = some c → (∀ ch ∈ c.data, unicodeIsSpace ch = true) →
      F.Normalize.Validate = some "Content: minimum length is 1") ∧
    (∀ t, F.Title = some t → 255 < (TrimSpace t).length →
      F.Normalize.Validate = some "Title: maximum length is 255") := by
  obtain ⟨title, content, cats⟩ := F
  refine ⟨?_, ?_, ?_⟩
  · intro t ht hspace
    simp only at ht
    subst ht
    have hpres : ¬ ((NewsEditForm.Normalize ⟨some t, content, cats⟩).Title = none ∧
        (NewsEditForm.Normalize ⟨some t, content, cats⟩).Content = none ∧
        (NewsEditForm.Normalize ⟨some t, content, cats⟩).Categories = none) := by
      simp [NewsEditForm.Normalize]
    have hs : (NewsEditForm.Normalize ⟨some t, content, cats⟩).validateStruct
        = { Field := "Title", Tag := "min", Param := "1" } ::
          (validateStringPtr "Content" [StrTag.omitempty, StrTag.min 1]
              (NewsEditForm.Normalize ⟨some t, content, cats⟩).Content
            ++ validateInt64SlicePtr "Categories" 0 cats) := by
      simp only [NewsEditForm.validateStruct, NewsEditForm.Normalize,
        TrimSpace_of_all_space t hspace, title_ptr_empty, List.append_assoc, List.singleton_append,
        List.cons_append, List.nil_append]
    rw [edit_validate_first_error _ _ _ hpres hs]
    decide
  · intro c hT hc hspace
    simp only at hT hc
    subst hc
    have hpres : ¬ ((NewsEditForm.Normalize ⟨title, some c, cats⟩).Title = none ∧
        (NewsEditForm.Normalize ⟨title, some c, cats⟩).Content = none ∧
        (NewsEditForm.Normalize ⟨title, some c, cats⟩).Categories = none) := by
      simp [NewsEditForm.Normalize]
    have htitle : validateStringPtr "Title" [StrTag.omitempty, StrTag.min 1, StrTag.max 255]
        (NewsEditForm.Normalize ⟨title, some c, cats⟩).Title = [] := by
      rw [title_optional_nil_iff]
      intro s hs
      rcases hT with hT | ⟨t, hT, h1, h2⟩
      · subst hT
        simp [NewsEditForm.Normalize] at hs
      · subst hT
        simp only [NewsEditForm.Normalize, Option.some.injEq] at hs
        subst hs
        exact ⟨h1, h2⟩
    have hs : (NewsEditForm.Normalize ⟨title, some c, cats⟩).validateStruct
        = { Field := "Content", Tag := "min", Param := "1" } ::
          validateInt64SlicePtr "Categories" 0 cats := by
      unfold NewsEditForm.validateStruct
      rw [htitle]
      simp only [NewsEditForm.Normalize, TrimSpace_of_all_space c hspace, content_ptr_empty,
        List.nil_append, List.singleton_append]
    rw [edit_validate_first_error _ _ _ hpres hs]
    decide
  · intro t ht hlong
    simp only at ht
    subst ht
    have hpres : ¬ ((NewsEditForm.Normalize ⟨some t, content, cats⟩).Title = none ∧
        (NewsEditForm.Normalize ⟨some t, content, cats⟩).Content = none ∧
        (NewsEditForm.Normalize ⟨some t, content, cats⟩).Categories = none) := by
      simp [NewsEditForm.Normalize]
    have hs : (NewsEditForm.Normalize ⟨some t, content, cats⟩).validateStruct
        = { Field := "Title", Tag := "max", Param := "255" } ::
          (validateStringPtr "Content" [StrTag.omitempty, StrTag.min 1]
              (NewsEditForm.Normalize ⟨some t, content, cats⟩).Content
            ++ validateInt64SlicePtr "Categories" 0 cats) := by
      simp only [NewsEditForm.validateStruct, NewsEditForm.Normalize,
        title_ptr_too_long _ hlong, List.append_assoc, List.singleton_append,
        List.cons_append, List.nil_append]
    rw [edit_validate_first_error _ _ _ hpres hs]
    decide

set_option maxRecDepth 20000 in
/-- Witness of C14 on the forms of the handler tests: Title of five spaces,
Content of five spaces, and a Title of 256 letters. -/
theorem edit_validate_length_messages_witness :
    (NewsEditForm.Normalize ⟨some "     ", none, none⟩).Validate
        = some "Title: minimum length is 1" ∧
    (NewsEditForm.Normalize ⟨none, some "     ", none⟩).Validate
        = some "Content: minimum length is 1" ∧
    (NewsEditForm.Normalize ⟨some (String.mk (List.replicate 256 'a')), none, none⟩).Validate
        = some "Title: maximum length is 255" :=
  ⟨(edit_validate_length_messages ⟨some "     ", none, none⟩).1 "     " rfl (by decide),
   (edit_validate_length_messages ⟨none, some "     ", none⟩).2.1 "     " (Or.inl rfl) rfl
      (by decide),
   (edit_validate_length_messages ⟨some (String.mk (List.replicate 256 'a')), none, none⟩).2.2
      (String.mk (List.replicate 256 'a')) rfl (by decide)⟩

/-! ## The central error handler and the bearer-token check -/

theorem asAppError_wrapAll (ws : List String) (e : GoError) :
    asAppError (wrapAll ws e) = asAppError e := by
  induction ws with
  | nil => rfl
  | cons w ws ih => simpa [wrapAll, asAppError] using ih

theorem asFiberError_wrapAll (ws : List String) (e : GoError) :
    asFiberError (wrapAll ws e) = asFiberError e := by
  induction ws with
  | nil => rfl
  | cons w ws ih => simpa [wrapAll, asFiberError] using ih

theorem errorHandler_of_app (err : GoError) (m : String) (c : Int)
    (h : asAppError err = some (m, c)) :
    ErrorHandler err = { status := c, body := ErrorResponse false m } := by
  simp only [ErrorHandler, h]

/-- C19: the error handler classifies by error kind. An error that is an
`AppError`, or wraps one, is answered with the status code of that `AppError`
(400 for validation and bad request, 404 for not found, 500 for internal) and
its message; an error that holds neither an `AppError` nor a framework error
is answered with 500 and "Internal server error", whatever its own text; and
every answer is an `ErrorResponse` with Success false. -/
theorem errorHandler_classifies (ws : List String) :
    (∀ e m c, ErrorHandler (wrapAll ws (GoError.app e m c))
      = { status := c, body := ErrorResponse false m }) ∧
    (∀ m, ErrorHandler (wrapAll ws (NewValidation m))
        = { status := 400, body := ErrorResponse false m } ∧
      ErrorHandler (wrapAll ws (NewBadRequest m))
        = { status := 400, body := ErrorResponse false m } ∧
      ErrorHandler (wrapAll ws (NewNotFound m))
        = { status := 404, body := ErrorResponse false m } ∧
      ErrorHandler (wrapAll ws (NewInternal m))
        = { status := 500, body := ErrorResponse false m }) ∧
    (∀ cause, ErrorHandler (wrapAll ws (GoError.plain cause))
      = { status := 500, body := ErrorResponse false "Internal server error" }) ∧
    (∀ err, asAppError err = none → asFiberError err = none →
      ErrorHandler err = { status := 500, body := ErrorResponse false "Internal server error" }) ∧
    (∀ err, ∃ c m, ErrorHandler err = { status := c, body := ErrorResponse false m } ∧
      specIsErrorEnvelope (ErrorHandler err).body) := by
  have happ : ∀ e m c, ErrorHandler (wrapAll ws (GoError.app e m c))
      = { status := c, body := ErrorResponse false m } := by
    intro e m c
    exact errorHandler_of_app _ m c (by rw [asAppError_wrapAll]; rfl)
  refine ⟨happ, ?_, ?_, ?_, ?_⟩
  · intro m
    exact ⟨happ _ m 400, happ _ m 400, happ _ m 404, happ _ m 500⟩
  · intro cause
    have h1 : asAppError (wrapAll ws (GoError.plain cause)) = none := by
      rw [asAppError_wrapAll]; rfl
    have h2 : asFiberError (wrapAll ws (GoError.plain cause)) = none := by
      rw [asFiberError_wrapAll]; rfl
    simp only [ErrorHandler, h1, h2]
  · intro err h1 h2
    simp only [ErrorHandler, h1, h2]
  · intro err
    have henv : ∀ m, specIsErrorEnvelope (ErrorResponse false m) := fun m =>
      ⟨_, m, rfl, rfl, rfl⟩
    cases h1 : asAppError err with
    | some p =>
      obtain ⟨m, c⟩ := p
      refine ⟨c, m, ?_, ?_⟩
      · simp only [ErrorHandler, h1]
      · simp only [ErrorHandler, h1]
        exact henv m
    | none =>
      cases h2 : asFiberError err with
      | some p =>
        obtain ⟨c, m⟩ := p
        refine ⟨c, m, ?_, ?_⟩
        · simp only [ErrorHandler, h1, h2]
        · simp only [ErrorHandler, h1, h2]
          exact henv m
      | none =>
        refine ⟨500, "Internal server error", ?_, ?_⟩
        · simp only [ErrorHandler, h1, h2]
        · simp only [ErrorHandler, h1, h2]
          exact henv _

/-- Witness of C19: a database error wrapped by the repository is answered
with 500 and the generic message. -/
theorem errorHandler_classifies_witness :
    ErrorHandler (GoError.wrap "failed to update news: connection refused"
        (GoError.plain "connection refused"))
      = { status := 500, body := ErrorResponse false "Internal server error" } :=
  (errorHandler_classifies []).2.2.2.1
    (GoError.wrap "failed to update news: connection refused" (GoError.plain "connection refused"))
    rfl rfl

theorem fiberMapError_not_envelope (message : String) :
    ¬ specIsErrorEnvelope (fiberMapError message) := by
  rintro ⟨kv, m, hkv, hs, _⟩
  simp only [fiberMapError, JSONValue.object.injEq] at hkv
  subst hkv
  simp [mapIndex] at hs

/-- C20, evaluated on the code: whatever the token, the header and the rest of
the chain, the bearer-token check either runs the rest of the chain or answers
401 with the body `{"error": message}`, which has no field "Success" and no
field "Error" and so is not an error envelope; without an Authorization header
the body is `{"error": "Authorization header is required"}`. -/
theorem auth_rejection_body_not_envelope {σ : Type} (validToken authHeader : String)
    (next : σ → HandlerResult × σ) (st : σ) :
    (AuthMiddleware validToken authHeader next st = next st ∨
      ∃ message,
        AuthMiddleware validToken authHeader next st
          = (HandlerResult.responded { status := 401, body := fiberMapError message }, st) ∧
        ¬ specIsErrorEnvelope (fiberMapError message)) ∧
    AuthMiddleware validToken "" next st
      = (HandlerResult.responded
          { status := 401, body := fiberMapError "Authorization header is required" }, st) := by
  refine ⟨?_, by simp [AuthMiddleware]⟩
  unfold AuthMiddleware
  by_cases h1 : authHeader = ""
  · exact Or.inr ⟨_, by rw [if_pos h1], fiberMapError_not_envelope _⟩
  · rw [if_neg h1]
    simp only
    by_cases h2 : (splitAtFirstSpace authHeader).length ≠ 2 ∨
        (splitAtFirstSpace authHeader).head? ≠ some "Bearer"
    · exact Or.inr ⟨_, by rw [if_pos h2], fiberMapError_not_envelope _⟩
    · rw [if_neg h2]
      by_cases h3 : (splitAtFirstSpace authHeader).getD 1 "" ≠ validToken
      · exact Or.inr ⟨_, by rw [if_pos h3], fiberMapError_not_envelope _⟩
      · exact Or.inl (by rw [if_neg h3])

/-! ## The handlers -/

theorem create_handler_pre_error {σ : Type} (fmtV : Float64 → String) (service : INewsService σ)
    (body : Option JSONDoc) (st : σ) (e : ValidationError)
    (h : ValidateCreateNewsRequest fmtV (bodyOf body) = some e) :
    NewsHandler.CreateNews fmtV service body st
      = (HandlerResult.failed (NewValidation e.Error), st) := by
  simp only [NewsHandler.CreateNews, h]

theorem create_handler_parse_error {σ : Type} (fmtV : Float64 → String)
    (service : INewsService σ) (body : Option JSONDoc) (st : σ)
    (h : ValidateCreateNewsRequest fmtV (bodyOf body) = none)
    (hp : body.bind bodyParserCreateForm = none) :
    NewsHandler.CreateNews fmtV service body st
      = (HandlerResult.failed (NewBadRequest "Failed to parse request body"), st) := by
  simp only [NewsHandler.CreateNews, h, hp]

theorem create_handler_invalid {σ : Type} (fmtV : Float64 → String) (service : INewsService σ)
    (body : Option JSONDoc) (st : σ) (F : NewsCreateForm) (msg : String)
    (h : ValidateCreateNewsRequest fmtV (bodyOf body) = none)
    (hp : body.bind bodyParserCreateForm = some F) (hv : F.Normalize.Validate = some msg) :
    NewsHandler.CreateNews fmtV service body st
      = (HandlerResult.failed (NewValidation msg), st) := by
  simp only [NewsHandler.CreateNews, h, hp, hv]

theorem create_handler_valid {σ : Type} (fmtV : Float64 → String) (service : INewsService σ)
    (body : Option JSONDoc) (st : σ) (F : NewsCreateForm)
    (h : ValidateCreateNewsRequest fmtV (bodyOf body) = none)
    (hp : body.bind bodyParserCreateForm = some F) (hv : F.Normalize.Validate = none) :
    NewsHandler.CreateNews fmtV service body st
      = match service.CreateNews F.Normalize st with
        | ((_, some err), st') => (HandlerResult.failed err, st')
        | ((id, none), st') =>
            (HandlerResult.responded
              { status := 201,
                body := JSONValue.object
                  [("Success", JSONValue.bool true),
                   ("Id", JSONValue.number (Float64.finite id))] }, st') := by
  simp only [NewsHandler.CreateNews, h, hp, hv]

theorem edit_handler_bad_id {σ : Type} (fmtV : Float64 → String) (service : INewsService σ)
    (idParam : String) (body : Option JSONDoc) (st : σ) (hid : parseUint idParam = none) :
    NewsHandler.EditNews fmtV service idParam body st
      = (HandlerResult.failed (NewBadRequest "Invalid ID format"), st) := by
  simp only [NewsHandler.EditNews, hid]

theorem edit_handler_pre_error {σ : Type} (fmtV : Float64 → String) (service : INewsService σ)
    (idParam : String) (body : Option JSONDoc) (st : σ) (id : Nat) (e : ValidationError)
    (hid : parseUint idParam = some id)
    (h : ValidateEditNewsRequest fmtV (bodyOf body) = some e) :
    NewsHandler.EditNews fmtV service idParam body st
      = (HandlerResult.failed (NewValidation e.Error), st) := by
  simp only [NewsHandler.EditNews, hid, h]

theorem edit_handler_parse_error {σ : Type} (fmtV : Float64 → String) (service : INewsService σ)
    (idParam : String) (body : Option JSONDoc) (st : σ) (id : Nat)
    (hid : parseUint idParam = some id)
    (h : ValidateEditNewsRequest fmtV (bodyOf body) = none)
    (hp : body.bind bodyParserEditForm = none) :
    NewsHandler.EditNews fmtV service idParam body st
      = (HandlerResult.failed (NewBadRequest "Failed to parse request body"), st) := by
  simp only [NewsHandler.EditNews, hid, h, hp]

theorem edit_handler_invalid {σ : Type} (fmtV : Float64 → String) (service : INewsService σ)
    (idParam : String) (body : Option JSONDoc) (st : σ) (id : Nat) (F : NewsEditForm)
    (msg : String) (hid : parseUint idParam = some id)
    (h : ValidateEditNewsRequest fmtV (bodyOf body) = none)
    (hp : body.bind bodyParserEditForm = some F) (hv : F.Normalize.Validate = some msg) :
    NewsHandler.EditNews fmtV service idParam body st
      = (HandlerResult.failed (NewValidation msg), st) := by
  simp only [NewsHandler.EditNews, hid, h, hp, hv]

theorem edit_handler_valid {σ : Type} (fmtV : Float64 → String) (service : INewsService σ)
    (idParam : String) (body : Option JSONDoc) (st : σ) (id : Nat) (F : NewsEditForm)
    (hid : parseUint idParam = some id)
    (h : ValidateEditNewsRequest fmtV (bodyOf body) = none)
    (hp : body.bind bodyParserEditForm = some F) (hv : F.Normalize.Validate = none) :
    NewsHandler.EditNews fmtV service idParam body st
      = match service.EditNews (int64OfUint64 id) F.Normalize st with
        | (some err, st') => (HandlerResult.failed err, st')
        | (none, st') =>
            (HandlerResult.responded
              { status := 200,
                body := JSONValue.object [("Success", JSONValue.bool true)] }, st') := by
  simp only [NewsHandler.EditNews, hid, h, hp, hv]

/-- C18: in the handlers `CreateNews` and `EditNews`, an error of the raw
pre-validation or of `Validate` on the normalized form makes the handler
return the 400 validation error that carries the message of that error, with
the state behind the service untouched; and a recording service receives no
call at all, or exactly one call whose form passed both validations. -/
theorem handlers_validation_gate {σ : Type} (fmtV : Float64 → String)
    (service : INewsService σ) (idParam : String) (body : Option JSONDoc) (st : σ) :
    (∀ e, ValidateCreateNewsRequest fmtV (bodyOf body) = some e →
      NewsHandler.CreateNews fmtV service body st
        = (HandlerResult.failed (NewValidation e.Error), st)) ∧
    (∀ F msg, ValidateCreateNewsRequest fmtV (bodyOf body) = none →
      body.bind bodyParserCreateForm = some F → F.Normalize.Validate = some msg →
      NewsHandler.CreateNews fmtV service body st
        = (HandlerResult.failed (NewValidation msg), st)) ∧
    (∀ id e, parseUint idParam = some id →
      ValidateEditNewsRequest fmtV (bodyOf body) = some e →
      NewsHandler.EditNews fmtV service idParam body st
        = (HandlerResult.failed (NewValidation e.Error), st)) ∧
    (∀ id F msg, parseUint idParam = some id →
      ValidateEditNewsRequest fmtV (bodyOf body) = none →
      body.bind bodyParserEditForm = some F → F.Normalize.Validate = some msg →
      NewsHandler.EditNews fmtV service idParam body st
        = (HandlerResult.failed (NewValidation msg), st)) ∧
    (∀ msg, ErrorHandler (NewValidation msg)
      = { status := 400, body := ErrorResponse false msg }) ∧
    (∀ cr er lr,
      (NewsHandler.CreateNews fmtV (recordingService cr er lr) body []).2 = [] ∨
      ∃ F, ValidateCreateNewsRequest fmtV (bodyOf body) = none ∧
        body.bind bodyParserCreateForm = some F ∧ F.Normalize.Validate = none ∧
        (NewsHandler.CreateNews fmtV (recordingService cr er lr) body []).2
          = [ServiceCall.create F.Normalize]) ∧
    (∀ cr er lr,
      (NewsHandler.EditNews fmtV (recordingService cr er lr) idParam body []).2 = [] ∨
      ∃ id F, parseUint idParam = some id ∧
        ValidateEditNewsRequest fmtV (bodyOf body) = none ∧
        body.bind bodyParserEditForm = some F ∧ F.Normalize.Validate = none ∧
        (NewsHandler.EditNews fmtV (recordingService cr er lr) idParam body []).2
          = [ServiceCall.edit (int64OfUint64 id) F.Normalize]) := by
  refine ⟨?_, ?_, ?_, ?_, ?_, ?_, ?_⟩
  · intro e h
    exact create_handler_pre_error fmtV service body st e h
  · intro F msg h hp hv
    exact create_handler_invalid fmtV service body st F msg h hp hv
  · intro id e hid h
    exact edit_handler_pre_error fmtV service idParam body st id e hid h
  · intro id F msg hid h hp hv
    exact edit_handler_invalid fmtV service idParam body st id F msg hid h hp hv
  · intro msg
    rfl
  · intro cr er lr
    cases h : ValidateCreateNewsRequest fmtV (bodyOf body) with
    | some e => exact Or.inl (by rw [create_handler_pre_error _ _ _ _ e h])
    | none =>
      cases hp : body.bind bodyParserCreateForm with
      | none => exact Or.inl (by rw [create_handler_parse_error _ _ _ _ h hp])
      | some F =>
        cases hv : F.Normalize.Validate with
        | some msg => exact Or.inl (by rw [create_handler_invalid _ _ _ _ F msg h hp hv])
        | none =>
          refine Or.inr ⟨F, rfl, rfl, hv, ?_⟩
          rw [create_handler_valid _ _ _ _ F h hp hv]
          obtain ⟨id, err⟩ := cr
          cases err <;> rfl
  · intro cr er lr
    cases hid : parseUint idParam with
    | none => exact Or.inl (by rw [edit_handler_bad_id _ _ _ _ _ hid])
    | some id =>
      cases h : ValidateEditNewsRequest fmtV (bodyOf body) with
      | some e => exact Or.inl (by rw [edit_handler_pre_error _ _ _ _ _ id e hid h])
      | none =>
        cases hp : body.bind bodyParserEditForm with
        | none => exact Or.inl (by rw [edit_handler_parse_error _ _ _ _ _ id hid h hp])
        | some F =>
          cases hv : F.Normalize.Validate with
          | some msg =>
            exact Or.inl (by rw [edit_handler_invalid _ _ _ _ _ id F msg hid h hp hv])
          | none =>
            refine Or.inr ⟨id, F, rfl, rfl, rfl, hv, ?_⟩
            rw [edit_handler_valid _ _ _ _ _ id F hid h hp hv]
            cases er <;> rfl

/-- Witness of C18: on the empty object the create handler returns the
validation error of the raw pre-validation and the recording service has
received no call. -/
theorem handlers_validation_gate_witness :
    NewsHandler.CreateNews fmtSmallIntegral (recordingService (1, none) none ([], none))
        (some (JSONDoc.object [])) []
      = (HandlerResult.failed
          (NewValidation "body: must contain required fields (Title, Content)"), []) :=
  (handlers_validation_gate fmtSmallIntegral (recordingService (1, none) none ([], none)) "10"
    (some (JSONDoc.object [])) []).1
    ⟨"body", "must contain required fields (Title, Content)"⟩ rfl

theorem genericMembers_keys (kv : List (String × JSONDoc)) :
    (genericMembers kv).map Prod.fst = kv.map Prod.fst := by
  induction kv with
  | nil => rfl
  | cons p rest ih =>
    obtain ⟨k, v⟩ := p
    simp [genericMembers, ih]

theorem mapLen_genericMembers (kv : List (String × JSONDoc)) :
    mapLen (genericMembers kv) = mapLen kv := by
  simp only [mapLen, genericMembers_keys]

theorem mapIndex_genericMembers (kv : List (String × JSONDoc)) (k : String) :
    mapIndex (genericMembers kv) k = (mapIndex kv k).map JSONDoc.generic := by
  induction kv with
  | nil => rfl
  | cons p rest ih =>
    obtain ⟨k', v⟩ := p
    simp only [genericMembers, mapIndex, ih]
    cases mapIndex rest k with
    | some w => rfl
    | none =>
      by_cases h : k' = k
      · simp [h]
      · simp [h]

theorem mapIndex_mem {α : Type} (m : List (String × α)) (k : String) (v : α)
    (h : mapIndex m k = some v) : (k, v) ∈ m := by
  induction m with
  | nil => simp [mapIndex] at h
  | cons p rest ih =>
    obtain ⟨k', w⟩ := p
    simp only [mapIndex] at h
    cases hr : mapIndex rest k with
    | some u =>
      rw [hr] at h
      simp only [Option.some.injEq] at h
      subst h
      exact List.mem_cons_of_mem _ (ih hr)
    | none =>
      rw [hr] at h
      by_cases hk : k' = k
      · simp only [hk, if_true, Option.some.injEq] at h
        subst h
        subst hk
        exact List.mem_cons_self _ _
      · simp [hk] at h

theorem bodyOf_object (kv : List (String × JSONDoc)) :
    bodyOf (some (JSONDoc.object kv)) = some (JSONValue.object (genericMembers kv)) := by
  simp [bodyOf, JSONDoc.generic]

theorem generic_eq_null_iff (v : JSONDoc) : v.generic = JSONValue.null ↔ v = JSONDoc.null := by
  cases v <;> simp [JSONDoc.generic]

theorem edit_request_absent_or_null (fmtV : Float64 → String) (kv : List (String × JSONValue))
    (hlen : 1 ≤ mapLen kv)
    (hT : mapIndex kv "Title" = none ∨ mapIndex kv "Title" = some JSONValue.null)
    (hC : mapIndex kv "Content" = none ∨ mapIndex kv "Content" = some JSONValue.null)
    (hK : mapIndex kv "Categories" = none ∨ mapIndex kv "Categories" = some JSONValue.null) :
    ValidateEditNewsRequest fmtV (some (JSONValue.object kv)) = none := by
  have hlen' : mapLen kv ≠ 0 := by omega
  rcases hT with hT | hT <;> rcases hC with hC | hC <;> rcases hK with hK | hK <;>
    simp [ValidateEditNewsRequest, unmarshalRaw, hlen', hT, hC, hK, isNil]

theorem decodeEditMembers_all_null (kv : List (String × JSONDoc))
    (hnull : ∀ k v, (k, v) ∈ kv →
      (equalFold k "Title" = true ∨ equalFold k "Content" = true ∨
        equalFold k "Categories" = true) → v = JSONDoc.null) :
    decodeEditMembers kv ({ Title := none, Content := none, Categories := none }, [])
      = some ({ Title := none, Content := none, Categories := none }, []) := by
  induction kv with
  | nil => rfl
  | cons p rest ih =>
    obtain ⟨k, v⟩ := p
    have ih' := ih (fun k' v' hmem hk => hnull k' v' (List.mem_cons_of_mem _ hmem) hk)
    have hv := hnull k v (List.mem_cons_self _ _)
    by_cases h1 : equalFold k "Title" = true
    · have := hv (Or.inl h1)
      subst this
      simp only [decodeEditMembers, h1, if_true]
      exact ih'
    · by_cases h2 : equalFold k "Content" = true
      · have := hv (Or.inr (Or.inl h2))
        subst this
        simp only [decodeEditMembers, h1, h2, if_true, if_false]
        exact ih'
      · by_cases h3 : equalFold k "Categories" = true
        · have := hv (Or.inr (Or.inr h3))
          subst this
          simp only [decodeEditMembers, h1, h2, h3, if_true, if_false, decodeInt64SlicePtr]
          exact ih'
        · simp only [decodeEditMembers, h1, h2, h3, if_false]
          exact ih'

/-- C15, refuted as stated: for the id `10` and the body `{}` the edit handler
returns the validation error of the raw pre-validation, whose message starts
with the field name and a colon, "body: must contain at least one field to
update (Title, Content, or Categories)"; the answer carries this message with
status 400, and it is not the message of the claim. -/
theorem edit_empty_object_message_differs :
    NewsHandler.EditNews fmtSmallIntegral (recordingService (1, none) none ([], none)) "10"
        (some (JSONDoc.object [])) []
      = (HandlerResult.failed
          (NewValidation
            "body: must contain at least one field to update (Title, Content, or Categories)"),
         []) ∧
    ErrorHandler
        (NewValidation
          "body: must contain at least one field to update (Title, Content, or Categories)")
      = { status := 400,
          body := ErrorResponse false
            "body: must contain at least one field to update (Title, Content, or Categories)" } ∧
    "body: must contain at least one field to update (Title, Content, or Categories)"
      ≠ "body must contain at least one field to update (Title, Content, or Categories)" := by
  refine ⟨?_, rfl, by decide⟩
  exact edit_handler_pre_error fmtSmallIntegral _ "10" (some (JSONDoc.object [])) [] 10
    ⟨"body", "must contain at least one field to update (Title, Content, or Categories)"⟩
    (by decide) rfl

/-- C15, amended: a POST /edit/{id} request with a valid id and the empty JSON
object as body is answered with status 400 and the error message "body: must
contain at least one field to update (Title, Content, or Categories)", and the
service is not called. -/
theorem edit_empty_object_rejected {σ : Type} (fmtV : Float64 → String)
    (service : INewsService σ) (idParam : String) (st : σ) (id : Nat)
    (hid : parseUint idParam = some id) :
    NewsHandler.EditNews fmtV service idParam (some (JSONDoc.object [])) st
      = (HandlerResult.failed
          (NewValidation
            "body: must contain at least one field to update (Title, Content, or Categories)"),
         st) ∧
    (NewsHandler.EditNews fmtV service idParam (some (JSONDoc.object [])) st).1.toResponse
      = { status := 400,
          body := ErrorResponse false
            "body: must contain at least one field to update (Title, Content, or Categories)" } ∧
    (∀ cr er lr,
      (NewsHandler.EditNews fmtV (recordingService cr er lr) idParam
        (some (JSONDoc.object [])) []).2 = []) := by
  have hrun : ∀ {τ : Type} (svc : INewsService τ) (s : τ),
      NewsHandler.EditNews fmtV svc idParam (some (JSONDoc.object [])) s
        = (HandlerResult.failed
            (NewValidation
              "body: must contain at least one field to update (Title, Content, or Categories)"),
           s) := fun svc s =>
    edit_handler_pre_error fmtV svc idParam (some (JSONDoc.object [])) s id
      ⟨"body", "must contain at least one field to update (Title, Content, or Categories)"⟩
      hid rfl
  refine ⟨hrun service st, ?_, ?_⟩
  · rw [hrun service st]
    rfl
  · intro cr er lr
    rw [hrun]

/-- Witness of the amended C15 for the id `10`. -/
theorem edit_empty_object_rejected_witness :
    NewsHandler.EditNews fmtSmallIntegral (recordingService (1, none) none ([], none)) "10"
        (some (JSONDoc.object [])) []
      = (HandlerResult.failed
          (NewValidation
            "body: must contain at least one field to update (Title, Content, or Categories)"),
         []) :=
  (edit_empty_object_rejected fmtSmallIntegral (recordingService (1, none) none ([], none)) "10"
    [] 10 (by decide)).1

/-- C16, refuted as stated: the body `{"title": "abc"}` is a non-empty object
without the keys Title, Content and Categories, and the raw pre-validation
passes; but `BodyParser` matches keys to fields without regard to letter case,
so the form has the Title "abc", `Validate` accepts it, and the handler calls
the service and answers 200. -/
theorem edit_lowercase_key_reaches_service :
    mapIndex [("title", JSONDoc.string "abc")] "Title" = none ∧
    mapIndex [("title", JSONDoc.string "abc")] "Content" = none ∧
    mapIndex [("title", JSONDoc.string "abc")] "Categories" = none ∧
    ValidateEditNewsRequest fmtSmallIntegral
        (bodyOf (some (JSONDoc.object [("title", JSONDoc.string "abc")]))) = none ∧
    NewsHandler.EditNews fmtSmallIntegral (recordingService (1, none) none ([], none)) "10"
        (some (JSONDoc.object [("title", JSONDoc.string "abc")])) []
      = (HandlerResult.responded
          { status := 200, body := JSONValue.object [("Success", JSONValue.bool true)] },
         [ServiceCall.edit 10 { Title := some "abc", Content := none, Categories := none }]) := by
  have hpre : ValidateEditNewsRequest fmtSmallIntegral
      (bodyOf (some (JSONDoc.object [("title", JSONDoc.string "abc")]))) = none := by decide
  refine ⟨rfl, rfl, rfl, hpre, ?_⟩
  rw [edit_handler_valid fmtSmallIntegral _ "10" _ [] 10
    { Title := some "abc", Content := none, Categories := none } (by decide) hpre
    (by decide) (by decide)]
  have hn : NewsEditForm.Normalize { Title := some "abc", Content := none, Categories := none }
      = { Title := some "abc", Content := none, Categories := none } := by decide
  rw [hn]
  rfl

/-- C16, amended: for every edit request with a valid id whose body is a
non-empty JSON object in which every member whose key spells Title, Content or
Categories, in whatever letter case, is null, the raw pre-validation passes
and the handler fails with the 400 validation error "body must contain at
least one field to update (Title, Content, or Categories)", and the service is
not called. -/
theorem edit_handler_no_fields {σ : Type} (fmtV : Float64 → String)
    (service : INewsService σ) (idParam : String) (kv : List (String × JSONDoc)) (st : σ)
    (id : Nat) (hid : parseUint idParam = some id) (hlen : 1 ≤ mapLen kv)
    (hnull : ∀ k v, (k, v) ∈ kv →
      (equalFold k "Title" = true ∨ equalFold k "Content" = true ∨
        equalFold k "Categories" = true) → v = JSONDoc.null) :
    ValidateEditNewsRequest fmtV (bodyOf (some (JSONDoc.object kv))) = none ∧
    NewsHandler.EditNews fmtV service idParam (some (JSONDoc.object kv)) st
      = (HandlerResult.failed
          (NewValidation
            "body must contain at least one field to update (Title, Content, or Categories)"),
         st) ∧
    (NewsHandler.EditNews fmtV service idParam (some (JSONDoc.object kv)) st).1.toResponse
      = { status := 400,
          body := ErrorResponse false
            "body must contain at least one field to update (Title, Content, or Categories)" } ∧
    (∀ cr er lr,
      (NewsHandler.EditNews fmtV (recordingService cr er lr) idParam
        (some (JSONDoc.object kv)) []).2 = []) := by
  have hidx : ∀ name, equalFold name name = true →
      (name = "Title" ∨ name = "Content" ∨ name = "Categories") →
      mapIndex (genericMembers kv) name = none ∨
        mapIndex (genericMembers kv) name = some JSONValue.null := by
    intro name hfold hname
    rw [mapIndex_genericMembers]
    cases h : mapIndex kv name with
    | none => exact Or.inl rfl
    | some v =>
      have hmem := mapIndex_mem kv name v h
      have hv : v = JSONDoc.null := by
        apply hnull name v hmem
        rcases hname with rfl | rfl | rfl
        · exact Or.inl hfold
        · exact Or.inr (Or.inl hfold)
        · exact Or.inr (Or.inr hfold)
      subst hv
      exact Or.inr rfl
  have hpre : ValidateEditNewsRequest fmtV (bodyOf (some (JSONDoc.object kv))) = none := by
    rw [bodyOf_object]
    exact edit_request_absent_or_null fmtV _ (by rw [mapLen_genericMembers]; exact hlen)
      (hidx "Title" (by decide) (Or.inl rfl))
      (hidx "Content" (by decide) (Or.inr (Or.inl rfl)))
      (hidx "Categories" (by decide) (Or.inr (Or.inr rfl)))
  have hparse : (some (JSONDoc.object kv)).bind bodyParserEditForm
      = some { Title := none, Content := none, Categories := none } := by
    simp only [Option.some_bind, bodyParserEditForm, decodeEditMembers_all_null kv hnull,
      Option.map_some']
  have hrun : ∀ {τ : Type} (svc : INewsService τ) (s : τ),
      NewsHandler.EditNews fmtV svc idParam (some (JSONDoc.object kv)) s
        = (HandlerResult.failed
            (NewValidation
              "body must contain at least one field to update (Title, Content, or Categories)"),
           s) := fun svc s =>
    edit_handler_invalid fmtV svc idParam _ s id _ _ hid hpre hparse rfl
  refine ⟨hpre, hrun service st, ?_, ?_⟩
  · rw [hrun service st]
    rfl
  · intro cr er lr
    rw [hrun]

/-- Witness of the amended C16 on the all-null body the handler test sends,
`{"Title": null, "Content": null, "Categories": null}`. -/
theorem edit_handler_no_fields_witness :
    NewsHandler.EditNews fmtSmallIntegral (recordingService (1, none) none ([], none)) "10"
        (some (JSONDoc.object [("Title", JSONDoc.null), ("Content", JSONDoc.null),
          ("Categories", JSONDoc.null)])) []
      = (HandlerResult.failed
          (NewValidation
            "body must contain at least one field to update (Title, Content, or Categories)"),
         []) :=
  (edit_handler_no_fields fmtSmallIntegral (recordingService (1, none) none ([], none)) "10"
    [("Title", JSONDoc.null), ("Content", JSONDoc.null), ("Categories", JSONDoc.null)] [] 10
    (by decide) (by decide)
    (fun k v hmem _ => by
      simp only [List.mem_cons, Prod.mk.injEq, List.mem_singleton, List.not_mem_nil,
        or_false] at hmem
      rcases hmem with ⟨_, rfl⟩ | ⟨_, rfl⟩ | ⟨_, rfl⟩ <;> rfl)).2.1

theorem create_validate_first_error (n : NewsCreateForm) (e : FieldError) (es : List FieldError)
    (h : n.validateStruct = e :: es) : n.Validate = some (formatValidationError [e]) := by
  unfold NewsCreateForm.Validate
  rw [h]
  rfl

theorem create_validate_title_required (F : NewsCreateForm) (h : TrimSpace F.Title = "") :
    F.Normalize.Validate = some "Title: field is required" := by
  have hs : F.Normalize.validateStruct
      = { Field := "Title", Tag := "required", Param := "" } ::
        (validateString "Content" [StrTag.required, StrTag.min 1] (TrimSpace F.Content)
          ++ validateInt64SlicePtr "Categories" 0 F.Categories) := by
    simp only [NewsCreateForm.validateStruct, NewsCreateForm.Normalize, h]
    rfl
  rw [create_validate_first_error _ _ _ hs]
  decide

theorem create_validate_content_required (F : NewsCreateForm)
    (h1 : 1 ≤ (TrimSpace F.Title).length) (h2 : (TrimSpace F.Title).length ≤ 255)
    (h : TrimSpace F.Content = "") :
    F.Normalize.Validate = some "Content: field is required" := by
  have ht : validateString "Title" [StrTag.required, StrTag.min 1, StrTag.max 255]
      (TrimSpace F.Title) = [] := by
    rw [title_required_nil_iff]
    exact ⟨by omega, h2⟩
  have hs : F.Normalize.validateStruct
      = { Field := "Content", Tag := "required", Param := "" } ::
        validateInt64SlicePtr "Categories" 0 F.Categories := by
    simp only [NewsCreateForm.validateStruct, NewsCreateForm.Normalize, h, ht]
    rfl
  rw [create_validate_first_error _ _ _ hs]
  decide

theorem decodeCreateMembers_title (P : String → Prop) (kv : List (String × JSONDoc)) :
    ∀ (form : NewsCreateForm) (stale : List Int) (F : NewsCreateForm) (stale' : List Int),
      P form.Title →
      (∀ k v, (k, v) ∈ kv → equalFold k "Title" = true → ∀ s, v = JSONDoc.string s → P s) →
      decodeCreateMembers kv (form, stale) = some (F, stale') → P F.Title := by
  induction kv with
  | nil =>
    intro form stale F stale' hP _ h
    simp only [decodeCreateMembers, Option.some.injEq, Prod.mk.injEq] at h
    rw [← h.1]
    exact hP
  | cons p rest ih =>
    obtain ⟨k, v⟩ := p
    intro form stale F stale' hP hall h
    have hall' : ∀ k' v', (k', v') ∈ rest → equalFold k' "Title" = true →
        ∀ s, v' = JSONDoc.string s → P s :=
      fun k' v' hmem => hall k' v' (List.mem_cons_of_mem _ hmem)
    by_cases h1 : equalFold k "Title" = true
    · cases v with
      | string s =>
        simp only [decodeCreateMembers, h1, if_true] at h
        exact ih _ _ _ _ (by exact hall k _ (List.mem_cons_self _ _) h1 s rfl) hall' h
      | null =>
        simp only [decodeCreateMembers, h1, if_true] at h
        exact ih _ _ _ _ (by exact hP) hall' h
      | bool b => simp [decodeCreateMembers, h1] at h
      | number t => simp [decodeCreateMembers, h1] at h
      | array xs => simp [decodeCreateMembers, h1] at h
      | object m => simp [decodeCreateMembers, h1] at h
    · by_cases h2 : equalFold k "Content" = true
      · cases v with
        | string s =>
          simp only [decodeCreateMembers, h1, h2, if_true, if_false, Bool.false_eq_true] at h
          exact ih _ _ _ _ (by exact hP) hall' h
        | null =>
          simp only [decodeCreateMembers, h1, h2, if_true, if_false, Bool.false_eq_true] at h
          exact ih _ _ _ _ (by exact hP) hall' h
        | bool b => simp [decodeCreateMembers, h1, h2] at h
        | number t => simp [decodeCreateMembers, h1, h2] at h
        | array xs => simp [decodeCreateMembers, h1, h2] at h
        | object m => simp [decodeCreateMembers, h1, h2] at h
      · by_cases h3 : equalFold k "Categories" = true
        · simp only [decodeCreateMembers, h1, h2, h3, if_true, if_false, Bool.false_eq_true] at h
          cases hd : decodeInt64SlicePtr v form.Categories stale with
          | none => simp [hd] at h
          | some r =>
            obtain ⟨cats, st2⟩ := r
            simp only [hd] at h
            exact ih _ _ _ _ (by exact hP) hall' h
        · simp only [decodeCreateMembers, h1, h2, h3, if_false, Bool.false_eq_true] at h
          exact ih _ _ _ _ (by exact hP) hall' h

theorem decodeCreateMembers_content (P : String → Prop) (kv : List (String × JSONDoc)) :
    ∀ (form : NewsCreateForm) (stale : List Int) (F : NewsCreateForm) (stale' : List Int),
      P form.Content →
      (∀ k v, (k, v) ∈ kv → equalFold k "Content" = true → ∀ s, v = JSONDoc.string s → P s) →
      decodeCreateMembers kv (form, stale) = some (F, stale') → P F.Content := by
  induction kv with
  | nil =>
    intro form stale F stale' hP _ h
    simp only [decodeCreateMembers, Option.some.injEq, Prod.mk.injEq] at h
    rw [← h.1]
    exact hP
  | cons p rest ih =>
    obtain ⟨k, v⟩ := p
    intro form stale F stale' hP hall h
    have hall' : ∀ k' v', (k', v') ∈ rest → equalFold k' "Content" = true →
        ∀ s, v' = JSONDoc.string s → P s :=
      fun k' v' hmem => hall k' v' (List.mem_cons_of_mem _ hmem)
    by_cases h1 : equalFold k "Title" = true
    · cases v with
      | string s =>
        simp only [decodeCreateMembers, h1, if_true] at h
        exact ih _ _ _ _ (by exact hP) hall' h
      | null =>
        simp only [decodeCreateMembers, h1, if_true] at h
        exact ih _ _ _ _ (by exact hP) hall' h
      | bool b => simp [decodeCreateMembers, h1] at h
      | number t => simp [decodeCreateMembers, h1] at h
      | array xs => simp [decodeCreateMembers, h1] at h
      | object m => simp [decodeCreateMembers, h1] at h
    · by_cases h2 : equalFold k "Content" = true
      · cases v with
        | string s =>
          simp only [decodeCreateMembers, h1, h2, if_true, if_false, Bool.false_eq_true] at h
          exact ih _ _ _ _ (by exact hall k _ (List.mem_cons_self _ _) h2 s rfl) hall' h
        | null =>
          simp only [decodeCreateMembers, h1, h2, if_true, if_false, Bool.false_eq_true] at h
          exact ih _ _ _ _ (by exact hP) hall' h
        | bool b => simp [decodeCreateMembers, h1, h2] at h
        | number t => simp [decodeCreateMembers, h1, h2] at h
        | array xs => simp [decodeCreateMembers, h1, h2] at h
        | object m => simp [decodeCreateMembers, h1, h2] at h
      · by_cases h3 : equalFold k "Categories" = true
        · simp only [decodeCreateMembers, h1, h2, h3, if_true, if_false, Bool.false_eq_true] at h
          cases hd : decodeInt64SlicePtr v form.Categories stale with
          | none => simp [hd] at h
          | some r =>
            obtain ⟨cats, st2⟩ := r
            simp only [hd] at h
            exact ih _ _ _ _ (by exact hP) hall' h
        · simp only [decodeCreateMembers, h1, h2, h3, if_false, Bool.false_eq_true] at h
          exact ih _ _ _ _ (by exact hP) hall' h

theorem bodyParserCreateForm_title (P : String → Prop) (kv : List (String × JSONDoc))
    (F : NewsCreateForm) (hP : P "")
    (hall : ∀ k v, (k, v) ∈ kv → equalFold k "Title" = true → ∀ s, v = JSONDoc.string s → P s)
    (h : bodyParserCreateForm (JSONDoc.object kv) = some F) : P F.Title := by
  simp only [bodyParserCreateForm] at h
  cases hd : decodeCreateMembers kv ({ Title := "", Content := "", Categories := none }, []) with
  | none => simp [hd] at h
  | some r =>
    obtain ⟨F', st'⟩ := r
    simp only [hd, Option.map_some', Option.some.injEq] at h
    subst h
    exact decodeCreateMembers_title P kv _ _ _ _ hP hall hd

theorem bodyParserCreateForm_content (P : String → Prop) (kv : List (String × JSONDoc))
    (F : NewsCreateForm) (hP : P "")
    (hall : ∀ k v, (k, v) ∈ kv → equalFold k "Content" = true → ∀ s, v = JSONDoc.string s → P s)
    (h : bodyParserCreateForm (JSONDoc.object kv) = some F) : P F.Content := by
  simp only [bodyParserCreateForm] at h
  cases hd : decodeCreateMembers kv ({ Title := "", Content := "", Categories := none }, []) with
  | none => simp [hd] at h
  | some r =>
    obtain ⟨F', st'⟩ := r
    simp only [hd, Option.map_some', Option.some.injEq] at h
    subst h
    exact decodeCreateMembers_content P kv _ _ _ _ hP hall hd

/-- C13, refuted as stated: the body `{"Title": "", "Content": "x",
"Categories": [1.0]}` passes the raw pre-validation, the number `1.0` being the
float 1, and its Title is the empty string; but `1.0` is not an integer
literal, so `BodyParser` fails, and the handler returns the 400 bad-request
error "Failed to parse request body", not "Title: field is required". -/
theorem create_unparsable_category_message :
    mapIndex [("Title", JSONDoc.string ""), ("Content", JSONDoc.string "x"),
        ("Categories", JSONDoc.array [JSONDoc.number ⟨Float64.finite 1, none⟩])] "Title"
      = some (JSONDoc.string "") ∧
    ValidateCreateNewsRequest fmtSmallIntegral
        (bodyOf (some (JSONDoc.object [("Title", JSONDoc.string ""),
          ("Content", JSONDoc.string "x"),
          ("Categories", JSONDoc.array [JSONDoc.number ⟨Float64.finite 1, none⟩])]))) = none ∧
    NewsHandler.CreateNews fmtSmallIntegral (recordingService (1, none) none ([], none))
        (some (JSONDoc.object [("Title", JSONDoc.string ""), ("Content", JSONDoc.string "x"),
          ("Categories", JSONDoc.array [JSONDoc.number ⟨Float64.finite 1, none⟩])])) []
      = (HandlerResult.failed (NewBadRequest "Failed to parse request body"), []) ∧
    NewBadRequest "Failed to parse request body" ≠ NewValidation "Title: field is required" := by
  have hpre : ValidateCreateNewsRequest fmtSmallIntegral
      (bodyOf (some (JSONDoc.object [("Title", JSONDoc.string ""),
        ("Content", JSONDoc.string "x"),
        ("Categories", JSONDoc.array [JSONDoc.number ⟨Float64.finite 1, none⟩])]))) = none := by
    rw [bodyOf_object, create_object_none_iff]
    refine ⟨by decide, ?_, ?_, ?_⟩
    · intro v hv
      simp [genericMembers, JSONDoc.generic, mapIndex] at hv
      exact ⟨"", hv.symm⟩
    · intro v hv
      simp [genericMembers, JSONDoc.generic, mapIndex] at hv
      exact ⟨"x", hv.symm⟩
    · intro v hv
      simp [genericMembers, JSONDoc.generic, genericList, mapIndex] at hv
      subst hv
      right
      simp [specCategoriesRule, specPositiveIntegerElement, Float64.toRat]
  refine ⟨rfl, hpre, ?_, by decide⟩
  exact create_handler_parse_error fmtSmallIntegral _ _ [] hpre (by decide)

/-- C13, amended: for every create request whose body passes the raw
pre-validation and is decoded by `BodyParser`, the handler fails with the 400
validation error "Title: field is required" when the decoded Title is empty
after trimming, whatever the Content and Categories are, and with "Content:
field is required" when the Title is valid and the decoded Content is empty
after trimming; the service is not called. The decoded Title is empty after
trimming when every member whose key spells Title holds a string that is. A
body that passes the pre-validation and that `BodyParser` cannot decode is
answered with the 400 error "Failed to parse request body". -/
theorem create_handler_required_messages {σ : Type} (fmtV : Float64 → String)
    (service : INewsService σ) (body : Option JSONDoc) (st : σ)
    (hpre : ValidateCreateNewsRequest fmtV (bodyOf body) = none) :
    (∀ F, body.bind bodyParserCreateForm = some F → TrimSpace F.Title = "" →
      NewsHandler.CreateNews fmtV service body st
          = (HandlerResult.failed (NewValidation "Title: field is required"), st) ∧
        (NewsHandler.CreateNews fmtV service body st).1.toResponse
          = { status := 400, body := ErrorResponse false "Title: field is required" } ∧
        ∀ cr er lr, (NewsHandler.CreateNews fmtV (recordingService cr er lr) body []).2 = []) ∧
    (∀ F, body.bind bodyParserCreateForm = some F →
      1 ≤ (TrimSpace F.Title).length → (TrimSpace F.Title).length ≤ 255 →
      TrimSpace F.Content = "" →
      NewsHandler.CreateNews fmtV service body st
          = (HandlerResult.failed (NewValidation "Content: field is required"), st) ∧
        (NewsHandler.CreateNews fmtV service body st).1.toResponse
          = { status := 400, body := ErrorResponse false "Content: field is required" } ∧
        ∀ cr er lr, (NewsHandler.CreateNews fmtV (recordingService cr er lr) body []).2 = []) ∧
    (∀ kv F, body = some (JSONDoc.object kv) → body.bind bodyParserCreateForm = some F →
      (∀ k v, (k, v) ∈ kv → equalFold k "Title" = true →
        ∀ s, v = JSONDoc.string s → TrimSpace s = "") →
      TrimSpace F.Title = "") ∧
    (body.bind bodyParserCreateForm = none →
      NewsHandler.CreateNews fmtV service body st
        = (HandlerResult.failed (NewBadRequest "Failed to parse request body"), st)) := by
  refine ⟨?_, ?_, ?_, ?_⟩
  · intro F hp ht
    have hv := create_validate_title_required F ht
    have hrun : ∀ {τ : Type} (svc : INewsService τ) (s : τ),
        NewsHandler.CreateNews fmtV svc body s
          = (HandlerResult.failed (NewValidation "Title: field is required"), s) :=
      fun svc s => create_handler_invalid fmtV svc body s F _ hpre hp hv
    refine ⟨hrun service st, ?_, ?_⟩
    · rw [hrun service st]
      rfl
    · intro cr er lr
      rw [hrun]
  · intro F hp h1 h2 hc
    have hv := create_validate_content_required F h1 h2 hc
    have hrun : ∀ {τ : Type} (svc : INewsService τ) (s : τ),
        NewsHandler.CreateNews fmtV svc body s
          = (HandlerResult.failed (NewValidation "Content: field is required"), s) :=
      fun svc s => create_handler_invalid fmtV svc body s F _ hpre hp hv
    refine ⟨hrun service st, ?_, ?_⟩
    · rw [hrun service st]
      rfl
    · intro cr er lr
      rw [hrun]
  · intro kv F hbody hp hall
    subst hbody
    exact bodyParserCreateForm_title (fun s => TrimSpace s = "") kv F (by decide) hall
      (by simpa using hp)
  · intro hp
    exact create_handler_parse_error fmtV service body st hpre hp

/-- Witness of the amended C13 on the body `{"Title": "", "Content": "Some
Content"}` of the handler test. -/
theorem create_handler_required_messages_witness :
    NewsHandler.CreateNews fmtSmallIntegral (recordingService (1, none) none ([], none))
        (some (JSONDoc.object [("Title", JSONDoc.string ""),
          ("Content", JSONDoc.string "Some Content")])) []
      = (HandlerResult.failed (NewValidation "Title: field is required"), []) :=
  ((create_handler_required_messages fmtSmallIntegral
      (recordingService (1, none) none ([], none))
      (some (JSONDoc.object [("Title", JSONDoc.string ""),
        ("Content", JSONDoc.string "Some Content")])) [] (by decide)).1
    { Title := "", Content := "Some Content", Categories := none } (by decide) (by decide)).1

theorem create_nonempty_error_field (fmtV : Float64 → String) (kv : List (String × JSONValue))
    (hlen : mapLen kv ≠ 0) (e : ValidationError)
    (he : ValidateCreateNewsRequest fmtV (some (JSONValue.object kv)) = some e) :
    e.Field = "Title" ∨ e.Field = "Content" ∨ e.Field = "Categories" := by
  unfold ValidateCreateNewsRequest at he
  simp only [unmarshalRaw, if_neg hlen] at he
  have hT : ∀ (o : Option JSONValue),
      (match o with
        | some title =>
            if (!isString title) = true then
              some ({ Field := "Title", Message := "must be string" } : ValidationError)
            else none
        | none => none) = none ∨
      (match o with
        | some title =>
            if (!isString title) = true then
              some ({ Field := "Title", Message := "must be string" } : ValidationError)
            else none
        | none => none) = some { Field := "Title", Message := "must be string" } := by
    intro o
    cases o with
    | none => exact Or.inl rfl
    | some t => cases h : isString t <;> simp
  have hC : ∀ (o : Option JSONValue),
      (match o with
        | some content =>
            if (!isString content) = true then
              some ({ Field := "Content", Message := "must be string" } : ValidationError)
            else none
        | none => none) = none ∨
      (match o with
        | some content =>
            if (!isString content) = true then
              some ({ Field := "Content", Message := "must be string" } : ValidationError)
            else none
        | none => none) = some { Field := "Content", Message := "must be string" } := by
    intro o
    cases o with
    | none => exact Or.inl rfl
    | some t => cases h : isString t <;> simp
  rcases hT (mapIndex kv "Title") with h1 | h1
  · rcases hC (mapIndex kv "Content") with h2 | h2
    · simp only [h1, h2] at he
      cases hK : mapIndex kv "Categories" with
      | none => simp [hK] at he
      | some c =>
        simp only [hK] at he
        cases hn : isNil c with
        | true => simp [hn] at he
        | false =>
          simp only [hn, Bool.not_false, if_true] at he
          exact Or.inr (Or.inr (validateCategoriesArray_field fmtV c e he))
    · simp only [h1, h2, Option.some.injEq] at he
      rw [← he]
      exact Or.inr (Or.inl rfl)
  · simp only [h1, Option.some.injEq] at he
    rw [← he]
    exact Or.inl rfl

theorem create_valid_body_is_object (fmtV : Float64 → String) (body : Option JSONDoc)
    (h : ValidateCreateNewsRequest fmtV (bodyOf body) = none) :
    ∃ kv, body = some (JSONDoc.object kv) := by
  cases body with
  | none => simp [ValidateCreateNewsRequest, bodyOf, unmarshalRaw] at h
  | some d =>
    cases d with
    | object kv => exact ⟨kv, rfl⟩
    | null => simp [ValidateCreateNewsRequest, bodyOf, unmarshalRaw, JSONDoc.generic, mapLen] at h
    | bool b => simp [ValidateCreateNewsRequest, bodyOf, unmarshalRaw, JSONDoc.generic] at h
    | number t => simp [ValidateCreateNewsRequest, bodyOf, unmarshalRaw, JSONDoc.generic] at h
    | string s => simp [ValidateCreateNewsRequest, bodyOf, unmarshalRaw, JSONDoc.generic] at h
    | array xs => simp [ValidateCreateNewsRequest, bodyOf, unmarshalRaw, JSONDoc.generic] at h

/-- C17, refuted as stated: the body `{"Content": "x"}` has no Title key, and
the raw pre-check accepts it; the create handler rejects it through the
structural validation, with "Title: field is required", not through the raw
pre-check with "must contain required fields". -/
theorem create_absent_title_passes_precheck :
    mapIndex [("Content", JSONDoc.string "x")] "Title" = none ∧
    ValidateCreateNewsRequest fmtSmallIntegral
        (bodyOf (some (JSONDoc.object [("Content", JSONDoc.string "x")]))) = none ∧
    NewsHandler.CreateNews fmtSmallIntegral (recordingService (1, none) none ([], none))
        (some (JSONDoc.object [("Content", JSONDoc.string "x")])) []
      = (HandlerResult.failed (NewValidation "Title: field is required"), []) ∧
    NewValidation "Title: field is required"
      ≠ NewValidation "body: must contain required fields (Title, Content)" := by
  have hpre : ValidateCreateNewsRequest fmtSmallIntegral
      (bodyOf (some (JSONDoc.object [("Content", JSONDoc.string "x")]))) = none := by decide
  refine ⟨rfl, hpre, ?_, by decide⟩
  exact create_handler_invalid fmtSmallIntegral _ _ [] ⟨"", "x", none⟩ _ hpre (by decide)
    (by decide)

/-- C17, amended: in the create pipeline the raw pre-check does not look for
the keys Title and Content: it answers "body: must contain required fields
(Title, Content)" exactly for the object without any key and for the body
null, and the handler then fails with that message. A body that passes the
pre-check and is decoded, and in which every string given for the Title, under
a key that spells Title in whatever letter case, is empty after trimming, as
when the Title is present but empty or when no key spells Title at all, is
rejected by the structural validation with "Title: field is required";
likewise, when the Title has 1 to 255 characters after trimming, an empty or
absent Content is rejected with "Content: field is required". -/
theorem create_empty_versus_absent {σ : Type} (fmtV : Float64 → String)
    (service : INewsService σ) (body : Option JSONDoc) (st : σ) :
    (ValidateCreateNewsRequest fmtV (bodyOf body)
        = some ⟨"body", "must contain required fields (Title, Content)"⟩ ↔
      body = some (JSONDoc.object []) ∨ body = some JSONDoc.null) ∧
    (body = some (JSONDoc.object []) ∨ body = some JSONDoc.null →
      NewsHandler.CreateNews fmtV service body st
        = (HandlerResult.failed
            (NewValidation "body: must contain required fields (Title, Content)"), st)) ∧
    (∀ F, ValidateCreateNewsRequest fmtV (bodyOf body) = none →
      body.bind bodyParserCreateForm = some F →
      (∀ kv k v, body = some (JSONDoc.object kv) → (k, v) ∈ kv → equalFold k "Title" = true →
        ∀ s, v = JSONDoc.string s → TrimSpace s = "") →
      F.Normalize.Validate = some "Title: field is required" ∧
      NewsHandler.CreateNews fmtV service body st
        = (HandlerResult.failed (NewValidation "Title: field is required"), st)) ∧
    (∀ F, ValidateCreateNewsRequest fmtV (bodyOf body) = none →
      body.bind bodyParserCreateForm = some F →
      1 ≤ (TrimSpace F.Title).length → (TrimSpace F.Title).length ≤ 255 →
      (∀ kv k v, body = some (JSONDoc.object kv) → (k, v) ∈ kv →
        equalFold k "Content" = true → ∀ s, v = JSONDoc.string s → TrimSpace s = "") →
      F.Normalize.Validate = some "Content: field is required" ∧
      NewsHandler.CreateNews fmtV service body st
        = (HandlerResult.failed (NewValidation "Content: field is required"), st)) := by
  have hiff : ValidateCreateNewsRequest fmtV (bodyOf body)
        = some ⟨"body", "must contain required fields (Title, Content)"⟩ ↔
      body = some (JSONDoc.object []) ∨ body = some JSONDoc.null := by
    cases body with
    | none => simp [ValidateCreateNewsRequest, bodyOf, unmarshalRaw]
    | some d =>
      cases d with
      | null => simp [ValidateCreateNewsRequest, bodyOf, unmarshalRaw, JSONDoc.generic, mapLen]
      | bool b => simp [ValidateCreateNewsRequest, bodyOf, unmarshalRaw, JSONDoc.generic]
      | number t => simp [ValidateCreateNewsRequest, bodyOf, unmarshalRaw, JSONDoc.generic]
      | string s => simp [ValidateCreateNewsRequest, bodyOf, unmarshalRaw, JSONDoc.generic]
      | array xs => simp [ValidateCreateNewsRequest, bodyOf, unmarshalRaw, JSONDoc.generic]
      | object kv =>
        rw [bodyOf_object]
        constructor
        · intro h
          by_contra hne
          have hne' : kv ≠ [] := fun hk => hne (Or.inl (by rw [hk]))
          have hlen : mapLen (genericMembers kv) ≠ 0 := by
            rw [mapLen_genericMembers, Ne, mapLen_eq_zero_iff]
            exact hne'
          have hf := create_nonempty_error_field fmtV _ hlen _ h
          revert hf
          decide
        · intro h
          rcases h with h | h
          · simp only [Option.some.injEq, JSONDoc.object.injEq] at h
            subst h
            rfl
          · simp at h
  refine ⟨hiff, ?_, ?_, ?_⟩
  · intro hb
    exact create_handler_pre_error fmtV service body st _ (hiff.mpr hb)
  · intro F hpre hp hall
    obtain ⟨kv, hb⟩ := create_valid_body_is_object fmtV body hpre
    subst hb
    have hp' : bodyParserCreateForm (JSONDoc.object kv) = some F := by simpa using hp
    have ht : TrimSpace F.Title = "" :=
      bodyParserCreateForm_title (fun s => TrimSpace s = "") kv F (by decide)
        (fun k v hmem hk s hs => hall kv k v rfl hmem hk s hs) hp'
    have hv := create_validate_title_required F ht
    exact ⟨hv, create_handler_invalid fmtV service _ st F _ hpre hp hv⟩
  · intro F hpre hp h1 h2 hall
    obtain ⟨kv, hb⟩ := create_valid_body_is_object fmtV body hpre
    subst hb
    have hp' : bodyParserCreateForm (JSONDoc.object kv) = some F := by simpa using hp
    have hc : TrimSpace F.Content = "" :=
      bodyParserCreateForm_content (fun s => TrimSpace s = "") kv F (by decide)
        (fun k v hmem hk s hs => hall kv k v rfl hmem hk s hs) hp'
    have hv := create_validate_content_required F h1 h2 hc
    exact ⟨hv, create_handler_invalid fmtV service _ st F _ hpre hp hv⟩

/-- Witness of the amended C17 on the body `{"Content": "x"}`, which has no
Title key, and on the body `null`, which the pre-check rejects as it does the
object without keys. -/
theorem create_empty_versus_absent_witness :
    (NewsCreateForm.Validate (NewsCreateForm.Normalize ⟨"", "x", none⟩)
        = some "Title: field is required" ∧
      NewsHandler.CreateNews fmtSmallIntegral (recordingService (1, none) none ([], none))
        (some (JSONDoc.object [("Content", JSONDoc.string "x")])) []
      = (HandlerResult.failed (NewValidation "Title: field is required"), [])) ∧
    NewsHandler.CreateNews fmtSmallIntegral (recordingService (1, none) none ([], none))
        (some JSONDoc.null) []
      = (HandlerResult.failed
          (NewValidation "body: must contain required fields (Title, Content)"), []) :=
  ⟨(create_empty_versus_absent fmtSmallIntegral (recordingService (1, none) none ([], none))
      (some (JSONDoc.object [("Content", JSONDoc.string "x")])) []).2.2.1
      { Title := "", Content := "x", Categories := none } (by decide) (by decide)
      (fun kv k v hb hmem hk => by
        simp only [Option.some.injEq, JSONDoc.object.injEq] at hb
        subst hb
        simp only [List.mem_singleton, Prod.mk.injEq] at hmem
        obtain ⟨rfl, rfl⟩ := hmem
        exact absurd hk (by decide)),
   (create_empty_versus_absent fmtSmallIntegral (recordingService (1, none) none ([], none))
      (some JSONDoc.null) []).2.1 (Or.inr rfl)⟩

/-! ## The list handler, the id of an edit request and the bearer token -/

theorem list_handler_bad_limit {σ : Type} (service : INewsService σ)
    (limitQuery offsetQuery : String) (st : σ) (h : parseInt (Query limitQuery "10") = none) :
    NewsHandler.ListNews service limitQuery offsetQuery st
      = (HandlerResult.failed (NewBadRequest "limit must be a valid number"), st) := by
  simp only [NewsHandler.ListNews, h]

theorem list_handler_bad_offset {σ : Type} (service : INewsService σ)
    (limitQuery offsetQuery : String) (st : σ) (limit : Int)
    (hl : parseInt (Query limitQuery "10") = some limit)
    (h : parseInt (Query offsetQuery "0") = none) :
    NewsHandler.ListNews service limitQuery offsetQuery st
      = (HandlerResult.failed (NewBadRequest "offset must be a valid number"), st) := by
  simp only [NewsHandler.ListNews, hl, h]

theorem Query_of_ne_empty (value defaultValue : String) (h : value ≠ "") :
    Query value defaultValue = value := by
  simp [Query, h]

/-- C21, refuted as stated: the empty value, which the query string `limit=`
gives for the limit, is not a 64-bit decimal integer, yet the handler reads it
as the default 10 and calls the service, here with (10, 5), and answers 200;
and with the limit 7, which parses, the empty value of `offset=` is not a
valid offset, yet the handler calls the service with (7, 0). -/
theorem list_handler_empty_value_takes_default :
    parseInt "" = none ∧
    NewsHandler.ListNews (recordingService (1, none) none ([], none)) "" "5" []
      = (HandlerResult.responded { status := 200, body := NewsListsResponse [] },
         [ServiceCall.list 10 5]) ∧
    parseInt "7" = some 7 ∧
    NewsHandler.ListNews (recordingService (1, none) none ([], none)) "7" "" []
      = (HandlerResult.responded { status := 200, body := NewsListsResponse [] },
         [ServiceCall.list 7 0]) := by
  refine ⟨by decide, ?_, by decide, ?_⟩
  · have h1 : parseInt (Query "" "10") = some 10 := by decide
    have h2 : parseInt (Query "5" "0") = some 5 := by decide
    have h3 : ValidatePaginationParams 10 5 = none := by decide
    simp only [NewsHandler.ListNews, h1, h2, h3, recordingService]
    rfl
  · have h1 : parseInt (Query "7" "10") = some 7 := by decide
    have h2 : parseInt (Query "" "0") = some 0 := by decide
    have h3 : ValidatePaginationParams 7 0 = none := by decide
    simp only [NewsHandler.ListNews, h1, h2, h3, recordingService]
    rfl

/-- C21, amended: in the handler `ListNews` a limit that is missing or has the
empty value is read as 10 and such an offset as 0, so a request without query
parameters calls the service with (10, 0); a limit whose value is not empty
and is not a 64-bit decimal integer fails with 400 "limit must be a valid
number", and, when the limit read parses, an offset whose value is not empty
and is not a 64-bit decimal integer fails with 400 "offset must be a valid
number", in both cases with the state behind the service untouched and no
call of the service. -/
theorem list_handler_defaults_and_parse_errors {σ : Type} (service : INewsService σ)
    (limitQuery offsetQuery : String) (st : σ) :
    NewsHandler.ListNews service "" offsetQuery st
      = NewsHandler.ListNews service "10" offsetQuery st ∧
    NewsHandler.ListNews service limitQuery "" st
      = NewsHandler.ListNews service limitQuery "0" st ∧
    (∀ cr er lr, (NewsHandler.ListNews (recordingService cr er lr) "" "" []).2
      = [ServiceCall.list 10 0]) ∧
    (limitQuery ≠ "" → parseInt limitQuery = none →
      NewsHandler.ListNews service limitQuery offsetQuery st
          = (HandlerResult.failed (NewBadRequest "limit must be a valid number"), st) ∧
        (NewsHandler.ListNews service limitQuery offsetQuery st).1.toResponse
          = { status := 400, body := ErrorResponse false "limit must be a valid number" } ∧
        ∀ cr er lr,
          (NewsHandler.ListNews (recordingService cr er lr) limitQuery offsetQuery []).2 = []) ∧
    (∀ limit, parseInt (Query limitQuery "10") = some limit →
      offsetQuery ≠ "" → parseInt offsetQuery = none →
      NewsHandler.ListNews service limitQuery offsetQuery st
          = (HandlerResult.failed (NewBadRequest "offset must be a valid number"), st) ∧
        (NewsHandler.ListNews service limitQuery offsetQuery st).1.toResponse
          = { status := 400, body := ErrorResponse false "offset must be a valid number" } ∧
        ∀ cr er lr,
          (NewsHandler.ListNews (recordingService cr er lr) limitQuery offsetQuery []).2 = []) := by
  refine ⟨rfl, rfl, ?_, ?_, ?_⟩
  · intro cr er lr
    have h1 : parseInt (Query "" "10") = some 10 := by decide
    have h2 : parseInt (Query "" "0") = some 0 := by decide
    have h3 : ValidatePaginationParams 10 0 = none := by decide
    simp only [NewsHandler.ListNews, h1, h2, h3, recordingService]
    obtain ⟨rows, err⟩ := lr
    cases err <;> rfl
  · intro hne hbad
    have h : parseInt (Query limitQuery "10") = none := by
      rw [Query_of_ne_empty _ _ hne]; exact hbad
    refine ⟨list_handler_bad_limit service _ _ st h, ?_, ?_⟩
    · rw [list_handler_bad_limit service _ _ st h]
      rfl
    · intro cr er lr
      rw [list_handler_bad_limit _ _ _ _ h]
  · intro limit hl hne hbad
    have h : parseInt (Query offsetQuery "0") = none := by
      rw [Query_of_ne_empty _ _ hne]; exact hbad
    refine ⟨list_handler_bad_offset service _ _ st limit hl h, ?_, ?_⟩
    · rw [list_handler_bad_offset service _ _ st limit hl h]
      rfl
    · intro cr er lr
      rw [list_handler_bad_offset _ _ _ _ limit hl h]

/-- Witness of the amended C21 on the query strings of the handler tests, `limit=abc` and
`limit=10&offset=abc`. -/
theorem list_handler_defaults_and_parse_errors_witness :
    NewsHandler.ListNews (recordingService (1, none) none ([], none)) "abc" "0" []
        = (HandlerResult.failed (NewBadRequest "limit must be a valid number"), []) ∧
    NewsHandler.ListNews (recordingService (1, none) none ([], none)) "10" "abc" []
        = (HandlerResult.failed (NewBadRequest "offset must be a valid number"), []) :=
  ⟨((list_handler_defaults_and_parse_errors (recordingService (1, none) none ([], none))
      "abc" "0" []).2.2.2.1 (by decide) (by decide)).1,
   ((list_handler_defaults_and_parse_errors (recordingService (1, none) none ([], none))
      "10" "abc" []).2.2.2.2 10 (by decide) (by decide) (by decide)).1⟩

/-- C22, evaluated on the code: the id `18446744073709551615` is accepted by
`strconv.ParseUint`, and the conversion `int64(id)` turns it into -1, so the
handler calls the service with the negative id -1 and answers 200; the same
happens for every id from 2^63 on, while an id below 2^63 reaches the service
with its decimal value, and an id that does not parse fails with "Invalid ID
format". -/
theorem edit_handler_id_wraps_negative :
    NewsHandler.EditNews fmtSmallIntegral (recordingService (1, none) none ([], none))
        "18446744073709551615" (some (JSONDoc.object [("Title", JSONDoc.string "x")])) []
      = (HandlerResult.responded
          { status := 200, body := JSONValue.object [("Success", JSONValue.bool true)] },
         [ServiceCall.edit (-1) { Title := some "x", Content := none, Categories := none }]) ∧
    (∀ n : Nat, n < 2 ^ 64 → 2 ^ 63 ≤ n → int64OfUint64 n < 0) ∧
    (∀ n : Nat, n < 2 ^ 63 → int64OfUint64 n = (n : Int)) ∧
    NewsHandler.EditNews fmtSmallIntegral (recordingService (1, none) none ([], none))
        "-1" (some (JSONDoc.object [("Title", JSONDoc.string "x")])) []
      = (HandlerResult.failed (NewBadRequest "Invalid ID format"), []) := by
  refine ⟨?_, ?_, ?_, ?_⟩
  · have hpre : ValidateEditNewsRequest fmtSmallIntegral
        (bodyOf (some (JSONDoc.object [("Title", JSONDoc.string "x")]))) = none := by decide
    rw [edit_handler_valid fmtSmallIntegral _ "18446744073709551615" _ []
      18446744073709551615 { Title := some "x", Content := none, Categories := none }
      (by decide) hpre (by decide) (by decide)]
    have hn : NewsEditForm.Normalize { Title := some "x", Content := none, Categories := none }
        = { Title := some "x", Content := none, Categories := none } := by decide
    have hid : int64OfUint64 18446744073709551615 = -1 := by decide
    rw [hn, hid]
    rfl
  · intro n h1 h2
    have h : ¬ n < 2 ^ 63 := by omega
    simp only [int64OfUint64, if_neg h]
    have : (n : Int) < 2 ^ 64 := by exact_mod_cast h1
    omega
  · intro n h
    simp only [int64OfUint64, if_pos h]
  · exact edit_handler_bad_id fmtSmallIntegral _ "-1" _ [] (by decide)

theorem splitAtFirstSpace_bearer (token : String) :
    splitAtFirstSpace ("Bearer " ++ token) = ["Bearer", token] := by
  have hd : ("Bearer " ++ token).data
      = 'B' :: 'e' :: 'a' :: 'r' :: 'e' :: 'r' :: ' ' :: token.data := by
    rw [String.data_append]
    rfl
  unfold splitAtFirstSpace
  simp only [hd]
  have h1 : List.dropWhile (fun c => c != ' ')
      ('B' :: 'e' :: 'a' :: 'r' :: 'e' :: 'r' :: ' ' :: token.data) = ' ' :: token.data := by
    simp [List.dropWhile]
  have h2 : List.takeWhile (fun c => c != ' ')
      ('B' :: 'e' :: 'a' :: 'r' :: 'e' :: 'r' :: ' ' :: token.data)
        = ['B', 'e', 'a', 'r', 'e', 'r'] := by
    simp [List.takeWhile]
  rw [h1, h2]

theorem splitAtFirstSpace_pair (s p0 p1 : String) (h : splitAtFirstSpace s = [p0, p1]) :
    s = p0 ++ " " ++ p1 := by
  unfold splitAtFirstSpace at h
  simp only at h
  cases hd : List.dropWhile (fun c => c != ' ') s.data with
  | nil =>
    rw [hd] at h
    simp at h
  | cons c after =>
    rw [hd] at h
    simp only [List.cons.injEq, and_true] at h
    obtain ⟨h0, h1⟩ := h
    have hlen : 0 < (List.dropWhile (fun c => c != ' ') s.data).length := by
      rw [hd]; simp
    have hnot := List.dropWhile_get_zero_not (fun c => c != ' ') s.data hlen
    have hc : c = ' ' := by
      have hget : (List.dropWhile (fun c => c != ' ') s.data).get ⟨0, hlen⟩ = c := by
        simp [hd]
      rw [hget] at hnot
      simpa using hnot
    have hsplit := List.takeWhile_append_dropWhile (fun c => c != ' ') s.data
    rw [hd, hc] at hsplit
    apply String.ext
    rw [String.data_append, String.data_append, ← h0, ← h1]
    refine hsplit.symm.trans ?_
    simp

/-- C24: the bearer-token check runs the rest of the chain if and only if the
Authorization header is exactly "Bearer " followed by the configured token;
for every other header, the missing one included, it answers 401 and leaves
the state untouched, the rest of the chain not being run. -/
theorem auth_passes_iff_exact_bearer {σ : Type} (validToken authHeader : String)
    (next : σ → HandlerResult × σ) (st : σ) :
    (authHeader = "Bearer " ++ validToken →
      AuthMiddleware validToken authHeader next st = next st) ∧
    (authHeader ≠ "Bearer " ++ validToken →
      ∃ message, AuthMiddleware validToken authHeader next st
        = (HandlerResult.responded { status := 401, body := fiberMapError message }, st)) ∧
    (∀ (r : HandlerResult) (n : Nat),
      (AuthMiddleware validToken authHeader (fun calls => (r, calls + 1)) n).2 = n + 1
        ↔ authHeader = "Bearer " ++ validToken) := by
  have hpass : ∀ {τ : Type} (nxt : τ → HandlerResult × τ) (s : τ),
      authHeader = "Bearer " ++ validToken →
      AuthMiddleware validToken authHeader nxt s = nxt s := by
    intro τ nxt s h
    subst h
    have hne : "Bearer " ++ validToken ≠ "" := by
      intro hc
      have := congrArg String.data hc
      rw [String.data_append] at this
      simp at this
    simp [AuthMiddleware, hne, splitAtFirstSpace_bearer]
  have hfail : ∀ {τ : Type} (nxt : τ → HandlerResult × τ) (s : τ),
      authHeader ≠ "Bearer " ++ validToken →
      ∃ message, AuthMiddleware validToken authHeader nxt s
        = (HandlerResult.responded { status := 401, body := fiberMapError message }, s) := by
    intro τ nxt s h
    unfold AuthMiddleware
    by_cases h1 : authHeader = ""
    · exact ⟨_, by rw [if_pos h1]⟩
    · rw [if_neg h1]
      simp only
      by_cases h2 : (splitAtFirstSpace authHeader).length ≠ 2 ∨
          (splitAtFirstSpace authHeader).head? ≠ some "Bearer"
      · exact ⟨_, by rw [if_pos h2]⟩
      · rw [if_neg h2]
        by_cases h3 : (splitAtFirstSpace authHeader).getD 1 "" ≠ validToken
        · exact ⟨_, by rw [if_pos h3]⟩
        · exfalso
          apply h
          push_neg at h2 h3
          obtain ⟨hlen, hhead⟩ := h2
          have hparts : splitAtFirstSpace authHeader = ["Bearer", validToken] := by
            match hp : splitAtFirstSpace authHeader with
            | [] => rw [hp] at hlen; simp at hlen
            | [a] => rw [hp] at hlen; simp at hlen
            | [a, b] =>
              rw [hp] at hhead h3
              simp at hhead h3
              rw [hhead, h3]
            | a :: b :: c :: rest => rw [hp] at hlen; simp at hlen
          have := splitAtFirstSpace_pair authHeader "Bearer" validToken hparts
          rw [this]
          rfl
  refine ⟨hpass next st, hfail next st, ?_⟩
  intro r n
  constructor
  · intro h
    by_contra hne
    obtain ⟨message, hm⟩ := hfail (fun calls => (r, calls + 1)) n hne
    rw [hm] at h
    simp at h
  · intro h
    rw [hpass _ _ h]

/-- Witness of C24 for the token `secret`: the exact header passes, and the
header with a lower-case scheme is answered 401. -/
theorem auth_passes_iff_exact_bearer_witness :
    AuthMiddleware "secret" "Bearer secret"
        (fun (calls : Nat) => (HandlerResult.failed (NewNotFound "News not found"), calls + 1)) 0
      = (HandlerResult.failed (NewNotFound "News not found"), 1) ∧
    ∃ message, AuthMiddleware "secret" "bearer secret"
        (fun (calls : Nat) => (HandlerResult.failed (NewNotFound "News not found"), calls + 1)) 0
      = (HandlerResult.responded { status := 401, body := fiberMapError message }, 0) :=
  ⟨(auth_passes_iff_exact_bearer "secret" "Bearer secret"
      (fun (calls : Nat) => (HandlerResult.failed (NewNotFound "News not found"), calls + 1))
      0).1 (by decide),
   (auth_passes_iff_exact_bearer "secret" "bearer secret"
      (fun (calls : Nat) => (HandlerResult.failed (NewNotFound "News not found"), calls + 1))
      0).2.1 (by decide)⟩

/-! ## The repository over the store -/

theorem equalFold_same_fold (key a b : String) (ha : equalFold key a = true)
    (hb : equalFold key b = true) : a.data.map foldRune = b.data.map foldRune := by
  simp only [equalFold, beq_iff_eq] at ha hb
  rw [← ha, ← hb]

theorem equalFold_title_content (key : String) (h : equalFold key "Title" = true) :
    equalFold key "Content" = false := by
  cases h' : equalFold key "Content" with
  | false => rfl
  | true => exact absurd (equalFold_same_fold key _ _ h h') (by decide)

theorem equalFold_title_categories (key : String) (h : equalFold key "Title" = true) :
    equalFold key "Categories" = false := by
  cases h' : equalFold key "Categories" with
  | false => rfl
  | true => exact absurd (equalFold_same_fold key _ _ h h') (by decide)

theorem equalFold_content_categories (key : String) (h : equalFold key "Content" = true) :
    equalFold key "Categories" = false := by
  cases h' : equalFold key "Categories" with
  | false => rfl
  | true => exact absurd (equalFold_same_fold key _ _ h h') (by decide)

theorem equalFold_self_of_eq (name : String) : equalFold name name = true := by
  simp [equalFold]

theorem specRequestMember_eq_mapIndex (name : String) (kv : List (String × JSONDoc))
    (h : ∀ m ∈ kv, equalFold m.1 name = true → m.1 = name) :
    specRequestMember name kv = mapIndex kv name := by
  induction kv with
  | nil => rfl
  | cons p rest ih =>
    obtain ⟨key, v⟩ := p
    have ih' := ih (fun m hm => h m (List.mem_cons_of_mem _ hm))
    simp only [specRequestMember, mapIndex, ih']
    cases mapIndex rest name with
    | some w => rfl
    | none =>
      by_cases hk : key = name
      · simp [hk, equalFold_self_of_eq]
      · have hf : equalFold key name = false := by
          cases hf : equalFold key name with
          | false => rfl
          | true => exact absurd (h (key, v) (List.mem_cons_self _ _) hf) hk
        simp [hk, hf]

theorem decodeEditMembers_step (key : String) (v : JSONDoc) (rest : List (String × JSONDoc))
    (form : NewsEditForm) (stale : List Int) (F : NewsEditForm) (s' : List Int) :
    decodeEditMembers ((key, v) :: rest) (form, stale) = some (F, s') →
    ∃ form' stale', decodeEditMembers rest (form', stale') = some (F, s') ∧
      (if equalFold key "Title" = true then
        form'.Title = (match v with
          | JSONDoc.string s => some s
          | _ => none)
      else form'.Title = form.Title) ∧
      (if equalFold key "Content" = true then
        form'.Content = (match v with
          | JSONDoc.string s => some s
          | _ => none)
      else form'.Content = form.Content) ∧
      (if equalFold key "Categories" = true then
        decodeInt64SlicePtr v form.Categories stale = some (form'.Categories, stale')
      else form'.Categories = form.Categories) := by
  intro h
  by_cases h1 : equalFold key "Title" = true
  · have h2 := equalFold_title_content key h1
    have h3 := equalFold_title_categories key h1
    simp only [decodeEditMembers, h1, if_true] at h
    cases v with
    | string s => exact ⟨_, _, h, by simp [h1, h2, h3]⟩
    | null => exact ⟨_, _, h, by simp [h1, h2, h3]⟩
    | bool b => exact absurd h (by simp)
    | number t => exact absurd h (by simp)
    | array xs => exact absurd h (by simp)
    | object kv => exact absurd h (by simp)
  · by_cases h2 : equalFold key "Content" = true
    · have h3 := equalFold_content_categories key h2
      simp only [decodeEditMembers, h1, h2, if_true, if_false] at h
      cases v with
      | string s => exact ⟨_, _, h, by simp [h1, h2, h3]⟩
      | null => exact ⟨_, _, h, by simp [h1, h2, h3]⟩
      | bool b => exact absurd h (by simp)
      | number t => exact absurd h (by simp)
      | array xs => exact absurd h (by simp)
      | object kv => exact absurd h (by simp)
    · by_cases h3 : equalFold key "Categories" = true
      · simp only [decodeEditMembers, h1, h2, h3, if_true, if_false] at h
        cases hd : decodeInt64SlicePtr v form.Categories stale with
        | none => simp [hd] at h
        | some r =>
          obtain ⟨cats, stale'⟩ := r
          simp only [hd] at h
          exact ⟨_, _, h, by simp [h1, h2, h3]⟩
      · simp only [decodeEditMembers, h1, h2, h3, if_false] at h
        exact ⟨_, _, h, by simp [h1, h2, h3]⟩

theorem decodeCreateMembers_step (key : String) (v : JSONDoc) (rest : List (String × JSONDoc))
    (form : NewsCreateForm) (stale : List Int) (F : NewsCreateForm) (s' : List Int) :
    decodeCreateMembers ((key, v) :: rest) (form, stale) = some (F, s') →
    ∃ form' stale', decodeCreateMembers rest (form', stale') = some (F, s') ∧
      (if equalFold key "Categories" = true then
        decodeInt64SlicePtr v form.Categories stale = some (form'.Categories, stale')
      else form'.Categories = form.Categories) := by
  intro h
  by_cases h1 : equalFold key "Title" = true
  · have h3 := equalFold_title_categories key h1
    simp only [decodeCreateMembers, h1, if_true] at h
    cases v with
    | string s => exact ⟨_, _, h, by simp [h3]⟩
    | null => exact ⟨_, _, h, by simp [h3]⟩
    | bool b => exact absurd h (by simp)
    | number t => exact absurd h (by simp)
    | array xs => exact absurd h (by simp)
    | object kv => exact absurd h (by simp)
  · by_cases h2 : equalFold key "Content" = true
    · have h3 := equalFold_content_categories key h2
      simp only [decodeCreateMembers, h1, h2, if_true, if_false] at h
      cases v with
      | string s => exact ⟨_, _, h, by simp [h3]⟩
      | null => exact ⟨_, _, h, by simp [h3]⟩
      | bool b => exact absurd h (by simp)
      | number t => exact absurd h (by simp)
      | array xs => exact absurd h (by simp)
      | object kv => exact absurd h (by simp)
    · by_cases h3 : equalFold key "Categories" = true
      · simp only [decodeCreateMembers, h1, h2, h3, if_true, if_false] at h
        cases hd : decodeInt64SlicePtr v form.Categories stale with
        | none => simp [hd] at h
        | some r =>
          obtain ⟨cats, stale'⟩ := r
          simp only [hd] at h
          exact ⟨_, _, h, by simp [h3]⟩
      · simp only [decodeCreateMembers, h1, h2, h3, if_false] at h
        exact ⟨_, _, h, by simp [h3]⟩

theorem decodeEditMembers_title (kv : List (String × JSONDoc)) :
    ∀ (form : NewsEditForm) (stale : List Int) (F : NewsEditForm) (s' : List Int),
      decodeEditMembers kv (form, stale) = some (F, s') →
      F.Title = (match specRequestMember "Title" kv with
        | none => form.Title
        | some (JSONDoc.string s) => some s
        | some _ => none) := by
  induction kv with
  | nil =>
    intro form stale F s' h
    simp only [decodeEditMembers, Option.some.injEq, Prod.mk.injEq] at h
    rw [← h.1]
    rfl
  | cons p rest ih =>
    obtain ⟨key, v⟩ := p
    intro form stale F s' h
    obtain ⟨form', stale', hrest, hT, _, _⟩ := decodeEditMembers_step key v rest form stale F s' h
    have ih' := ih form' stale' F s' hrest
    simp only [specRequestMember]
    cases hr : specRequestMember "Title" rest with
    | some w =>
      rw [hr] at ih'
      rw [ih']
      cases w <;> rfl
    | none =>
      rw [hr] at ih'
      by_cases h1 : equalFold key "Title" = true
      · simp only [h1, if_true] at hT ⊢
        rw [ih', hT]
        cases v <;> rfl
      · simp only [h1, if_false, Bool.false_eq_true] at hT ⊢
        rw [ih', hT]

theorem decodeEditMembers_content (kv : List (String × JSONDoc)) :
    ∀ (form : NewsEditForm) (stale : List Int) (F : NewsEditForm) (s' : List Int),
      decodeEditMembers kv (form, stale) = some (F, s') →
      F.Content = (match specRequestMember "Content" kv with
        | none => form.Content
        | some (JSONDoc.string s) => some s
        | some _ => none) := by
  induction kv with
  | nil =>
    intro form stale F s' h
    simp only [decodeEditMembers, Option.some.injEq, Prod.mk.injEq] at h
    rw [← h.1]
    rfl
  | cons p rest ih =>
    obtain ⟨key, v⟩ := p
    intro form stale F s' h
    obtain ⟨form', stale', hrest, _, hC, _⟩ := decodeEditMembers_step key v rest form stale F s' h
    have ih' := ih form' stale' F s' hrest
    simp only [specRequestMember]
    cases hr : specRequestMember "Content" rest with
    | some w =>
      rw [hr] at ih'
      rw [ih']
      cases w <;> rfl
    | none =>
      rw [hr] at ih'
      by_cases h1 : equalFold key "Content" = true
      · simp only [h1, if_true] at hC ⊢
        rw [ih', hC]
        cases v <;> rfl
      · simp only [h1, if_false, Bool.false_eq_true] at hC ⊢
        rw [ih', hC]

theorem decodeEditMembers_categories (kv : List (String × JSONDoc)) :
    ∀ (form : NewsEditForm) (stale : List Int) (F : NewsEditForm) (s' : List Int),
      decodeEditMembers kv (form, stale) = some (F, s') →
      (specRequestMember "Categories" kv = none → F.Categories = form.Categories) ∧
      (∀ v, specRequestMember "Categories" kv = some v →
        ∃ cur mem left, decodeInt64SlicePtr v cur mem = some (F.Categories, left)) := by
  induction kv with
  | nil =>
    intro form stale F s' h
    simp only [decodeEditMembers, Option.some.injEq, Prod.mk.injEq] at h
    rw [← h.1]
    exact ⟨fun _ => rfl, fun v hv => by simp [specRequestMember] at hv⟩
  | cons p rest ih =>
    obtain ⟨key, v⟩ := p
    intro form stale F s' h
    obtain ⟨form', stale', hrest, _, _, hK⟩ := decodeEditMembers_step key v rest form stale F s' h
    obtain ⟨ihn, ihs⟩ := ih form' stale' F s' hrest
    simp only [specRequestMember]
    cases hr : specRequestMember "Categories" rest with
    | some w =>
      refine ⟨fun hc => by simp at hc, fun u hu => ?_⟩
      simp only [Option.some.injEq] at hu
      subst hu
      exact ihs w hr
    | none =>
      have hF := ihn hr
      by_cases h1 : equalFold key "Categories" = true
      · simp only [h1, if_true] at hK ⊢
        refine ⟨fun hc => by simp at hc, fun u hu => ?_⟩
        simp only [Option.some.injEq] at hu
        subst hu
        exact ⟨form.Categories, stale, stale', by rw [hF]; exact hK⟩
      · simp only [h1, if_false] at hK ⊢
        exact ⟨fun _ => by rw [hF, hK], fun u hu => by simp at hu⟩

theorem decodeCreateMembers_categories (kv : List (String × JSONDoc)) :
    ∀ (form : NewsCreateForm) (stale : List Int) (F : NewsCreateForm) (s' : List Int),
      decodeCreateMembers kv (form, stale) = some (F, s') →
      (specRequestMember "Categories" kv = none → F.Categories = form.Categories) ∧
      (∀ v, specRequestMember "Categories" kv = some v →
        ∃ cur mem left, decodeInt64SlicePtr v cur mem = some (F.Categories, left)) := by
  induction kv with
  | nil =>
    intro form stale F s' h
    simp only [decodeCreateMembers, Option.some.injEq, Prod.mk.injEq] at h
    rw [← h.1]
    exact ⟨fun _ => rfl, fun v hv => by simp [specRequestMember] at hv⟩
  | cons p rest ih =>
    obtain ⟨key, v⟩ := p
    intro form stale F s' h
    obtain ⟨form', stale', hrest, hK⟩ := decodeCreateMembers_step key v rest form stale F s' h
    obtain ⟨ihn, ihs⟩ := ih form' stale' F s' hrest
    simp only [specRequestMember]
    cases hr : specRequestMember "Categories" rest with
    | some w =>
      refine ⟨fun hc => by simp at hc, fun u hu => ?_⟩
      simp only [Option.some.injEq] at hu
      subst hu
      exact ihs w hr
    | none =>
      have hF := ihn hr
      by_cases h1 : equalFold key "Categories" = true
      · simp only [h1, if_true] at hK ⊢
        refine ⟨fun hc => by simp at hc, fun u hu => ?_⟩
        simp only [Option.some.injEq] at hu
        subst hu
        exact ⟨form.Categories, stale, stale', by rw [hF]; exact hK⟩
      · simp only [h1, if_false] at hK ⊢
        exact ⟨fun _ => by rw [hF, hK], fun u hu => by simp at hu⟩

theorem bodyParserEditForm_strings (kv : List (String × JSONDoc)) (F : NewsEditForm)
    (h : bodyParserEditForm (JSONDoc.object kv) = some F) :
    F.Title = specRequestString "Title" kv ∧ F.Content = specRequestString "Content" kv := by
  simp only [bodyParserEditForm] at h
  cases hd : decodeEditMembers kv ({ Title := none, Content := none, Categories := none }, []) with
  | none => simp [hd] at h
  | some r =>
    obtain ⟨F', st'⟩ := r
    simp only [hd, Option.map_some', Option.some.injEq] at h
    subst h
    have hT := decodeEditMembers_title kv _ _ _ _ hd
    have hC := decodeEditMembers_content kv _ _ _ _ hd
    constructor
    · rw [hT]
      unfold specRequestString
      cases specRequestMember "Title" kv with
      | none => rfl
      | some w => cases w <;> rfl
    · rw [hC]
      unfold specRequestString
      cases specRequestMember "Content" kv with
      | none => rfl
      | some w => cases w <;> rfl

theorem edit_valid_body_is_object (fmtV : Float64 → String) (body : Option JSONDoc)
    (h : ValidateEditNewsRequest fmtV (bodyOf body) = none) :
    ∃ kv, body = some (JSONDoc.object kv) := by
  cases body with
  | none => simp [ValidateEditNewsRequest, bodyOf, unmarshalRaw] at h
  | some d =>
    cases d with
    | object kv => exact ⟨kv, rfl⟩
    | null => simp [ValidateEditNewsRequest, bodyOf, unmarshalRaw, JSONDoc.generic, mapLen] at h
    | bool b => simp [ValidateEditNewsRequest, bodyOf, unmarshalRaw, JSONDoc.generic] at h
    | number t => simp [ValidateEditNewsRequest, bodyOf, unmarshalRaw, JSONDoc.generic] at h
    | string s => simp [ValidateEditNewsRequest, bodyOf, unmarshalRaw, JSONDoc.generic] at h
    | array xs => simp [ValidateEditNewsRequest, bodyOf, unmarshalRaw, JSONDoc.generic] at h

theorem edit_normalize_fields (F : NewsEditForm) :
    F.Normalize.Title = F.Title.map TrimSpace ∧ F.Normalize.Content = F.Content.map TrimSpace ∧
      F.Normalize.Categories = F.Categories := by
  obtain ⟨t, c, k⟩ := F
  cases t <;> cases c <;> exact ⟨rfl, rfl, rfl⟩

theorem bodyParserEditForm_categories (kv : List (String × JSONDoc)) (F : NewsEditForm)
    (h : bodyParserEditForm (JSONDoc.object kv) = some F) :
    (specRequestMember "Categories" kv = none ∨
        specRequestMember "Categories" kv = some JSONDoc.null) → F.Categories = none := by
  simp only [bodyParserEditForm] at h
  cases hd : decodeEditMembers kv ({ Title := none, Content := none, Categories := none }, []) with
  | none => simp [hd] at h
  | some r =>
    obtain ⟨F', st'⟩ := r
    simp only [hd, Option.map_some', Option.some.injEq] at h
    subst h
    obtain ⟨hn, hs⟩ := decodeEditMembers_categories kv _ _ _ _ hd
    intro habs
    rcases habs with habs | habs
    · exact hn habs
    · obtain ⟨cur, mem, left, hdec⟩ := hs JSONDoc.null habs
      simp only [decodeInt64SlicePtr, Option.some.injEq, Prod.mk.injEq] at hdec
      exact hdec.1.symm

/-- C25: for every valid edit request, one whose id parses, whose body passes
the raw pre-validation and is decoded by the body parser into a form that
passes `Validate` after `Normalize`, the body is an object and a recording
service receives exactly one call, with the id and the normalized form. In
that form Title and Content are the `strings.TrimSpace` of the strings the
request gives for them, whatever whitespace they carry, Categories is as
decoded, and each of the three fields that the request does not give, or gives
as null, stays nil. The value a request gives for a field is that of the
member the decoder takes for it; when no key spells the field in another
letter case, this is the member the index expression on the raw map yields. -/
theorem edit_handler_passes_trimmed_form (fmtV : Float64 → String) (editRet : Option GoError)
    (idParam : String) (body : Option JSONDoc) (id : Nat) (F : NewsEditForm)
    (hid : parseUint idParam = some id)
    (h : ValidateEditNewsRequest fmtV (bodyOf body) = none)
    (hp : body.bind bodyParserEditForm = some F)
    (hv : F.Normalize.Validate = none) :
    ∃ kv, body = some (JSONDoc.object kv) ∧
      (NewsHandler.EditNews fmtV (recordingService (0, none) editRet ([], none)) idParam
          body []).2 = [ServiceCall.edit (int64OfUint64 id) F.Normalize] ∧
      F.Normalize.Title = (specRequestString "Title" kv).map TrimSpace ∧
      F.Normalize.Content = (specRequestString "Content" kv).map TrimSpace ∧
      F.Normalize.Categories = F.Categories ∧
      (specRequestString "Title" kv = none → F.Normalize.Title = none) ∧
      (specRequestString "Content" kv = none → F.Normalize.Content = none) ∧
      ((∀ m ∈ kv, equalFold m.1 "Title" = true → m.1 = "Title") →
        (∀ s, mapIndex kv "Title" = some (JSONDoc.string s) →
          F.Normalize.Title = some (TrimSpace s)) ∧
        (mapIndex kv "Title" = none → F.Normalize.Title = none)) ∧
      ((∀ m ∈ kv, equalFold m.1 "Content" = true → m.1 = "Content") →
        (∀ s, mapIndex kv "Content" = some (JSONDoc.string s) →
          F.Normalize.Content = some (TrimSpace s)) ∧
        (mapIndex kv "Content" = none → F.Normalize.Content = none)) ∧
      ((specRequestMember "Categories" kv = none ∨
          specRequestMember "Categories" kv = some JSONDoc.null) →
        F.Normalize.Categories = none) ∧
      ((∀ m ∈ kv, equalFold m.1 "Categories" = true → m.1 = "Categories") →
        (mapIndex kv "Categories" = none ∨ mapIndex kv "Categories" = some JSONDoc.null) →
        F.Normalize.Categories = none) := by
  obtain ⟨kv, hbody⟩ := edit_valid_body_is_object fmtV body h
  subst hbody
  have hp' : bodyParserEditForm (JSONDoc.object kv) = some F := by simpa using hp
  obtain ⟨hT, hC⟩ := bodyParserEditForm_strings kv F hp'
  obtain ⟨nT, nC, nK⟩ := edit_normalize_fields F
  have hcall := edit_handler_valid fmtV (recordingService (0, none) editRet ([], none)) idParam
    (some (JSONDoc.object kv)) [] id F hid h hp hv
  have hK := bodyParserEditForm_categories kv F hp'
  refine ⟨kv, rfl, ?_, ?_, ?_, nK, ?_, ?_, ?_, ?_, ?_, ?_⟩
  · rw [hcall]
    cases editRet <;> rfl
  · rw [nT, hT]
  · rw [nC, hC]
  · intro hn
    rw [nT, hT, hn]
    rfl
  · intro hn
    rw [nC, hC, hn]
    rfl
  · intro hexact
    have hm := specRequestMember_eq_mapIndex "Title" kv hexact
    constructor
    · intro s hs
      rw [nT, hT]
      simp [specRequestString, hm, hs]
    · intro hn
      rw [nT, hT]
      simp [specRequestString, hm, hn]
  · intro hexact
    have hm := specRequestMember_eq_mapIndex "Content" kv hexact
    constructor
    · intro s hs
      rw [nC, hC]
      simp [specRequestString, hm, hs]
    · intro hn
      rw [nC, hC]
      simp [specRequestString, hm, hn]
  · intro habs
    rw [nK]
    exact hK habs
  · intro hexact habs
    rw [nK]
    apply hK
    rw [specRequestMember_eq_mapIndex "Categories" kv hexact]
    exact habs

/-- Witness of C25 on the request of the handler test "Title with space": the
id 10 and the body
`{"Title": "   Title with spaces ", "Content": "Content", "Categories": null}`. -/
theorem edit_handler_passes_trimmed_form_witness :
    NewsEditForm.Normalize ⟨some "   Title with spaces ", some "Content", none⟩
      = ⟨some "Title with spaces", some "Content", none⟩ ∧
    ∃ kv,
      some (JSONDoc.object [("Title", JSONDoc.string "   Title with spaces "),
        ("Content", JSONDoc.string "Content"), ("Categories", JSONDoc.null)])
        = some (JSONDoc.object kv) ∧
      (NewsHandler.EditNews fmtSmallIntegral (recordingService (0, none) none ([], none)) "10"
          (some (JSONDoc.object [("Title", JSONDoc.string "   Title with spaces "),
            ("Content", JSONDoc.string "Content"), ("Categories", JSONDoc.null)])) []).2
        = [ServiceCall.edit (int64OfUint64 10)
            (NewsEditForm.Normalize ⟨some "   Title with spaces ", some "Content", none⟩)] ∧
      (NewsEditForm.Normalize ⟨some "   Title with spaces ", some "Content", none⟩).Title
        = (specRequestString "Title" kv).map TrimSpace ∧
      (NewsEditForm.Normalize ⟨some "   Title with spaces ", some "Content", none⟩).Categories
        = none :=
  ⟨by decide, (edit_handler_passes_trimmed_form fmtSmallIntegral none "10"
    (some (JSONDoc.object [("Title", JSONDoc.string "   Title with spaces "),
      ("Content", JSONDoc.string "Content"), ("Categories", JSONDoc.null)])) 10
    ⟨some "   Title with spaces ", some "Content", none⟩
    (by decide) (by decide) (by decide) (by decide)).imp
    (fun kv hk => ⟨hk.1, hk.2.1, hk.2.2.1,
      hk.2.2.2.2.2.2.2.2.2.1 (by
        have hb := hk.1
        simp only [Option.some.injEq, JSONDoc.object.injEq] at hb
        subst hb
        exact Or.inr rfl)⟩)⟩

theorem genericList_mem (xs : List JSONDoc) (x : JSONDoc) (h : x ∈ xs) :
    x.generic ∈ genericList xs := by
  induction xs with
  | nil => simp at h
  | cons y ys ih =>
    simp only [genericList, List.mem_cons] at h ⊢
    rcases h with rfl | h
    · exact Or.inl rfl
    · exact Or.inr (ih h)

theorem decodeInt64Elems_pos (xs : List JSONDoc) :
    ∀ (mem r : List Int), decodeInt64Elems xs mem = some r →
      (∀ x ∈ xs, ∃ t, x = JSONDoc.number t ∧ 0 < t.float64.toRat ∧ t.coherent) →
      ∀ c ∈ r, 0 < c := by
  induction xs with
  | nil =>
    intro mem r h _ c hc
    simp only [decodeInt64Elems, Option.some.injEq] at h
    subst h
    simp at hc
  | cons x rest ih =>
    intro mem r h hall c hc
    obtain ⟨t, hx, hpos, hcoh⟩ := hall x (List.mem_cons_self _ _)
    subst hx
    simp only [decodeInt64Elems] at h
    cases hn : t.int64 with
    | none => simp [hn] at h
    | some n =>
      simp only [hn] at h
      cases hrest : decodeInt64Elems rest mem.tail with
      | none => simp [hrest] at h
      | some r' =>
        simp only [hrest, Option.map_some', Option.some.injEq] at h
        subst h
        simp only [List.mem_cons] at hc
        rcases hc with rfl | hc
        · exact (hcoh c hn).mp hpos
        · exact ih mem.tail r' hrest (fun y hy => hall y (List.mem_cons_of_mem _ hy)) c hc

theorem decodeInt64SlicePtr_pos (v : JSONDoc) (cur : Option (List Int)) (mem : List Int)
    (cats : Option (List Int)) (left : List Int)
    (h : decodeInt64SlicePtr v cur mem = some (cats, left))
    (hrule : v.generic = JSONValue.null ∨ specCategoriesRule v.generic)
    (hcoh : ∀ xs, v = JSONDoc.array xs → ∀ t, JSONDoc.number t ∈ xs → t.coherent) :
    ∀ c ∈ cats.getD [], 0 < c := by
  cases v with
  | null =>
    simp only [decodeInt64SlicePtr, Option.some.injEq, Prod.mk.injEq] at h
    rw [← h.1]
    intro c hc
    simp at hc
  | bool b => simp [decodeInt64SlicePtr] at h
  | number t => simp [decodeInt64SlicePtr] at h
  | string s => simp [decodeInt64SlicePtr] at h
  | object kv => simp [decodeInt64SlicePtr] at h
  | array xs =>
    have hrule' : ∀ x ∈ genericList xs, specPositiveIntegerElement x := by
      rcases hrule with hr | hr
      · simp [JSONDoc.generic] at hr
      · simpa [JSONDoc.generic, specCategoriesRule] using hr
    have hall : ∀ x ∈ xs, ∃ t, x = JSONDoc.number t ∧ 0 < t.float64.toRat ∧ t.coherent := by
      intro x hx
      have hg := hrule' x.generic (genericList_mem xs x hx)
      cases x with
      | number t => exact ⟨t, rfl, hg.2, hcoh xs rfl t hx⟩
      | null => exact absurd hg (by simp [JSONDoc.generic, specPositiveIntegerElement])
      | bool b => exact absurd hg (by simp [JSONDoc.generic, specPositiveIntegerElement])
      | string s => exact absurd hg (by simp [JSONDoc.generic, specPositiveIntegerElement])
      | array ys => exact absurd hg (by simp [JSONDoc.generic, specPositiveIntegerElement])
      | object kv => exact absurd hg (by simp [JSONDoc.generic, specPositiveIntegerElement])
    simp only [decodeInt64SlicePtr] at h
    cases hd : decodeInt64Elems xs (cur.getD [] ++ mem) with
    | none => simp [hd] at h
    | some r =>
      simp only [hd] at h
      by_cases he : xs.isEmpty = true
      · simp only [he, if_true, Option.some.injEq, Prod.mk.injEq] at h
        rw [← h.1]
        intro c hc
        simp at hc
      · simp only [he, if_false, Bool.false_eq_true, Option.some.injEq, Prod.mk.injEq] at h
        rw [← h.1]
        exact decodeInt64Elems_pos xs _ r hd hall

theorem edit_object_none_categories (fmtV : Float64 → String) (kv : List (String × JSONValue))
    (h : ValidateEditNewsRequest fmtV (some (JSONValue.object kv)) = none) (v : JSONValue)
    (hv : mapIndex kv "Categories" = some v) : v = JSONValue.null ∨ specCategoriesRule v := by
  unfold ValidateEditNewsRequest at h
  simp only [unmarshalRaw] at h
  split at h
  · exact absurd h (by simp)
  · split at h
    · exact absurd h (by simp)
    · split at h
      · exact absurd h (by simp)
      · rw [hv] at h
        by_cases hn : isNil v = true
        · exact Or.inl ((isNil_iff v).mp hn)
        · simp only [hn, Bool.not_false, Bool.false_eq_true, if_true, Bool.not_eq_true] at h
          refine Or.inr ((validateCategoriesArray_none_iff fmtV v).mp ?_)
          simpa [hn] using h

theorem runStrTags_tag (name : String) (isPtr : Bool) (s : String) (tags : List StrTag) :
    ∀ e ∈ runStrTags name isPtr s tags, e.Tag ≠ "gt" := by
  induction tags with
  | nil => simp [runStrTags]
  | cons t rest ih =>
    cases t <;> simp only [runStrTags] <;> split <;>
      first
      | exact ih
      | (intro e he
         simp only [List.mem_singleton] at he
         subst he
         simp)
      | simp

theorem validateStringPtr_tag (name : String) (tags : List StrTag) (t : Option String) :
    ∀ e ∈ validateStringPtr name tags t, e.Tag ≠ "gt" := by
  cases t with
  | none => simp [validateStringPtr]
  | some s => exact runStrTags_tag name true s tags

/-- C26, refuted as stated: the create body
`{"Title": "t", "Content": "c", "categories": [0]}` has no key `Categories`,
so the raw pre-validation accepts it without looking at the array; the body
parser matches the key `categories` to the field Categories and decodes the
list `[0]`, and `Validate` fails with "Categories[0]: must be greater than 0",
which is the error the handler returns. The edit body `{"categories": [0]}`
goes the same way. -/
theorem lowercase_categories_reach_gt_rule :
    ValidateCreateNewsRequest fmtSmallIntegral
        (bodyOf (some (JSONDoc.object [("Title", JSONDoc.string "t"),
          ("Content", JSONDoc.string "c"),
          ("categories", JSONDoc.array [JSONDoc.number ⟨Float64.finite 0, some 0⟩])]))) = none ∧
    bodyParserCreateForm (JSONDoc.object [("Title", JSONDoc.string "t"),
        ("Content", JSONDoc.string "c"),
        ("categories", JSONDoc.array [JSONDoc.number ⟨Float64.finite 0, some 0⟩])])
      = some ⟨"t", "c", some [0]⟩ ∧
    NewsHandler.CreateNews fmtSmallIntegral (recordingService (1, none) none ([], none))
        (some (JSONDoc.object [("Title", JSONDoc.string "t"), ("Content", JSONDoc.string "c"),
          ("categories", JSONDoc.array [JSONDoc.number ⟨Float64.finite 0, some 0⟩])])) []
      = (HandlerResult.failed (NewValidation "Categories[0]: must be greater than 0"), []) ∧
    ValidateEditNewsRequest fmtSmallIntegral
        (bodyOf (some (JSONDoc.object
          [("categories", JSONDoc.array [JSONDoc.number ⟨Float64.finite 0, some 0⟩])]))) = none ∧
    bodyParserEditForm (JSONDoc.object
        [("categories", JSONDoc.array [JSONDoc.number ⟨Float64.finite 0, some 0⟩])])
      = some ⟨none, none, some [0]⟩ ∧
    NewsHandler.EditNews fmtSmallIntegral (recordingService (1, none) none ([], none)) "10"
        (some (JSONDoc.object
          [("categories", JSONDoc.array [JSONDoc.number ⟨Float64.finite 0, some 0⟩])])) []
      = (HandlerResult.failed (NewValidation "Categories[0]: must be greater than 0"), []) := by
  have hc : ValidateCreateNewsRequest fmtSmallIntegral
      (bodyOf (some (JSONDoc.object [("Title", JSONDoc.string "t"),
        ("Content", JSONDoc.string "c"),
        ("categories", JSONDoc.array [JSONDoc.number ⟨Float64.finite 0, some 0⟩])]))) = none := by
    decide
  have he : ValidateEditNewsRequest fmtSmallIntegral
      (bodyOf (some (JSONDoc.object
        [("categories", JSONDoc.array [JSONDoc.number ⟨Float64.finite 0, some 0⟩])]))) = none := by
    decide
  refine ⟨hc, by decide, ?_, he, by decide, ?_⟩
  · exact create_handler_invalid fmtSmallIntegral _ _ [] ⟨"t", "c", some [0]⟩ _ hc
      (by decide) (by decide)
  · exact edit_handler_invalid fmtSmallIntegral _ "10" _ [] 10 ⟨none, none, some [0]⟩ _
      (by decide) he (by decide) (by decide)

/-- C26, amended: take a create or edit body in which the member the body
parser decodes last into Categories, the last one whose key spells Categories
in whatever letter case, is the member the raw pre-validation looks at, the
one under the key `Categories` exactly (and let the two conversions of every
number of that array agree in sign, as they do for the text of a number). Then
whenever the pre-validation accepts the body and the body parser decodes it
into the form, every element of the decoded Categories list is above zero, the
rule `dive,gt=0` on Categories reports nothing, and no error of
`validate.Struct` on the normalized form has the tag `gt`, so `Validate` does
not fail with "must be greater than 0". -/
theorem prevalidated_categories_positive (fmtV : Float64 → String) (body : Option JSONDoc)
    (hlast : ∀ kv, body = some (JSONDoc.object kv) →
      specRequestMember "Categories" kv = mapIndex kv "Categories")
    (hcoh : ∀ kv xs, body = some (JSONDoc.object kv) →
      mapIndex kv "Categories" = some (JSONDoc.array xs) →
      ∀ t, JSONDoc.number t ∈ xs → t.coherent) :
    (∀ F : NewsCreateForm, ValidateCreateNewsRequest fmtV (bodyOf body) = none →
      body.bind bodyParserCreateForm = some F →
      (∀ c ∈ F.Normalize.Categories.getD [], 0 < c) ∧
      validateInt64SlicePtr "Categories" 0 F.Normalize.Categories = [] ∧
      ∀ e ∈ F.Normalize.validateStruct, e.Tag ≠ "gt") ∧
    (∀ F : NewsEditForm, ValidateEditNewsRequest fmtV (bodyOf body) = none →
      body.bind bodyParserEditForm = some F →
      (∀ c ∈ F.Normalize.Categories.getD [], 0 < c) ∧
      validateInt64SlicePtr "Categories" 0 F.Normalize.Categories = [] ∧
      ∀ e ∈ F.Normalize.validateStruct, e.Tag ≠ "gt") := by
  have hnil : ∀ c : Option (List Int), (∀ x ∈ c.getD [], 0 < x) →
      validateInt64SlicePtr "Categories" 0 c = [] := by
    intro c hc
    rw [categories_nil_iff]
    intro cs hcs
    subst hcs
    exact hc
  have hpos : ∀ (kv : List (String × JSONDoc)) (cats : Option (List Int)),
      body = some (JSONDoc.object kv) →
      (∀ v, mapIndex (genericMembers kv) "Categories" = some v →
        v = JSONValue.null ∨ specCategoriesRule v) →
      (specRequestMember "Categories" kv = none → cats = none) →
      (∀ v, specRequestMember "Categories" kv = some v →
        ∃ cur mem left, decodeInt64SlicePtr v cur mem = some (cats, left)) →
      ∀ c ∈ cats.getD [], 0 < c := by
    intro kv cats hb hK hn hs
    have hl := hlast kv hb
    cases hm : mapIndex kv "Categories" with
    | none =>
      rw [hn (hl.trans hm)]
      intro c hc
      simp at hc
    | some v =>
      obtain ⟨cur, mem, left, hdec⟩ := hs v (hl.trans hm)
      refine decodeInt64SlicePtr_pos v cur mem cats left hdec (hK v.generic ?_) ?_
      · rw [mapIndex_genericMembers, hm]
        rfl
      · intro xs hx t ht
        exact hcoh kv xs hb (by rw [hm, hx]) t ht
  constructor
  · intro F h hp
    obtain ⟨kv, hb⟩ := create_valid_body_is_object fmtV body h
    have hb' := hb
    subst hb
    rw [bodyOf_object] at h
    have hK := ((create_object_none_iff fmtV _).mp h).2.2.2
    have hp' : bodyParserCreateForm (JSONDoc.object kv) = some F := by simpa using hp
    simp only [bodyParserCreateForm] at hp'
    cases hd : decodeCreateMembers kv ({ Title := "", Content := "", Categories := none }, []) with
    | none => simp [hd] at hp'
    | some r =>
      obtain ⟨F', st'⟩ := r
      simp only [hd, Option.map_some', Option.some.injEq] at hp'
      subst hp'
      obtain ⟨hn, hs⟩ := decodeCreateMembers_categories kv _ _ _ _ hd
      have hall : ∀ c ∈ F'.Normalize.Categories.getD [], 0 < c :=
        hpos kv F'.Categories hb' hK hn hs
      refine ⟨hall, hnil _ hall, ?_⟩
      intro e he
      simp only [NewsCreateForm.validateStruct, hnil _ hall, List.append_nil,
        List.mem_append] at he
      rcases he with he | he
      · exact runStrTags_tag _ _ _ _ e he
      · exact runStrTags_tag _ _ _ _ e he
  · intro F h hp
    obtain ⟨kv, hb⟩ := edit_valid_body_is_object fmtV body h
    have hb' := hb
    subst hb
    rw [bodyOf_object] at h
    have hK := edit_object_none_categories fmtV _ h
    have hp' : bodyParserEditForm (JSONDoc.object kv) = some F := by simpa using hp
    simp only [bodyParserEditForm] at hp'
    cases hd : decodeEditMembers kv ({ Title := none, Content := none, Categories := none }, [])
      with
    | none => simp [hd] at hp'
    | some r =>
      obtain ⟨F', st'⟩ := r
      simp only [hd, Option.map_some', Option.some.injEq] at hp'
      subst hp'
      obtain ⟨hn, hs⟩ := decodeEditMembers_categories kv _ _ _ _ hd
      have hall : ∀ c ∈ F'.Normalize.Categories.getD [], 0 < c := by
        rw [(edit_normalize_fields F').2.2]
        exact hpos kv F'.Categories hb' hK hn hs
      refine ⟨hall, hnil _ hall, ?_⟩
      intro e he
      simp only [NewsEditForm.validateStruct, hnil _ hall, List.append_nil,
        List.mem_append] at he
      rcases he with he | he
      · exact validateStringPtr_tag _ _ _ e he
      · exact validateStringPtr_tag _ _ _ e he

/-- Witness of the amended C26 on the create body
`{"Title": "t", "Content": "c", "Categories": [5, 7]}`, decoded into the form
with the Categories `[5, 7]`. -/
theorem prevalidated_categories_positive_witness :
    ValidateCreateNewsRequest fmtSmallIntegral
        (bodyOf (some (JSONDoc.object [("Title", JSONDoc.string "t"),
          ("Content", JSONDoc.string "c"),
          ("Categories", JSONDoc.array [JSONDoc.number ⟨Float64.finite 5, some 5⟩,
            JSONDoc.number ⟨Float64.finite 7, some 7⟩])]))) = none ∧
    ((∀ c ∈ (NewsCreateForm.Normalize ⟨"t", "c", some [5, 7]⟩).Categories.getD [], 0 < c) ∧
      validateInt64SlicePtr "Categories" 0
        (NewsCreateForm.Normalize ⟨"t", "c", some [5, 7]⟩).Categories = [] ∧
      ∀ e ∈ (NewsCreateForm.Normalize ⟨"t", "c", some [5, 7]⟩).validateStruct, e.Tag ≠ "gt") := by
  have hpre : ValidateCreateNewsRequest fmtSmallIntegral
      (bodyOf (some (JSONDoc.object [("Title", JSONDoc.string "t"),
        ("Content", JSONDoc.string "c"),
        ("Categories", JSONDoc.array [JSONDoc.number ⟨Float64.finite 5, some 5⟩,
          JSONDoc.number ⟨Float64.finite 7, some 7⟩])]))) = none := by
    rw [bodyOf_object, create_object_none_iff]
    refine ⟨by decide, ?_, ?_, ?_⟩
    · intro v hv
      simp only [genericMembers, mapIndex, JSONDoc.generic] at hv
      exact ⟨"t", by simpa using hv.symm⟩
    · intro v hv
      simp only [genericMembers, mapIndex, JSONDoc.generic] at hv
      exact ⟨"c", by simpa using hv.symm⟩
    · intro v hv
      simp only [genericMembers, mapIndex, JSONDoc.generic, genericList] at hv
      right
      have hv' : v = JSONValue.array [JSONValue.number (Float64.finite 5),
          JSONValue.number (Float64.finite 7)] := by simpa using hv.symm
      subst hv'
      intro x hx
      simp only [List.mem_cons, List.mem_singleton, List.not_mem_nil, or_false] at hx
      rcases hx with rfl | rfl <;> simp [specPositiveIntegerElement, Float64.toRat]
  exact ⟨hpre,
    (prevalidated_categories_positive fmtSmallIntegral
      (some (JSONDoc.object [("Title", JSONDoc.string "t"), ("Content", JSONDoc.string "c"),
        ("Categories", JSONDoc.array [JSONDoc.number ⟨Float64.finite 5, some 5⟩,
          JSONDoc.number ⟨Float64.finite 7, some 7⟩])]))
      (fun kv hb => by
        simp only [Option.some.injEq, JSONDoc.object.injEq] at hb
        subst hb
        rfl)
      (fun kv xs hb hm t ht => by
        simp only [Option.some.injEq, JSONDoc.object.injEq] at hb
        subst hb
        have hxs : xs = [JSONDoc.number ⟨Float64.finite 5, some 5⟩,
            JSONDoc.number ⟨Float64.finite 7, some 7⟩] := by
          simp only [mapIndex] at hm
          simpa using hm.symm
        subst hxs
        simp only [List.mem_cons, List.mem_singleton, List.not_mem_nil, or_false,
          JSONDoc.number.injEq] at ht
        intro n hn
        rcases ht with rfl | rfl
        · simp only [Option.some.injEq] at hn
          subst hn
          simp [Float64.toRat]
        · simp only [Option.some.injEq] at hn
          subst hn
          simp [Float64.toRat])).1
      ⟨"t", "c", some [5, 7]⟩ hpre (by decide)⟩

end NewsService
